import Mathlib

/-!
Kaloriebot: food search, energy model and profile store.

A shallow embedding of `src/App.jsx`.

Conventions of the embedding

* JavaScript strings are `String`; text processing works on the character list `String.data`.
* `String.prototype.toLowerCase` is a host built-in driven by the Unicode tables.  It is
  taken as a parameter `toLowerCase : List Char → List Char`; the only fact ever assumed
  about it is `PreservesBlank`.  `asciiLower` is a concrete instance for evaluation.
* JavaScript numbers are `Number`: `NaN`, a finite value or a signed infinity, with one
  unsigned zero.  A finite value is a rational.  `parseFloat`, `ToNumber`, the arithmetic
  of the energy model and of the calories of an entry, and the sums of `mealBreakdown`
  round to the nearest double as IEEE 754 prescribes (`Number.fadd`, `Number.fsub`,
  `Number.fmul`, `Number.fdiv` over `Number.roundDouble`, with underflow and overflow).
  The operations `+`, `-`, `*`, `/` of `Number` are the exact ones; they are used for the
  sums of `todayCal`, `dailyCalories` and `weeklyStats` and for the month index and the
  comparator of `allDays`, and agree with the doubles there as long as the values and
  their sums are integers below `2 ^ 53`, as with the calories that `addEntry` logs and
  the parts of a date.
* A computation that can raise a `TypeError` returns `Option`, with `none` for the exception.
* The food table `FOODS` (file `foods.js`) is a parameter.
-/

namespace Kaloriebot

open scoped List

/-! ## Numbers -/

/-- A JavaScript number: `NaN`, a finite value, or `±Infinity`. -/
inductive Number where
  | nan
  | fin (q : ℚ)
  | inf (negative : Bool)
  deriving DecidableEq

namespace Number

/-- Truthiness negated, `!x`: `NaN` and zero are the falsy numbers. -/
def isFalsy : Number → Bool
  | nan => true
  | fin q => q == 0
  | inf _ => false

/-- `x < y`; every comparison with `NaN` is false. -/
def lt : Number → Number → Bool
  | fin a, fin b => decide (a < b)
  | fin _, inf n => !n
  | inf n, fin _ => n
  | inf a, inf b => a && !b
  | _, _ => false

/-- `x <= y`. -/
def le : Number → Number → Bool
  | fin a, fin b => decide (a ≤ b)
  | fin _, inf n => !n
  | inf n, fin _ => n
  | inf a, inf b => a || !b
  | _, _ => false

/-- `x > y`. -/
def gt (x y : Number) : Bool := lt y x

/-- `x >= y`. -/
def ge (x y : Number) : Bool := le y x

/-- Unary minus. -/
def neg : Number → Number
  | nan => nan
  | fin a => fin (-a)
  | inf n => inf (!n)

/-- The exact sum `x + y`. -/
def add : Number → Number → Number
  | fin a, fin b => fin (a + b)
  | fin _, inf n => inf n
  | inf n, fin _ => inf n
  | inf a, inf b => if a = b then inf a else nan
  | _, _ => nan

/-- The exact difference `x - y`. -/
def sub (x y : Number) : Number := add x (neg y)

/-- The exact product `x * y`. -/
def mul : Number → Number → Number
  | fin a, fin b => fin (a * b)
  | fin a, inf n => if a = 0 then nan else inf (xor (decide (a < 0)) n)
  | inf n, fin b => if b = 0 then nan else inf (xor n (decide (b < 0)))
  | inf a, inf b => inf (xor a b)
  | _, _ => nan

/-- The exact quotient `x / y`; a finite non-zero value divided by zero is an infinity,
`0 / 0` is `NaN`. -/
def div : Number → Number → Number
  | fin a, fin b =>
    if b = 0 then (if a = 0 then nan else inf (decide (a < 0))) else fin (a / b)
  | fin _, inf _ => fin 0
  | inf n, fin b => inf (xor n (decide (b < 0)))
  | _, _ => nan

/-- `Math.round(x)`: the nearest integer, halves rounded up. -/
def round : Number → Number
  | fin q => fin (Int.floor (q + 1 / 2) : ℤ)
  | x => x

instance : Add Number := ⟨add⟩
instance : Sub Number := ⟨sub⟩
instance : Mul Number := ⟨mul⟩
instance : Div Number := ⟨div⟩

/-! ### Doubles -/

/-- The integer nearest to `n / d`, a tie going to the even one. -/
def roundHalfEven (n d : Nat) : Nat :=
  if 2 * (n % d) < d then n / d
  else if d < 2 * (n % d) then n / d + 1
  else if n / d % 2 = 0 then n / d else n / d + 1

/-- Worker of `floorLog2`, by recursion on a bound of the number of halvings. -/
def floorLog2Aux : Nat → Nat → Nat
  | 0, _ => 0
  | fuel + 1, n => if n < 2 then 0 else floorLog2Aux fuel (n / 2) + 1

/-- The position of the leading bit of `n`: `2 ^ floorLog2 n ≤ n < 2 ^ (floorLog2 n + 1)`
for positive `n`. -/
def floorLog2 (n : Nat) : Nat :=
  floorLog2Aux n n

/-- The exponent `e` with `2 ^ e ≤ n / d < 2 ^ (e + 1)`, for positive `n` and `d`. -/
def binade (n d : Nat) : Int :=
  if (if floorLog2 d ≤ floorLog2 n then d * 2 ^ (floorLog2 n - floorLog2 d) ≤ n
      else d ≤ n * 2 ^ (floorLog2 d - floorLog2 n)) then
    (floorLog2 n : Int) - (floorLog2 d : Int)
  else (floorLog2 n : Int) - (floorLog2 d : Int) - 1

/-- The exponent of the unit in the last place of the doubles around `q`: 52 binary places
below the leading bit, and `-1074` in the subnormal range. -/
def ulpExponent (q : ℚ) : Int :=
  max (binade q.num.natAbs q.den - 52) (-1074)

/-- The absolute value of `q` in units of the last place, rounded to the nearest integer,
ties to even. -/
def mantissa (q : ℚ) : Nat :=
  if 0 ≤ ulpExponent q then roundHalfEven q.num.natAbs (q.den * 2 ^ (ulpExponent q).toNat)
  else roundHalfEven (q.num.natAbs * 2 ^ (- ulpExponent q).toNat) q.den

/-- The absolute value of `q` rounded to the grid of the doubles, before the test for
overflow. -/
def nearest (q : ℚ) : ℚ :=
  (mantissa q : ℚ) * (2 : ℚ) ^ ulpExponent q

/-- The double nearest to the rational `q` (IEEE 754 binary64, round to nearest, ties to
even): an infinity from `2 ^ 1024` on, zero when the value underflows. -/
def roundDouble (q : ℚ) : Number :=
  if (2 : ℚ) ^ (1024 : ℕ) ≤ nearest q then inf (decide (q < 0))
  else fin (if q < 0 then - nearest q else nearest q)

/-- The result of an exact operation as the double that the code gets. -/
def toDouble : Number → Number
  | fin q => roundDouble q
  | x => x

/-- `x + y` on doubles: the exact sum rounded to the nearest double. -/
def fadd (x y : Number) : Number := toDouble (x + y)

/-- `x - y` on doubles. -/
def fsub (x y : Number) : Number := toDouble (x - y)

/-- `x * y` on doubles. -/
def fmul (x y : Number) : Number := toDouble (x * y)

/-- `x / y` on doubles. -/
def fdiv (x y : Number) : Number := toDouble (x / y)

end Number

/-! ## Strings -/

/-- The characters of the regular-expression class `\s` (ECMAScript WhiteSpace and
LineTerminator); `String.prototype.trim` strips exactly these. -/
def isWhiteSpace (c : Char) : Bool :=
  c.toNat == 9 || c.toNat == 10 || c.toNat == 11 || c.toNat == 12 || c.toNat == 13 ||
  c.toNat == 32 || c.toNat == 160 || c.toNat == 5760 ||
  (decide (8192 ≤ c.toNat) && decide (c.toNat ≤ 8202)) ||
  c.toNat == 8232 || c.toNat == 8233 || c.toNat == 8239 || c.toNat == 8287 ||
  c.toNat == 12288 || c.toNat == 65279

/-- The character class `[\s,()\/\-]` used by `tokenize`. -/
def isTokenSep (c : Char) : Bool :=
  isWhiteSpace c || c == ',' || c == '(' || c == ')' || c == '/' || c == '-'

/-- `String.prototype.trim`. -/
def trim (s : List Char) : List Char :=
  ((s.dropWhile isWhiteSpace).reverse.dropWhile isWhiteSpace).reverse

/-- Worker of `splitRegex`; `inSep` tells that the previous character was a separator, so
that a run of separators is one match of the regular expression. -/
def splitAux (sep : Char → Bool) : Bool → List Char → List (List Char)
  | _, [] => [[]]
  | inSep, c :: cs =>
    if sep c then
      (if inSep then splitAux sep true cs else [] :: splitAux sep true cs)
    else
      match splitAux sep false cs with
      | [] => [[c]]
      | p :: ps => (c :: p) :: ps

/-- `s.split(/[…]+/)` for a character class given as the predicate `sep`: the pieces between
maximal runs of separator characters, empty pieces at either end included. -/
def splitRegex (sep : Char → Bool) (s : List Char) : List (List Char) :=
  splitAux sep false s

/-- `.filter(Boolean)` on an array of strings: the empty string is the only falsy one. -/
def filterBoolean (l : List (List Char)) : List (List Char) :=
  l.filter (fun t => !t.isEmpty)

/-- `s.length`: the number of UTF-16 code units. -/
def jsLength (s : String) : Nat :=
  (s.data.map (fun c => if c.toNat < 65536 then 1 else 2)).sum

/-- A lowercasing function sends blank strings to blank strings and others to others. -/
def PreservesBlank (toLowerCase : List Char → List Char) : Prop :=
  ∀ s : List Char, (toLowerCase s).all isWhiteSpace = s.all isWhiteSpace

/-- Lowercasing of the letters `A`–`Z`, all other characters unchanged. -/
def asciiLower (s : List Char) : List Char :=
  s.map (fun c => if 65 ≤ c.toNat ∧ c.toNat ≤ 90 then Char.ofNat (c.toNat + 32) else c)

/-! ## Search ranker (`filtered`) -/

/-- An entry of the food table: `n` is the name, `c` the calories per 100 g. -/
structure Food where
  n : String
  c : Number
  deriving DecidableEq

/-- An element of the `results` array: `{ food, score }`. -/
structure Scored where
  food : Food
  score : Int
  deriving DecidableEq

/-- `search.toLowerCase().split(/\s+/).filter(Boolean)`. -/
def searchWords (toLowerCase : List Char → List Char) (search : String) : List (List Char) :=
  filterBoolean (splitRegex isWhiteSpace (toLowerCase search.data))

/-- `name.toLowerCase().split(/[\s,()\/\-]+/).filter(Boolean)`. -/
def tokenize (toLowerCase : List Char → List Char) (name : String) : List (List Char) :=
  filterBoolean (splitRegex isTokenSep (toLowerCase name.data))

/-- `tokens.some(t => t.startsWith(sw))`. -/
def wordMatches (tokens : List (List Char)) (sw : List Char) : Bool :=
  tokens.any (fun t => sw.isPrefixOf t)

/-- `Math.max(0, 5 - Math.floor(food.n.length / 15))`. -/
def lengthBonus (food : Food) : Int :=
  max 0 (5 - ((jsLength food.n / 15 : Nat) : Int))

/-- The `for (const sw of searchWords)` loop of `score` followed by the length bonus; `s` is
the running score.  `none` is the `TypeError` of `tokens[0].startsWith` on an empty array. -/
def scoreLoop (food : Food) (tokens : List (List Char)) : List (List Char) → Int → Option Int
  | [], s => some (s + lengthBonus food)
  | sw :: rest, s =>
    let exactMatch := tokens.any (fun t => t == sw)
    let startMatch := tokens.any (fun t => sw.isPrefixOf t)
    if exactMatch then
      match tokens.head? with
      | none => none
      | some t0 => if sw.isPrefixOf t0 then scoreLoop food tokens rest (s + 10 + 3)
                   else scoreLoop food tokens rest (s + 10)
    else if startMatch then
      match tokens.head? with
      | none => none
      | some t0 => if sw.isPrefixOf t0 then scoreLoop food tokens rest (s + 5 + 3)
                   else scoreLoop food tokens rest (s + 5)
    else some (-1)

/-- The closure `score` of `filtered`. -/
def score (toLowerCase : List Char → List Char) (searchWords : List (List Char))
    (food : Food) : Option Int :=
  scoreLoop food (tokenize toLowerCase food.n) searchWords 0

/-- The loop `for (const food of FOODS) …` that fills `results`. -/
def collectResults (toLowerCase : List Char → List Char) (searchWords : List (List Char)) :
    List Food → Option (List Scored)
  | [] => some []
  | food :: rest =>
    match score toLowerCase searchWords food with
    | none => none
    | some s =>
      match collectResults toLowerCase searchWords rest with
      | none => none
      | some results => some (if s > 0 then ⟨food, s⟩ :: results else results)

/-- `results.sort((a, b) => b.score - a.score)`: `Array.prototype.sort` is stable, and the
comparator puts `a` first when its score is the larger one.  Stable insertion sort. -/
def sortResults (results : List Scored) : List Scored :=
  results.insertionSort (fun a b => a.score ≥ b.score)

/-- The order of `sortResults` is total. -/
instance scoreGe_total : IsTotal Scored (fun a b => a.score ≥ b.score) :=
  ⟨fun a b => le_total b.score a.score⟩

/-- The order of `sortResults` is transitive. -/
instance scoreGe_trans : IsTrans Scored (fun a b => a.score ≥ b.score) :=
  ⟨fun _ _ _ hab hbc => le_trans hbc hab⟩

/-- The memoised value `filtered`, as a function of the food table and the search text. -/
def filtered (toLowerCase : List Char → List Char) (FOODS : List Food) (search : String) :
    Option (List Food) :=
  if trim search.data = [] then some (FOODS.take 10)
  else
    match collectResults toLowerCase (searchWords toLowerCase search) FOODS with
    | none => none
    | some results => some (((sortResults results).map (fun r => r.food)).take 30)

/-- The query is empty or consists of whitespace only. -/
def isBlank (search : String) : Bool :=
  search.data.all isWhiteSpace

/-- All search words match the food: each is the start of some token of its name. -/
def matchesAll (toLowerCase : List Char → List Char) (searchWords : List (List Char))
    (food : Food) : Bool :=
  searchWords.all (fun sw => wordMatches (tokenize toLowerCase food.n) sw)

/-- Points of one search word: 10 when some token equals it, otherwise 5. -/
def wordPoints (tokens : List (List Char)) (sw : List Char) : Int :=
  if tokens.any (fun t => t == sw) then 10 else 5

/-- The bonus of one search word: 3 when the first token of the name starts with it. -/
def firstTokenBonus (tokens : List (List Char)) (sw : List Char) : Int :=
  match tokens.head? with
  | some t0 => if sw.isPrefixOf t0 then 3 else 0
  | none => 0

/-- The score as the specification words it: the points of every search word, the
first-token bonus of every search word, and the length bonus once. -/
def scoreSpec (toLowerCase : List Char → List Char) (searchWords : List (List Char))
    (food : Food) : Int :=
  (searchWords.map (wordPoints (tokenize toLowerCase food.n))).sum +
  (searchWords.map (firstTokenBonus (tokenize toLowerCase food.n))).sum +
  lengthBonus food

/-! ## `parseFloat` -/

/-- What the grammar `StrDecimalLiteral` finds at the start of a string. -/
inductive Scanned where
  | notNumeric
  | infinity (negative : Bool)
  | decimal (negative : Bool) (mantissa : Nat) (exponent : Int)
  deriving DecidableEq

/-- The value of a run of decimal digits. -/
def digitsValue (ds : List Char) : Nat :=
  ds.foldl (fun acc c => 10 * acc + (c.toNat - 48)) 0

/-- The value of an optional `ExponentPart` (`e` or `E`, an optional sign, digits) at the
start of `s`; 0 when there is none. -/
def exponentPart (s : List Char) : Int :=
  match s with
  | [] => 0
  | c :: r =>
    if c == 'e' || c == 'E' then
      let negative := r.head? == some '-'
      let d := match r with
        | '+' :: d => d
        | '-' :: d => d
        | _ => r
      let ds := d.takeWhile Char.isDigit
      if ds.isEmpty then 0
      else if negative then - (digitsValue ds : Int) else (digitsValue ds : Int)
    else 0

/-- The longest prefix of the string, leading white space skipped, that is a
`StrDecimalLiteral`: a sign, then `Infinity` or digits with an optional fraction and
exponent.  The decimal `mantissa * 10 ^ exponent` is returned unevaluated. -/
def scanNumber (s : List Char) : Scanned :=
  let t := s.dropWhile isWhiteSpace
  let negative := t.head? == some '-'
  let u := match t with
    | '+' :: r => r
    | '-' :: r => r
    | _ => t
  if "Infinity".data.isPrefixOf u then .infinity negative
  else
    let ip := u.takeWhile Char.isDigit
    let r1 := u.dropWhile Char.isDigit
    let fp := match r1 with
      | '.' :: r => r.takeWhile Char.isDigit
      | _ => []
    let r2 := match r1 with
      | '.' :: r => r.dropWhile Char.isDigit
      | _ => r1
    if ip.isEmpty && fp.isEmpty then .notNumeric
    else .decimal negative (digitsValue (ip ++ fp)) (exponentPart r2 - (fp.length : Int))

/-- `parseFloat` of a string: the double nearest to the decimal that is read, as the
engines compute it for any number of digits. -/
def parseFloatString (s : List Char) : Number :=
  match scanNumber s with
  | .notNumeric => .nan
  | .infinity negative => .inf negative
  | .decimal negative mantissa exponent =>
    Number.roundDouble ((if negative then -1 else 1) * (mantissa : ℚ) * (10 : ℚ) ^ exponent)

/-- The values handed to `parseFloat` in this program: numbers and strings. -/
inductive Value where
  | num (x : Number)
  | str (s : String)
  deriving DecidableEq

/-- `parseFloat(v)`.  A number is first converted to a string, which parses back to the
same number. -/
def parseFloat : Value → Number
  | .num x => x
  | .str s => parseFloatString s.data

/-! ## Energy model -/

/-- An element of `ACTIVITY_LEVELS` (`label` and `desc` are display texts and left out). -/
structure ActivityLevel where
  id : String
  factor : Number
  deriving DecidableEq

/-- The table `ACTIVITY_LEVELS`; the factors are the doubles of the literals `1.2`,
`1.375`, `1.55`, `1.725` and `1.9`. -/
def ACTIVITY_LEVELS : List ActivityLevel :=
  [ ⟨"sedentary", Number.roundDouble (6 / 5)⟩,
    ⟨"light", Number.roundDouble (11 / 8)⟩,
    ⟨"moderate", Number.roundDouble (31 / 20)⟩,
    ⟨"active", Number.roundDouble (69 / 40)⟩,
    ⟨"extreme", Number.roundDouble (19 / 10)⟩ ]

/-- `calcBMR(w, h, a, sex)`: `10*w + 6.25*h - 5*a + 5` or `… - 161`, evaluated from left to
right in doubles. -/
def calcBMR (w h a : Number) (sex : String) : Number :=
  if sex = "male" then
    Number.fadd
      (Number.fsub (Number.fadd (Number.fmul (.fin 10) w) (Number.fmul (.fin (25 / 4)) h))
        (Number.fmul (.fin 5) a))
      (.fin 5)
  else
    Number.fsub
      (Number.fsub (Number.fadd (Number.fmul (.fin 10) w) (Number.fmul (.fin (25 / 4)) h))
        (Number.fmul (.fin 5) a))
      (.fin 161)

/-- `calcBMI(wKg, hCm)`; `none` is `null`. -/
def calcBMI (wKg hCm : Value) : Option Number :=
  let w := parseFloat wKg
  let hm := Number.fdiv (parseFloat hCm) (.fin 100)
  if w.gt (.fin 0) && hm.gt (.fin 0) then some (Number.fdiv w (Number.fmul hm hm)) else none

/-- The stored profile. -/
structure Profile where
  name : String
  weight : Number
  height : Number
  age : Number
  sex : String
  deriving DecidableEq

/-- The constant `bmr` of the component: `null` without a stored profile. -/
def bmr (savedProfile : Option Profile) : Option Number :=
  match savedProfile with
  | none => none
  | some p => some (calcBMR p.weight p.height p.age p.sex)

/-- `ACTIVITY_LEVELS.find(a => a.id === activity)?.factor || 1.55`. -/
def actFactor (activity : String) : Number :=
  match ACTIVITY_LEVELS.find? (fun a => a.id == activity) with
  | none => Number.roundDouble (31 / 20)
  | some a => if a.factor.isFalsy then Number.roundDouble (31 / 20) else a.factor

/-- The constant `tdee`: `bmr ? Math.round(bmr * actFactor) : null`.  A `bmr` that is
`null`, zero or `NaN` is falsy. -/
def tdee (savedProfile : Option Profile) (activity : String) : Option Number :=
  match bmr savedProfile with
  | none => none
  | some b =>
    if b.isFalsy then none else some (Number.round (Number.fmul b (actFactor activity)))

/-! ## Component state and `saveProfile` -/

/-- The texts shown in `validationErr`.
* `empty`: the empty string
* `name`: "Indtast dit fornavn"
* `weight`: "Indtast en gyldig vægt (1-500 kg)"
* `height`: "Indtast en gyldig højde (50-280 cm)"
* `age`: "Indtast en gyldig alder (1-130 år)"
* `bmi b`: "Usandsynligt BMI (…). Tjek dine værdier — højde i cm.", with `b.toFixed(1)` inside
* `backup`: "Ugyldig backup-fil" -/
inductive Message where
  | empty
  | name
  | weight
  | height
  | age
  | bmi (testBmi : Number)
  | backup
  deriving DecidableEq

/-- An element of `entries`; `meal` is absent in entries stored by earlier versions. -/
structure Entry where
  id : Nat
  food : String
  amount : Number
  unit : String
  calories : Number
  date : String
  meal : Option String
  time : String
  deriving DecidableEq

/-- An element of `weightLogs`. -/
structure WeightLog where
  date : String
  weight : Number
  ts : Nat
  deriving DecidableEq

/-- The state of the component `App` that its logic reads and writes, with the initial
values of the `useState` calls as defaults. -/
structure State where
  firstName : String := ""
  weight : String := ""
  height : String := ""
  age : String := ""
  sex : String := "male"
  activity : String := "moderate"
  profileSaved : Bool := false
  savedProfile : Option Profile := none
  entries : List Entry := []
  search : String := ""
  selectedFood : Option Food := none
  amount : String := ""
  customName : String := ""
  customCal : String := ""
  customAmt : String := ""
  validationErr : Message := .empty
  favorites : List String := []
  recentFoods : List Food := []
  selectedMeal : String := "breakfast"
  weightLogs : List WeightLog := []
  newWeight : String := ""
  deriving DecidableEq

/-- `saveProfile()`.  `none` is the `TypeError` of `testBmi.toFixed` when `calcBMI` has
returned `null` (then `null < 5` holds and the message is built). -/
def saveProfile (st : State) : Option State :=
  if trim st.firstName.data = [] then some { st with validationErr := .name }
  else
    let w := parseFloat (.str st.weight)
    let h := parseFloat (.str st.height)
    let a := parseFloat (.str st.age)
    if w.isFalsy || w.le (.fin 0) || w.gt (.fin 500) then
      some { st with validationErr := .weight }
    else if h.isFalsy || h.lt (.fin 50) || h.gt (.fin 280) then
      some { st with validationErr := .height }
    else if a.isFalsy || a.lt (.fin 1) || a.gt (.fin 130) then
      some { st with validationErr := .age }
    else
      match calcBMI (.num w) (.num h) with
      | none => none
      | some testBmi =>
        if testBmi.lt (.fin 5) || testBmi.gt (.fin 100) then
          some { st with validationErr := .bmi testBmi }
        else
          some { st with
            validationErr := .empty
            savedProfile := some
              { name := ⟨trim st.firstName.data⟩, weight := w, height := h, age := a,
                sex := st.sex }
            profileSaved := true }

/-- Rule 1 of a profile draft: the name is not empty after trimming. -/
def nameRule (st : State) : Prop :=
  trim st.firstName.data ≠ []

/-- Rule 2: the weight is a number with `0 < weight ≤ 500`. -/
def weightRule (st : State) : Prop :=
  ∃ w : ℚ, parseFloat (.str st.weight) = .fin w ∧ 0 < w ∧ w ≤ 500

/-- Rule 3: the height is a number with `50 ≤ height ≤ 280`. -/
def heightRule (st : State) : Prop :=
  ∃ h : ℚ, parseFloat (.str st.height) = .fin h ∧ 50 ≤ h ∧ h ≤ 280

/-- Rule 4: the age is a number with `1 ≤ age ≤ 130`. -/
def ageRule (st : State) : Prop :=
  ∃ a : ℚ, parseFloat (.str st.age) = .fin a ∧ 1 ≤ a ∧ a ≤ 130

/-- Rule 5: the body-mass index that `calcBMI` computes lies in `[5, 100]`. -/
def bmiRule (st : State) : Prop :=
  ∃ b : ℚ, calcBMI (.str st.weight) (.str st.height) = some (.fin b) ∧ 5 ≤ b ∧ b ≤ 100

/-! ## Body-mass-index categories -/

/-- An element of `BMI_CATS`. -/
structure BmiCat where
  max : Number
  label : String
  color : String
  deriving DecidableEq

/-- The table `BMI_CATS`. -/
def BMI_CATS : List BmiCat :=
  [ ⟨.fin (37 / 2), "Undervægtig", "#5BA4CF"⟩,
    ⟨.fin 25, "Normalvægtig", "#66BB6A"⟩,
    ⟨.fin 30, "Overvægtig", "#FFA726"⟩,
    ⟨.fin 100, "Svær overvægt", "#EF5350"⟩ ]

/-- `getBmiCat(bmi)`: `BMI_CATS.find(c => bmi < c.max) || BMI_CATS[3]`. -/
def getBmiCat (bmi : Number) : BmiCat :=
  match BMI_CATS.find? (fun c => bmi.lt c.max) with
  | some c => c
  | none => BMI_CATS.get ⟨3, by decide⟩

/-! ## Entries, recents, favorites and weight logs -/

/-- `arr.findIndex(p)`: the index of the first element that satisfies `p`; `none` stands for
the result `-1`. -/
def findIndex {α : Type} (p : α → Bool) : List α → Option Nat
  | [] => none
  | x :: xs => if p x then some 0 else (findIndex p xs).map (fun i => i + 1)

/-- The array with the element at index `i` replaced by `f` of it
(`updated[i] = f(updated[i])` on a copy). -/
def updateAt {α : Type} (f : α → α) : Nat → List α → List α
  | _, [] => []
  | 0, x :: xs => f x :: xs
  | i + 1, x :: xs => x :: updateAt f i xs

/-- `toggleFavorite(foodName)`. -/
def toggleFavorite (foodName : String) (st : State) : State :=
  { st with
    favorites :=
      if st.favorites.contains foodName then st.favorites.filter (fun f => f != foodName)
      else st.favorites ++ [foodName] }

/-- `addToRecent(food)`. -/
def addToRecent (food : Food) (st : State) : State :=
  { st with
    recentFoods := (food :: st.recentFoods.filter (fun ff => ff.n != food.n)).take 15 }

/-- `addEntry()`.  `now` is the value of `Date.now()`, `todayStr` the local date text of the
render and `time` the local time text. -/
def addEntry (now : Nat) (todayStr time : String) (st : State) : State :=
  match st.selectedFood with
  | none => st
  | some selectedFood =>
    if st.amount == "" || (parseFloat (.str st.amount)).le (.fin 0) then st
    else
      let cal := Number.round
        (Number.fmul (Number.fdiv selectedFood.c (.fin 100)) (parseFloat (.str st.amount)))
      let st1 : State :=
        { st with
          entries := st.entries ++
            [{ id := now, food := selectedFood.n, amount := parseFloat (.str st.amount),
               unit := "g", calories := cal, date := todayStr, meal := some st.selectedMeal,
               time := time }] }
      { addToRecent selectedFood st1 with selectedFood := none, amount := "", search := "" }

/-- `addCustom()`, with the same three values from the environment as `addEntry`. -/
def addCustom (now : Nat) (todayStr time : String) (st : State) : State :=
  if st.customName == "" || st.customCal == "" || st.customAmt == "" then st
  else
    let cal := Number.round
      (Number.fmul (Number.fdiv (parseFloat (.str st.customCal)) (.fin 100))
        (parseFloat (.str st.customAmt)))
    let customFood : Food := { n := st.customName, c := parseFloat (.str st.customCal) }
    let st1 : State :=
      { st with
        entries := st.entries ++
          [{ id := now, food := st.customName, amount := parseFloat (.str st.customAmt),
             unit := "g", calories := cal, date := todayStr, meal := some st.selectedMeal,
             time := time }] }
    { addToRecent customFood st1 with customName := "", customCal := "", customAmt := "" }

/-- `removeEntry(id)`. -/
def removeEntry (id : Nat) (st : State) : State :=
  { st with entries := st.entries.filter (fun e => e.id != id) }

/-- The updater that `addWeightLog` passes to `setWeightLogs`: the log of `today`, if there
is one, gets the weight `w` in a copy of the array; otherwise a new log is appended. -/
def weightLogsUpdater (today : String) (w : Number) (now : Nat) (prev : List WeightLog) :
    List WeightLog :=
  match findIndex (fun l => l.date == today) prev with
  | some existing => updateAt (fun l => { l with weight := w }) existing prev
  | none => prev ++ [{ date := today, weight := w, ts := now }]

/-- `addWeightLog()`.  `today` is the local date text and `now` the value of `Date.now()`. -/
def addWeightLog (today : String) (now : Nat) (st : State) : State :=
  let w := parseFloat (.str st.newWeight)
  if w.isFalsy || w.le (.fin 0) || w.gt (.fin 500) then st
  else
    { st with
      weightLogs := weightLogsUpdater today w now st.weightLogs
      newWeight := ""
      savedProfile := st.savedProfile.map (fun prev => { prev with weight := w }) }

/-- `removeWeightLog(ts)`. -/
def removeWeightLog (ts : Nat) (st : State) : State :=
  { st with weightLogs := st.weightLogs.filter (fun l => l.ts != ts) }

/-- A call on the weight log: the text typed into the weight field followed by
`addWeightLog()`, or `removeWeightLog(ts)`. -/
inductive WeightAction where
  | log (newWeight today : String) (now : Nat)
  | remove (ts : Nat)

/-- The effect of one call on the weight log. -/
def WeightAction.run : WeightAction → State → State
  | .log newWeight today now, st => addWeightLog today now { st with newWeight := newWeight }
  | .remove ts, st => removeWeightLog ts st

/-- The effect of a sequence of calls on the weight log, first call first. -/
def runWeightActions (acts : List WeightAction) (st : State) : State :=
  acts.foldl (fun s a => a.run s) st

/-- The effect of recording a sequence of foods with `addToRecent`, first food first. -/
def recordAll (foods : List Food) (st : State) : State :=
  foods.foldl (fun s f => addToRecent f s) st

/-- A call on the entries: the form fields as the user has set them followed by `addEntry()`
or `addCustom()`, or `removeEntry(id)`. -/
inductive EntryAction where
  | add (selectedFood : Option Food) (amount selectedMeal : String) (now : Nat)
      (todayStr time : String)
  | custom (customName customCal customAmt selectedMeal : String) (now : Nat)
      (todayStr time : String)
  | remove (id : Nat)

/-- The effect of one call on the entries. -/
def EntryAction.run : EntryAction → State → State
  | .add selectedFood amount selectedMeal now todayStr time, st =>
    addEntry now todayStr time
      { st with selectedFood := selectedFood, amount := amount, selectedMeal := selectedMeal }
  | .custom customName customCal customAmt selectedMeal now todayStr time, st =>
    addCustom now todayStr time
      { st with customName := customName, customCal := customCal, customAmt := customAmt,
                selectedMeal := selectedMeal }
  | .remove id, st => removeEntry id st

/-- The value that `Date.now()` returned in a call, if the call reads the clock. -/
def EntryAction.clock : EntryAction → Option Nat
  | .add _ _ _ now _ _ => some now
  | .custom _ _ _ _ now _ _ => some now
  | .remove _ => none

/-- The effect of a sequence of calls on the entries, first call first. -/
def runEntryActions (acts : List EntryAction) (st : State) : State :=
  acts.foldl (fun s a => a.run s) st

/-! ## Profile form, profile history and backup -/

/-- `editProfile()`.  `numberToString` is the conversion `String(x)` of a number. -/
def editProfile (numberToString : Number → String) (st : State) : State :=
  let st1 : State :=
    match st.savedProfile with
    | some p =>
      { st with
        firstName := if p.name == "" then "" else p.name
        weight := numberToString p.weight
        height := numberToString p.height
        age := numberToString p.age
        sex := p.sex }
    | none => st
  { st1 with profileSaved := false, validationErr := .empty }

/-- A call on the profile: the form fields as typed followed by `saveProfile()`, or the
weight field as typed followed by `addWeightLog()`. -/
inductive ProfileAction where
  | save (firstName weight height age sex : String)
  | logWeight (newWeight today : String) (now : Nat)

/-- The effect of one call on the profile; `none` is an exception. -/
def ProfileAction.run : ProfileAction → State → Option State
  | .save firstName weight height age sex, st =>
    saveProfile
      { st with firstName := firstName, weight := weight, height := height, age := age,
                sex := sex }
  | .logWeight newWeight today now, st =>
    some (addWeightLog today now { st with newWeight := newWeight })

/-- The effect of a sequence of calls on the profile, first call first. -/
def runProfileActions : List ProfileAction → State → Option State
  | [], st => some st
  | a :: acts, st =>
    match a.run st with
    | none => none
    | some st1 => runProfileActions acts st1

/-- The rules of `saveProfile` on name, weight, height and age, read on a stored profile. -/
def ProfileInRanges (p : Profile) : Prop :=
  p.name ≠ "" ∧ (∃ w : ℚ, p.weight = .fin w ∧ 0 < w ∧ w ≤ 500) ∧
  (∃ h : ℚ, p.height = .fin h ∧ 50 ≤ h ∧ h ≤ 280) ∧
  (∃ a : ℚ, p.age = .fin a ∧ 1 ≤ a ∧ a ≤ 130)

/-- The body-mass-index rule of `saveProfile`, read on a stored profile: the value that
`calcBMI` computes from its weight and height lies in `[5, 100]`. -/
def ProfileBmiPlausible (p : Profile) : Prop :=
  ∃ b : ℚ, calcBMI (.num p.weight) (.num p.height) = some (.fin b) ∧ 5 ≤ b ∧ b ≤ 100

/-- `key.startsWith("kalorie_")`. -/
def hasNamespace (key : String) : Bool :=
  "kalorie_".data.isPrefixOf key.data

/-- `obj[k] = v` on an object used as a dictionary, and `localStorage.setItem(k, v)`: the
value of an existing key is replaced in place, a new key is added at the end. -/
def setItem {α : Type} (k : String) (v : α) : List (String × α) → List (String × α)
  | [] => [(k, v)]
  | (k1, v1) :: rest => if k1 = k then (k, v) :: rest else (k1, v1) :: setItem k v rest

/-- `obj[k]` on an object used as a dictionary, and `localStorage.getItem(k)`; `none` is
`undefined` (`null` for the storage). -/
def getItem {α : Type} (k : String) : List (String × α) → Option α
  | [] => none
  | (k1, v1) :: rest => if k1 = k then some v1 else getItem k rest

/-- The object `data` that `exportData` builds from the storage: the namespaced keys with
their values passed through `JSON.parse`.  `none` is the exception of `JSON.parse` on a
stored text that is no JSON. -/
def exportData {T J : Type} (parse : T → Option J) :
    List (String × T) → Option (List (String × J))
  | [] => some []
  | (k, v) :: rest =>
    if hasNamespace k then
      match parse v with
      | none => none
      | some j =>
        match exportData parse rest with
        | none => none
        | some data => some ((k, j) :: data)
    else exportData parse rest

/-- The storage after the `forEach` of `importData` over the entries of the parsed backup
`data`: every namespaced key is written with its value passed through `JSON.stringify`. -/
def importData {T J : Type} (stringify : J → T) (data : List (String × J))
    (storage : List (String × T)) : List (String × T) :=
  data.foldl
    (fun st kv => if hasNamespace kv.1 then setItem kv.1 (stringify kv.2) st else st) storage

/-! ## Aggregations

Objects that the code uses as dictionaries (`dc`, `bd`, `days`) are lists of key and value
in the order of insertion, read and written with `getItem` and `setItem`.  This is what
JavaScript does for keys that are not names of members of `Object.prototype` (such a key
is found on the prototype) and, where the order is read, not array indices; the results
on `dailyCalories` are stated for lookups of keys that are no such names. -/

/-- The names of the members of `Object.prototype`. -/
def objectPrototypeKeys : List String :=
  ["constructor", "__defineGetter__", "__defineSetter__", "hasOwnProperty",
   "__lookupGetter__", "__lookupSetter__", "isPrototypeOf", "propertyIsEnumerable",
   "toString", "valueOf", "__proto__", "toLocaleString"]

/-- The key is no name of a member of `Object.prototype`. -/
def isPlainKey (k : String) : Bool :=
  !objectPrototypeKeys.contains k

/-- `x || 0` for `x` a number or `undefined`. -/
def orZero : Option Number → Number
  | some v => if v.isFalsy then .fin 0 else v
  | none => .fin 0

/-- `x || null` for `x` a number or `undefined`; `none` is `null`. -/
def orNull : Option Number → Option Number
  | some v => if v.isFalsy then none else some v
  | none => none

/-- `todayEntries`: the entries whose date is the date text of today. -/
def todayEntries (todayStr : String) (entries : List Entry) : List Entry :=
  entries.filter (fun e => e.date == todayStr)

/-- `todayCal`. -/
def todayCal (todayStr : String) (entries : List Entry) : Number :=
  (todayEntries todayStr entries).foldl (fun s e => s + e.calories) (.fin 0)

/-- The ids of the table `MEALS` (label, icon and color are display values). -/
def MEALS : List String := ["breakfast", "lunch", "dinner", "snack"]

/-- A value of the object `bd`: `{ entries, cal }`. -/
structure MealBucket where
  entries : List Entry
  cal : Number
  deriving DecidableEq

/-- `e.meal || "snack"`: a missing or empty `meal` gives `snack`. -/
def mealOf (e : Entry) : String :=
  match e.meal with
  | some m => if m == "" then "snack" else m
  | none => "snack"

/-- The bucket `bd[mid]` after `if (!bd[mid]) bd[mid] = { entries: [], cal: 0 }`. -/
def bucketOr : Option MealBucket → MealBucket
  | some b => b
  | none => { entries := [], cal := .fin 0 }

/-- `mealBreakdown`: a bucket per id of `MEALS`, then every entry of today is pushed to
the bucket `bd[mid]`, which is created when `bd` has none of that name, and
`bd[mid].cal += e.calories` adds its calories in doubles.  For a name of a
member of `Object.prototype` the value `bd[mid]` is that member, no bucket is created and
`bd[mid].entries.push` throws a `TypeError`: the value `none`. -/
def mealBreakdown (todayStr : String) (entries : List Entry) :
    Option (List (String × MealBucket)) :=
  (todayEntries todayStr entries).foldlM
    (fun bd e =>
      if objectPrototypeKeys.contains (mealOf e) then none
      else
        some
          (setItem (mealOf e)
            { entries := (bucketOr (getItem (mealOf e) bd)).entries ++ [e],
              cal := Number.fadd (bucketOr (getItem (mealOf e) bd)).cal e.calories } bd))
    (MEALS.foldl (fun bd m => setItem m { entries := [], cal := .fin 0 } bd) [])

/-- `dailyCalories`: `dc[e.date] = (dc[e.date] || 0) + e.calories` for every entry. -/
def dailyCalories (entries : List Entry) : List (String × Number) :=
  entries.foldl
    (fun dc e => setItem e.date (orZero (getItem e.date dc) + e.calories) dc) []

/-- A point of `graphData`: a weight log with the field `cal`. -/
structure GraphPoint where
  date : String
  weight : Number
  ts : Nat
  cal : Option Number
  deriving DecidableEq

/-- The order of the sort in `graphData` is total. -/
instance tsLe_total : IsTotal WeightLog (fun a b => a.ts ≤ b.ts) :=
  ⟨fun a b => Nat.le_total a.ts b.ts⟩

/-- The order of the sort in `graphData` is transitive. -/
instance tsLe_trans : IsTrans WeightLog (fun a b => a.ts ≤ b.ts) :=
  ⟨fun _ _ _ hab hbc => Nat.le_trans hab hbc⟩

/-- `graphData`: the weight logs in a stable sort by `a.ts - b.ts`, each with
`cal: dailyCalories[l.date] || null`. -/
def graphData (weightLogs : List WeightLog) (entries : List Entry) : List GraphPoint :=
  if weightLogs.length = 0 then []
  else
    (weightLogs.insertionSort (fun a b => a.ts ≤ b.ts)).map
      (fun l =>
        { date := l.date, weight := l.weight, ts := l.ts,
          cal := orNull (getItem l.date (dailyCalories entries)) })

/-- `Math.max` of two numbers. -/
def Number.max : Number → Number → Number
  | .nan, _ => .nan
  | _, .nan => .nan
  | a, b => if a.le b then b else a

/-- `Math.max(...xs)`. -/
def mathMax (xs : List Number) : Number :=
  xs.foldl Number.max (.inf true)

/-- An element of `weeklyStats.days` (`dayName` and `dayNum` are display values). -/
structure DayStat where
  date : String
  cal : Number
  isToday : Bool
  deriving DecidableEq

/-- The value of `weeklyStats`. -/
structure WeeklyStats where
  days : List DayStat
  avg : Number
  total : Number
  daysWithData : Nat
  maxCal : Number
  deriving DecidableEq

/-- `weeklyStats`.  `daysAgo i` is the local date text of the day `i` days before today
(`d.setDate(d.getDate() - i); d.toLocaleDateString("da-DK")`). -/
def weeklyStats (daysAgo : Nat → String) (entries : List Entry) : WeeklyStats :=
  let days : List DayStat :=
    [6, 5, 4, 3, 2, 1, 0].map
      (fun i =>
        { date := daysAgo i, cal := orZero (getItem (daysAgo i) (dailyCalories entries)),
          isToday := i == 0 })
  let daysWithData := days.filter (fun d => d.cal.gt (.fin 0))
  { days := days
    avg :=
      if daysWithData.length > 0 then
        Number.round
          (daysWithData.foldl (fun s d => s + d.cal) (.fin 0) / .fin daysWithData.length)
      else .fin 0
    total := days.foldl (fun s d => s + d.cal) (.fin 0)
    daysWithData := daysWithData.length
    maxCal := mathMax (days.map (fun d => d.cal) ++ [.fin 1]) }

/-- The calories of an entry as a rational (0 when they are no finite number). -/
def calOf (e : Entry) : ℚ :=
  match e.calories with
  | .fin q => q
  | _ => 0

/-- The sum of the calories of the entries of one date. -/
def dayTotal (entries : List Entry) (date : String) : ℚ :=
  ((entries.filter (fun e => e.date == date)).map calOf).sum

/-- A week for examples: `daysAgo` on the 5th of November 2026. -/
def sampleWeek (i : Nat) : String :=
  match i with
  | 0 => "5.11.2026"
  | 1 => "4.11.2026"
  | 2 => "3.11.2026"
  | 3 => "2.11.2026"
  | 4 => "1.11.2026"
  | 5 => "31.10.2026"
  | _ => "30.10.2026"

/-- An entry for examples. -/
def sampleEntry (id : Nat) (cal : ℚ) (date : String) (meal : Option String) : Entry :=
  { id := id, food := "Ris", amount := .fin 150, unit := "g", calories := .fin cal,
    date := date, meal := meal, time := "12.00" }

/-- The weight log without the field `cal` of a point of `graphData`. -/
def GraphPoint.log (p : GraphPoint) : WeightLog :=
  { date := p.date, weight := p.weight, ts := p.ts }

/-- The totals of the seven days of `weeklyStats`, oldest first. -/
def weekTotals (daysAgo : Nat → String) (entries : List Entry) : List ℚ :=
  [6, 5, 4, 3, 2, 1, 0].map (fun i => dayTotal entries (daysAgo i))

/-- The totals of the days with data: the totals above zero. -/
def weekTotalsWithData (daysAgo : Nat → String) (entries : List Entry) : List ℚ :=
  (weekTotals daysAgo entries).filter (fun t => decide (0 < t))

/-! ## All days -/

/-- `s.split(sep)` for a separator of one character. -/
def splitChar (sep : Char) : List Char → List (List Char)
  | [] => [[]]
  | c :: cs =>
    if c = sep then [] :: splitChar sep cs
    else
      match splitChar sep cs with
      | [] => [[c]]
      | p :: ps => (c :: p) :: ps

/-- The value of a character as a digit of a base up to 16, if it is one. -/
def digitIn (base : Nat) (c : Char) : Option Nat :=
  let v :=
    if c.isDigit then c.toNat - 48
    else if 97 ≤ c.toNat ∧ c.toNat ≤ 102 then c.toNat - 87
    else if 65 ≤ c.toNat ∧ c.toNat ≤ 70 then c.toNat - 55
    else 16
  if v < base then some v else none

/-- The value of a non-empty run of digits of a base. -/
def radixValue (base : Nat) (ds : List Char) : Option Nat :=
  if ds.isEmpty then none
  else
    ds.foldl
      (fun acc c =>
        match acc, digitIn base c with
        | some a, some v => some (base * a + v)
        | _, _ => none)
      (some 0)

/-- The value of a `NonDecimalIntegerLiteral`: `0x`, `0o` or `0b` and digits. -/
def nonDecimalLiteral (t : List Char) : Option Nat :=
  match t with
  | c :: x :: ds =>
    if c = '0' then
      if x = 'x' ∨ x = 'X' then radixValue 16 ds
      else if x = 'o' ∨ x = 'O' then radixValue 8 ds
      else if x = 'b' ∨ x = 'B' then radixValue 2 ds
      else none
    else none
  | _ => none

/-- What follows an optional `ExponentPart` at the start of `s`. -/
def exponentRest (s : List Char) : List Char :=
  match s with
  | [] => []
  | c :: r =>
    if c == 'e' || c == 'E' then
      let d := match r with
        | '+' :: d => d
        | '-' :: d => d
        | _ => r
      if (d.takeWhile Char.isDigit).isEmpty then s else d.dropWhile Char.isDigit
    else s

/-- What follows the prefix of the string that `scanNumber` reads. -/
def literalRest (s : List Char) : List Char :=
  let t := s.dropWhile isWhiteSpace
  let u := match t with
    | '+' :: r => r
    | '-' :: r => r
    | _ => t
  if "Infinity".data.isPrefixOf u then u.drop 8
  else
    let r1 := u.dropWhile Char.isDigit
    let r2 := match r1 with
      | '.' :: r => r.dropWhile Char.isDigit
      | _ => r1
    exponentRest r2

/-- `ToNumber` of a string (`StringToNumber`): white space around is skipped, the empty
string is 0, and the rest has to be one numeric literal as a whole. -/
def toNumber (s : List Char) : Number :=
  if (trim s).isEmpty then .fin 0
  else
    match nonDecimalLiteral (trim s) with
    | some n => Number.roundDouble n
    | none => if (literalRest (trim s)).isEmpty then parseFloatString (trim s) else .nan

/-- `ToNumber(p[i])` for an array of strings: a missing element is `undefined`, whose
number is `NaN`. -/
def toNumberAt (p : List (List Char)) (i : Nat) : Number :=
  match p.get? i with
  | some s => toNumber s
  | none => .nan

/-- The number of `new Date(p[2], p[1]-1, p[0])` for `p = key.split(".")`, as the
subtraction of two dates reads it.  `dateMs year monthIndex day` is the time value of
`new Date(year, monthIndex, day)`, the local midnight of that date in the time zone of the
host, `NaN` for an invalid date. -/
def dateKey (dateMs : Number → Number → Number → Number) (key : String) : Number :=
  dateMs (toNumberAt (splitChar '.' key.data) 2)
    (toNumberAt (splitChar '.' key.data) 1 - .fin 1)
    (toNumberAt (splitChar '.' key.data) 0)

/-- The key is an array index: the canonical numeral of a number below `2 ^ 32 - 1`. -/
def isArrayIndex (k : String) : Bool :=
  !k.data.isEmpty && k.data.all Char.isDigit &&
    (k.data == ['0'] || k.data.head? != some '0') &&
    decide (digitsValue k.data < 4294967295)

/-- `Object.entries(obj)`: the array indices in ascending order, then the other keys in the
order of their insertion. -/
def objectEntries {α : Type} (obj : List (String × α)) : List (String × α) :=
  (obj.filter (fun p => isArrayIndex p.1)).insertionSort
      (fun a b => digitsValue a.1.data ≤ digitsValue b.1.data) ++
    obj.filter (fun p => !isArrayIndex p.1)

/-- The object `days` of `allDays`: `if (!days[e.date]) days[e.date] = [];
days[e.date].push(e)` for every entry.  For a date that is a name of a member of
`Object.prototype` the value `days[e.date]` is that member, which has no `push`: the
`TypeError` is the value `none`. -/
def groupByDate (entries : List Entry) : Option (List (String × List Entry)) :=
  entries.foldlM
    (fun days e =>
      if objectPrototypeKeys.contains e.date then none
      else some (setItem e.date ((getItem e.date days).getD [] ++ [e]) days))
    []

/-- `allDays`: the entries of `days` sorted with the comparator
`new Date(pB[2], pB[1]-1, pB[0]) - new Date(pA[2], pA[1]-1, pA[0])`; `a` stays before `b`
unless the comparator is above 0 (`NaN` counts as 0).  The sort is stable; for an
inconsistent comparator, as with invalid dates, JavaScript leaves the order to the
implementation and the order of this definition is one of the allowed ones. -/
def allDays (dateMs : Number → Number → Number → Number) (entries : List Entry) :
    Option (List (String × List Entry)) :=
  (groupByDate entries).map
    (fun days =>
      (objectEntries days).insertionSort
        (fun a b => (dateKey dateMs b.1 - dateKey dateMs a.1).gt (.fin 0) = false))

/-- A calendar date as (year, month, day) is before another one. -/
def civilLt (a b : Nat × Nat × Nat) : Prop :=
  a.1 < b.1 ∨ (a.1 = b.1 ∧ (a.2.1 < b.2.1 ∨ (a.2.1 = b.2.1 ∧ a.2.2 < b.2.2)))

instance civilLt_decidable : DecidableRel civilLt :=
  fun a b => by unfold civilLt; infer_instance

/-- The year is a leap year of the Gregorian calendar. -/
def isLeapYear (y : Nat) : Bool :=
  (y % 4 == 0 && y % 100 != 0) || y % 400 == 0

/-- The number of days of a month. -/
def daysInMonth (y m : Nat) : Nat :=
  if m = 2 then (if isLeapYear y then 29 else 28)
  else if m = 4 ∨ m = 6 ∨ m = 9 ∨ m = 11 then 30
  else 31

/-- Day, month and year are a date of the calendar, in the years that `Date` takes as they
are (from 100 on) and that it can hold. -/
def validDate (d m y : Nat) : Bool :=
  decide (100 ≤ y) && decide (y ≤ 275759) && decide (1 ≤ m) && decide (m ≤ 12) &&
    decide (1 ≤ d) && decide (d ≤ daysInMonth y m)

/-- A numeral of a positive number: digits, the first of them not `0`. -/
def isNumeral (ds : List Char) : Bool :=
  !ds.isEmpty && ds.all Char.isDigit && ds.head? != some '0'

/-- The date text read as (year, month, day); zeros when it has not three parts. -/
def civilOf (k : String) : Nat × Nat × Nat :=
  match splitChar '.' k.data with
  | [d, m, y] => (digitsValue y, digitsValue m, digitsValue d)
  | _ => (0, 0, 0)

/-- A well-formed date text `day.month.year`, as `toLocaleDateString("da-DK")` writes it:
three numerals without leading zeros that are a date of the calendar. -/
def isWellFormedDate (k : String) : Bool :=
  match splitChar '.' k.data with
  | [d, m, y] =>
    isNumeral d && isNumeral m && isNumeral y &&
      validDate (digitsValue d) (digitsValue m) (digitsValue y)
  | _ => false

/-- What the results on `allDays` assume of the host: on dates of the calendar the time
value of `new Date(year, monthIndex, day)` is a number, and a later date has a later
one. -/
def HostDate (dateMs : Number → Number → Number → Number) : Prop :=
  ∀ d m y d1 m1 y1 : Nat, validDate d m y = true → validDate d1 m1 y1 = true →
    civilLt (y, m, d) (y1, m1, d1) →
    ∃ t t1 : ℚ,
      dateMs (.fin y) (.fin ((m : ℚ) - 1)) (.fin d) = .fin t ∧
      dateMs (.fin y1) (.fin ((m1 : ℚ) - 1)) (.fin d1) = .fin t1 ∧ t < t1

/-- A host for examples: every month counts 31 days. -/
def sampleDateMs (y m d : Number) : Number :=
  y * .fin 372 + m * .fin 31 + d

/-! ## Lemmas on strings -/

theorem trim_eq_nil_iff (s : List Char) : trim s = [] ↔ s.all isWhiteSpace = true := by
  unfold trim
  rw [List.reverse_eq_nil_iff, List.dropWhile_eq_nil_iff]
  constructor
  · intro h
    have hd : s.dropWhile isWhiteSpace = [] := by
      by_contra hne
      have h1 := List.head_dropWhile_not isWhiteSpace s hne
      have h2 := h _ (List.mem_reverse.mpr (List.head_mem hne))
      simp [h1] at h2
    rw [List.dropWhile_eq_nil_iff] at hd
    simpa [List.all_eq_true] using hd
  · intro h x hx
    rw [List.all_eq_true] at h
    exact h x ((List.dropWhile_sublist _).subset (List.mem_reverse.mp hx))

theorem filterBoolean_splitAux_of_all (sep : Char → Bool) :
    ∀ (s : List Char) (b : Bool), s.all sep = true → filterBoolean (splitAux sep b s) = []
  | [], _, _ => by simp [splitAux, filterBoolean]
  | c :: cs, b, h => by
    simp only [List.all_cons, Bool.and_eq_true] at h
    have ih := filterBoolean_splitAux_of_all sep cs true h.2
    cases b <;> simpa [splitAux, h.1, filterBoolean] using ih

theorem filterBoolean_splitAux_ne_nil (sep : Char → Bool) :
    ∀ (s : List Char) (b : Bool), s.all sep = false → filterBoolean (splitAux sep b s) ≠ []
  | [], _, h => by simp at h
  | c :: cs, b, h => by
    cases hc : sep c
    · simp only [splitAux, hc]
      cases splitAux sep false cs <;> simp [filterBoolean]
    · have hcs : cs.all sep = false := by simpa [hc] using h
      have ih := filterBoolean_splitAux_ne_nil sep cs true hcs
      cases b <;> simpa [splitAux, hc, filterBoolean] using ih

theorem searchWords_eq_nil {toLowerCase : List Char → List Char}
    (hl : PreservesBlank toLowerCase) {search : String} (h : isBlank search = true) :
    searchWords toLowerCase search = [] := by
  unfold searchWords splitRegex
  apply filterBoolean_splitAux_of_all
  rw [hl]; exact h

theorem searchWords_ne_nil {toLowerCase : List Char → List Char}
    (hl : PreservesBlank toLowerCase) {search : String} (h : isBlank search = false) :
    searchWords toLowerCase search ≠ [] := by
  unfold searchWords splitRegex
  apply filterBoolean_splitAux_ne_nil
  rw [hl]; exact h

theorem isWhiteSpace_asciiLower (c : Char) :
    isWhiteSpace (if 65 ≤ c.toNat ∧ c.toNat ≤ 90 then Char.ofNat (c.toNat + 32) else c) =
      isWhiteSpace c := by
  split
  · next h =>
    have hc : c = Char.ofNat c.toNat := (Char.ofNat_toNat c).symm
    obtain ⟨h1, h2⟩ := h
    generalize c.toNat = n at hc h1 h2
    subst hc
    interval_cases n <;> decide
  · rfl

theorem preservesBlank_asciiLower : PreservesBlank asciiLower := by
  intro s
  induction s with
  | nil => rfl
  | cons c cs ih =>
    have ih2 : (asciiLower cs).all isWhiteSpace = cs.all isWhiteSpace := ih
    simp only [asciiLower, List.map_cons, List.all_cons] at ih2 ⊢
    rw [isWhiteSpace_asciiLower, ih2]

/-! ## Lemmas on the score -/

theorem any_eq_imp_wordMatches {tokens : List (List Char)} {sw : List Char}
    (h : tokens.any (fun t => t == sw) = true) : wordMatches tokens sw = true := by
  simp only [wordMatches, List.any_eq_true] at h ⊢
  obtain ⟨t, ht, hts⟩ := h
  have : t = sw := by simpa using hts
  exact ⟨t, ht, by simp [this]⟩

theorem scoreLoop_eq (food : Food) (tokens : List (List Char)) :
    ∀ (sws : List (List Char)) (s : Int),
      scoreLoop food tokens sws s =
        if sws.all (wordMatches tokens) = true then
          some (s + (sws.map (wordPoints tokens)).sum + (sws.map (firstTokenBonus tokens)).sum
            + lengthBonus food)
        else some (-1)
  | [], s => by simp [scoreLoop]
  | sw :: rest, s => by
    have ih := scoreLoop_eq food tokens rest
    cases tokens with
    | nil => simp [scoreLoop, wordMatches]
    | cons t0 ts =>
      have hstart : (t0 :: ts).any (fun t => sw.isPrefixOf t) = wordMatches (t0 :: ts) sw := rfl
      simp only [scoreLoop, List.head?_cons, ih, List.all_cons, List.map_cons, List.sum_cons,
        wordPoints, firstTokenBonus, hstart]
      rcases Bool.eq_false_or_eq_true (rest.all (wordMatches (t0 :: ts))) with hall | hall <;>
      rcases Bool.eq_false_or_eq_true ((t0 :: ts).any (fun t => t == sw)) with he | he <;>
      rcases Bool.eq_false_or_eq_true (wordMatches (t0 :: ts) sw) with hm | hm <;>
      rcases Bool.eq_false_or_eq_true (sw.isPrefixOf t0) with h0 | h0 <;>
      first
        | (exfalso
           have h := any_eq_imp_wordMatches he
           rw [hm] at h
           exact Bool.false_ne_true h)
        | (simp [he, hm, h0, hall] <;> ring)

theorem score_eq (toLowerCase : List Char → List Char) (sws : List (List Char)) (food : Food) :
    score toLowerCase sws food =
      if matchesAll toLowerCase sws food = true then some (scoreSpec toLowerCase sws food)
      else some (-1) := by
  unfold score matchesAll scoreSpec
  rw [scoreLoop_eq]
  simp

theorem lengthBonus_nonneg (food : Food) : 0 ≤ lengthBonus food :=
  le_max_left _ _

theorem wordPoints_ge (tokens : List (List Char)) (sw : List Char) :
    5 ≤ wordPoints tokens sw := by
  unfold wordPoints
  split <;> omega

theorem firstTokenBonus_nonneg (tokens : List (List Char)) (sw : List Char) :
    0 ≤ firstTokenBonus tokens sw := by
  unfold firstTokenBonus
  split
  · split <;> omega
  · omega

theorem scoreSpec_ge (toLowerCase : List Char → List Char) (sws : List (List Char))
    (food : Food) : 5 * (sws.length : Int) ≤ scoreSpec toLowerCase sws food := by
  have h1 : ∀ l : List (List Char), 5 * (l.length : Int) ≤
      (l.map (wordPoints (tokenize toLowerCase food.n))).sum := by
    intro l
    induction l with
    | nil => simp
    | cons a l ih =>
      have := wordPoints_ge (tokenize toLowerCase food.n) a
      simp only [List.length_cons, List.map_cons, List.sum_cons]
      push_cast
      omega
  have h2 : ∀ l : List (List Char), 0 ≤
      (l.map (firstTokenBonus (tokenize toLowerCase food.n))).sum := by
    intro l
    induction l with
    | nil => simp
    | cons a l ih =>
      have := firstTokenBonus_nonneg (tokenize toLowerCase food.n) a
      simp only [List.map_cons, List.sum_cons]
      omega
  have h3 := lengthBonus_nonneg food
  have := h1 sws
  have := h2 sws
  unfold scoreSpec
  omega

theorem scoreSpec_pos (toLowerCase : List Char → List Char) {sws : List (List Char)}
    (h : sws ≠ []) (food : Food) : 0 < scoreSpec toLowerCase sws food := by
  have h1 := scoreSpec_ge toLowerCase sws food
  have h2 : 0 < sws.length := List.length_pos.mpr h
  omega

theorem collectResults_eq (toLowerCase : List Char → List Char) {sws : List (List Char)}
    (h : sws ≠ []) : ∀ FOODS : List Food,
      collectResults toLowerCase sws FOODS =
        some ((FOODS.filter (matchesAll toLowerCase sws)).map
          (fun f => (⟨f, scoreSpec toLowerCase sws f⟩ : Scored)))
  | [] => rfl
  | food :: rest => by
    simp only [collectResults, score_eq, collectResults_eq toLowerCase h rest]
    rcases Bool.eq_false_or_eq_true (matchesAll toLowerCase sws food) with hm | hm
    · simp [hm, List.filter_cons, scoreSpec_pos toLowerCase h food]
    · simp [hm, List.filter_cons]

/-! ## Lemmas on the sort -/

theorem filter_orderedInsert_score (k : Int) (a : Scored) : ∀ l : List Scored,
    (l.orderedInsert (fun a b => a.score ≥ b.score) a).filter (fun r => r.score == k) =
      (a :: l).filter (fun r => r.score == k)
  | [] => rfl
  | b :: l => by
    by_cases hab : a.score ≥ b.score
    · simp [List.orderedInsert, hab]
    · have ih := filter_orderedInsert_score k a l
      have hne : a.score ≠ b.score := by omega
      simp only [List.orderedInsert, hab, if_false, List.filter_cons, ih]
      by_cases ha : a.score = k
      · have hb : ¬ b.score = k := fun hb => hne (ha.trans hb.symm)
        simp [ha, hb]
      · simp [ha]

theorem filter_sortResults_score (k : Int) : ∀ l : List Scored,
    (sortResults l).filter (fun r => r.score == k) = l.filter (fun r => r.score == k)
  | [] => rfl
  | a :: l => by
    have ih := filter_sortResults_score k l
    unfold sortResults at ih ⊢
    rw [List.insertionSort, filter_orderedInsert_score, List.filter_cons, List.filter_cons, ih]

/-! ## Lemmas on `filtered` -/

theorem isBlank_eq_false_iff (search : String) :
    isBlank search = false ↔ trim search.data ≠ [] := by
  rw [Ne, trim_eq_nil_iff]
  unfold isBlank
  simp

theorem filtered_of_not_blank {toLowerCase : List Char → List Char}
    (hl : PreservesBlank toLowerCase) (FOODS : List Food) {search : String}
    (hq : isBlank search = false) :
    filtered toLowerCase FOODS search =
      some (((sortResults ((FOODS.filter
        (matchesAll toLowerCase (searchWords toLowerCase search))).map
          (fun f => (⟨f, scoreSpec toLowerCase (searchWords toLowerCase search) f⟩ : Scored)))).map
            (fun r => r.food)).take 30) := by
  have ht := (isBlank_eq_false_iff search).mp hq
  unfold filtered
  rw [if_neg ht, collectResults_eq toLowerCase (searchWords_ne_nil hl hq)]

theorem mem_sortResults_map {toLowerCase : List Char → List Char} {sws : List (List Char)}
    {FOODS : List Food} {r : Scored}
    (h : r ∈ sortResults ((FOODS.filter (matchesAll toLowerCase sws)).map
      (fun f => (⟨f, scoreSpec toLowerCase sws f⟩ : Scored)))) :
    r.food ∈ FOODS ∧ matchesAll toLowerCase sws r.food = true ∧
      r.score = scoreSpec toLowerCase sws r.food := by
  unfold sortResults at h
  rw [List.mem_insertionSort, List.mem_map] at h
  obtain ⟨f, hf, rfl⟩ := h
  rw [List.mem_filter] at hf
  exact ⟨hf.1, hf.2, rfl⟩

theorem mem_filtered_of_not_blank {toLowerCase : List Char → List Char}
    (hl : PreservesBlank toLowerCase) {FOODS : List Food} {search : String}
    (hq : isBlank search = false) {res : List Food}
    (hres : filtered toLowerCase FOODS search = some res) {food : Food} (hf : food ∈ res) :
    food ∈ FOODS ∧ matchesAll toLowerCase (searchWords toLowerCase search) food = true := by
  rw [filtered_of_not_blank hl FOODS hq] at hres
  injection hres with hres
  subst hres
  have h1 := List.mem_of_mem_take hf
  rw [List.mem_map] at h1
  obtain ⟨r, hr, rfl⟩ := h1
  have := mem_sortResults_map hr
  exact ⟨this.1, this.2.1⟩

theorem matchesAll_of_sublist {toLowerCase : List Char → List Char}
    {sws sws' : List (List Char)} (hs : sws' <+ sws) {food : Food}
    (h : matchesAll toLowerCase sws food = true) : matchesAll toLowerCase sws' food = true := by
  unfold matchesAll at h ⊢
  rw [List.all_eq_true] at h ⊢
  exact fun sw hsw => h sw (hs.subset hsw)

/-! ## Search ranker: results -/

/-- C1: for every food table and every query, `filtered` returns a list, and every food in
it has, for each search word of the query, a token of its name that starts with that word. -/
theorem filtered_conjunctive (toLowerCase : List Char → List Char)
    (hl : PreservesBlank toLowerCase) (FOODS : List Food) (search : String) :
    ∃ res, filtered toLowerCase FOODS search = some res ∧
      ∀ food ∈ res, ∀ sw ∈ searchWords toLowerCase search,
        ∃ t ∈ tokenize toLowerCase food.n, sw <+: t := by
  rcases Bool.eq_false_or_eq_true (isBlank search) with hq | hq
  · refine ⟨FOODS.take 10, ?_, ?_⟩
    · unfold filtered
      rw [if_pos ((trim_eq_nil_iff _).mpr hq)]
    · intro food _ sw hsw
      rw [searchWords_eq_nil hl hq] at hsw
      cases hsw
  · refine ⟨_, filtered_of_not_blank hl FOODS hq, ?_⟩
    intro food hf sw hsw
    have hm := (mem_filtered_of_not_blank hl hq (filtered_of_not_blank hl FOODS hq) hf).2
    unfold matchesAll at hm
    rw [List.all_eq_true] at hm
    have h1 := hm sw hsw
    unfold wordMatches at h1
    rw [List.any_eq_true] at h1
    obtain ⟨t, ht, hpre⟩ := h1
    exact ⟨t, ht, List.isPrefixOf_iff_prefix.mp hpre⟩

/-- Witness of C1 on a two-entry table and the query `chicken breast`. -/
theorem filtered_conjunctive_witness :
    PreservesBlank asciiLower ∧
    ∃ res, filtered asciiLower
        [⟨"Chicken Soup", .fin 50⟩, ⟨"Chicken Breast, Raw", .fin 120⟩] "chicken breast"
          = some res ∧
      ∀ food ∈ res, ∀ sw ∈ searchWords asciiLower "chicken breast",
        ∃ t ∈ tokenize asciiLower food.n, sw <+: t :=
  ⟨preservesBlank_asciiLower,
    filtered_conjunctive asciiLower preservesBlank_asciiLower _ _⟩

/-- C2 fails as stated, at two inputs.  Removing the only word of the query `chicken` leaves
the blank query, whose result is the first ten table entries, and the food found before is
not among them.  Removing `pie` from `apple pie` lets thirty better-scored foods match, and
the cut at thirty drops the food found before. -/
theorem filtered_remove_word_counterexample :
    (searchWords asciiLower "" = (searchWords asciiLower "chicken").eraseIdx 0 ∧
      filtered asciiLower (List.replicate 10 ⟨"Apple", .fin 52⟩ ++ [⟨"Chicken", .fin 120⟩])
        "chicken" = some [⟨"Chicken", .fin 120⟩] ∧
      filtered asciiLower (List.replicate 10 ⟨"Apple", .fin 52⟩ ++ [⟨"Chicken", .fin 120⟩])
        "" = some (List.replicate 10 ⟨"Apple", .fin 52⟩) ∧
      (⟨"Chicken", .fin 120⟩ : Food) ∉ List.replicate 10 (⟨"Apple", .fin 52⟩ : Food)) ∧
    (searchWords asciiLower "apple" = (searchWords asciiLower "apple pie").eraseIdx 1 ∧
      filtered asciiLower (⟨"Applesauce Pie", .fin 200⟩ :: List.replicate 30 ⟨"Apple", .fin 52⟩)
        "apple pie" = some [⟨"Applesauce Pie", .fin 200⟩] ∧
      filtered asciiLower (⟨"Applesauce Pie", .fin 200⟩ :: List.replicate 30 ⟨"Apple", .fin 52⟩)
        "apple" = some (List.replicate 30 ⟨"Apple", .fin 52⟩) ∧
      (⟨"Applesauce Pie", .fin 200⟩ : Food) ∉ List.replicate 30 (⟨"Apple", .fin 52⟩ : Food)) := by
  decide

/-- C2, amended: when removing one search word leaves a non-blank query, every food of the
original result still matches the reduced query; and when at most 30 table foods match the
reduced query, its result contains every food of the original result. -/
theorem filtered_remove_word (toLowerCase : List Char → List Char)
    (hl : PreservesBlank toLowerCase) (FOODS : List Food) (search search' : String) (i : Nat)
    (hrem : searchWords toLowerCase search' = (searchWords toLowerCase search).eraseIdx i)
    (hq' : isBlank search' = false) :
    ∃ res res', filtered toLowerCase FOODS search = some res ∧
      filtered toLowerCase FOODS search' = some res' ∧
      (∀ food ∈ res,
        food ∈ FOODS.filter (matchesAll toLowerCase (searchWords toLowerCase search'))) ∧
      ((FOODS.filter (matchesAll toLowerCase (searchWords toLowerCase search'))).length ≤ 30 →
        ∀ food ∈ res, food ∈ res') := by
  have hq : isBlank search = false := by
    rcases Bool.eq_false_or_eq_true (isBlank search) with hq | hq
    · exfalso
      apply searchWords_ne_nil hl hq'
      rw [hrem, searchWords_eq_nil hl hq]
      rfl
    · exact hq
  have hmatch : ∀ food ∈ (((sortResults ((FOODS.filter
      (matchesAll toLowerCase (searchWords toLowerCase search))).map
        (fun f => (⟨f, scoreSpec toLowerCase (searchWords toLowerCase search) f⟩ : Scored)))).map
          (fun r => r.food)).take 30),
      food ∈ FOODS.filter (matchesAll toLowerCase (searchWords toLowerCase search')) := by
    intro food hf
    have h := mem_filtered_of_not_blank hl hq (filtered_of_not_blank hl FOODS hq) hf
    rw [List.mem_filter]
    refine ⟨h.1, ?_⟩
    rw [hrem]
    exact matchesAll_of_sublist (List.eraseIdx_sublist _ _) h.2
  refine ⟨_, _, filtered_of_not_blank hl FOODS hq, filtered_of_not_blank hl FOODS hq',
    hmatch, ?_⟩
  intro hlen food hf
  have hmem := hmatch food hf
  rw [List.take_of_length_le (by
    rw [List.length_map]
    unfold sortResults
    rw [List.length_insertionSort, List.length_map]
    exact hlen)]
  rw [List.mem_map]
  refine ⟨⟨food, scoreSpec toLowerCase (searchWords toLowerCase search') food⟩, ?_, rfl⟩
  unfold sortResults
  rw [List.mem_insertionSort, List.mem_map]
  exact ⟨food, hmem, rfl⟩

/-- Witness of the amended C2: `breast` removed from `chicken breast`. -/
theorem filtered_remove_word_witness :
    PreservesBlank asciiLower ∧
    searchWords asciiLower "chicken" = (searchWords asciiLower "chicken breast").eraseIdx 1 ∧
    isBlank "chicken" = false ∧
    ∃ res res',
      filtered asciiLower [⟨"Chicken Soup", .fin 50⟩, ⟨"Chicken Breast, Raw", .fin 120⟩]
        "chicken breast" = some res ∧
      filtered asciiLower [⟨"Chicken Soup", .fin 50⟩, ⟨"Chicken Breast, Raw", .fin 120⟩]
        "chicken" = some res' ∧
      (∀ food ∈ res, food ∈ List.filter (matchesAll asciiLower (searchWords asciiLower "chicken"))
        [⟨"Chicken Soup", .fin 50⟩, ⟨"Chicken Breast, Raw", .fin 120⟩]) ∧
      ((List.filter (matchesAll asciiLower (searchWords asciiLower "chicken"))
        [⟨"Chicken Soup", .fin 50⟩, ⟨"Chicken Breast, Raw", .fin 120⟩]).length ≤ 30 →
          ∀ food ∈ res, food ∈ res') :=
  ⟨preservesBlank_asciiLower, by decide, by decide,
    filtered_remove_word asciiLower preservesBlank_asciiLower _ _ _ 1 (by decide) (by decide)⟩

/-- C3: for a non-blank query the result is the first 30 elements of a list `ranked` that
is a rearrangement of the matching table foods, each paired with its score, in descending
order of score, in which the foods of any one score stand in table order; so the result has
at most 30 elements and its scores never increase. -/
theorem filtered_ranked (toLowerCase : List Char → List Char)
    (hl : PreservesBlank toLowerCase) (FOODS : List Food) (search : String)
    (hq : isBlank search = false) :
    ∃ ranked : List Scored,
      filtered toLowerCase FOODS search = some ((ranked.map (fun r => r.food)).take 30) ∧
      (ranked.map (fun r => r.food)).Perm
        (FOODS.filter (matchesAll toLowerCase (searchWords toLowerCase search))) ∧
      (∀ r ∈ ranked, score toLowerCase (searchWords toLowerCase search) r.food = some r.score) ∧
      ranked.Sorted (fun a b => a.score ≥ b.score) ∧
      (∀ k : Int, (ranked.filter (fun r => r.score == k)).map (fun r => r.food) =
        (FOODS.filter (matchesAll toLowerCase (searchWords toLowerCase search))).filter
          (fun f => score toLowerCase (searchWords toLowerCase search) f == some k)) ∧
      ((ranked.map (fun r => r.food)).take 30).length ≤ 30 ∧
      ((ranked.take 30).map (fun r => r.score)).Sorted (fun a b => a ≥ b) := by
  refine ⟨_, filtered_of_not_blank hl FOODS hq, ?_, ?_, ?_, ?_, ?_, ?_⟩
  · have h := (List.perm_insertionSort (fun a b : Scored => a.score ≥ b.score)
      ((FOODS.filter (matchesAll toLowerCase (searchWords toLowerCase search))).map
        (fun f => (⟨f, scoreSpec toLowerCase (searchWords toLowerCase search) f⟩ : Scored)))).map
          (fun r => r.food)
    rw [List.map_map] at h
    simpa [sortResults, Function.comp_def] using h
  · intro r hr
    have h := mem_sortResults_map hr
    rw [score_eq, if_pos h.2.1, h.2.2]
  · exact List.sorted_insertionSort _ _
  · intro k
    rw [filter_sortResults_score, List.filter_map, List.map_map]
    have hfun : ((fun r : Scored => r.food) ∘
        fun f => (⟨f, scoreSpec toLowerCase (searchWords toLowerCase search) f⟩ : Scored)) = id :=
      rfl
    rw [hfun, List.map_id]
    apply List.filter_congr
    intro f hf
    have hm := (List.mem_filter.mp hf).2
    rw [score_eq, if_pos hm]
    simp
  · rw [List.length_take]
    exact Nat.min_le_left _ _
  · have hs : (sortResults ((FOODS.filter
        (matchesAll toLowerCase (searchWords toLowerCase search))).map
          (fun f => (⟨f, scoreSpec toLowerCase (searchWords toLowerCase search) f⟩ : Scored)))).Sorted
            (fun a b => a.score ≥ b.score) := List.sorted_insertionSort _ _
    have h30 := List.Pairwise.sublist (List.take_sublist 30 _) hs
    exact (List.pairwise_map).mpr h30

/-- Witness of C3 on a two-entry table and the query `chicken`. -/
theorem filtered_ranked_witness :
    PreservesBlank asciiLower ∧ isBlank "chicken" = false ∧
    ∃ ranked : List Scored,
      filtered asciiLower [⟨"Chicken Soup", .fin 50⟩, ⟨"Chicken Breast, Raw", .fin 120⟩]
        "chicken" = some ((ranked.map (fun r => r.food)).take 30) ∧
      (ranked.map (fun r => r.food)).Perm
        (List.filter (matchesAll asciiLower (searchWords asciiLower "chicken"))
          [⟨"Chicken Soup", .fin 50⟩, ⟨"Chicken Breast, Raw", .fin 120⟩]) ∧
      (∀ r ∈ ranked, score asciiLower (searchWords asciiLower "chicken") r.food = some r.score) ∧
      ranked.Sorted (fun a b => a.score ≥ b.score) ∧
      (∀ k : Int, (ranked.filter (fun r => r.score == k)).map (fun r => r.food) =
        (List.filter (matchesAll asciiLower (searchWords asciiLower "chicken"))
          [⟨"Chicken Soup", .fin 50⟩, ⟨"Chicken Breast, Raw", .fin 120⟩]).filter
          (fun f => score asciiLower (searchWords asciiLower "chicken") f == some k)) ∧
      ((ranked.map (fun r => r.food)).take 30).length ≤ 30 ∧
      ((ranked.take 30).map (fun r => r.score)).Sorted (fun a b => a ≥ b) :=
  ⟨preservesBlank_asciiLower, by decide,
    filtered_ranked asciiLower preservesBlank_asciiLower _ _ (by decide)⟩

/-- C4: for every query and every food that all its search words match, `score` returns
the sum over the search words of 10 (some token equals the word) or 5, plus 3 for each
search word the first token starts with, plus the length bonus
`max 0 (5 - floor (length / 15))` once. -/
theorem score_formula (toLowerCase : List Char → List Char) (search : String) (food : Food)
    (hm : matchesAll toLowerCase (searchWords toLowerCase search) food = true) :
    score toLowerCase (searchWords toLowerCase search) food =
      some (((searchWords toLowerCase search).map (fun sw =>
          if (tokenize toLowerCase food.n).any (fun t => t == sw) then (10 : Int) else 5)).sum +
        ((searchWords toLowerCase search).map (fun sw =>
          match (tokenize toLowerCase food.n).head? with
          | some t0 => if sw.isPrefixOf t0 then (3 : Int) else 0
          | none => 0)).sum +
        max 0 (5 - ((jsLength food.n / 15 : Nat) : Int))) := by
  rw [score_eq, if_pos hm]
  rfl

/-- Witness of C4: `chicken breast` against `Chicken Breast, Raw` scores 10 + 3 + 10 + 4. -/
theorem score_formula_witness :
    matchesAll asciiLower (searchWords asciiLower "chicken breast")
      ⟨"Chicken Breast, Raw", .fin 120⟩ = true ∧
    score asciiLower (searchWords asciiLower "chicken breast") ⟨"Chicken Breast, Raw", .fin 120⟩ =
      some (((searchWords asciiLower "chicken breast").map (fun sw =>
          if (tokenize asciiLower "Chicken Breast, Raw").any (fun t => t == sw)
          then (10 : Int) else 5)).sum +
        ((searchWords asciiLower "chicken breast").map (fun sw =>
          match (tokenize asciiLower "Chicken Breast, Raw").head? with
          | some t0 => if sw.isPrefixOf t0 then (3 : Int) else 0
          | none => 0)).sum +
        max 0 (5 - ((jsLength "Chicken Breast, Raw" / 15 : Nat) : Int))) :=
  ⟨by decide, score_formula asciiLower "chicken breast" ⟨"Chicken Breast, Raw", .fin 120⟩
    (by decide)⟩

/-- C5: for a query that is empty or all whitespace, `filtered` returns the first 10 table
entries in table order, which is the whole table when it has at most 10 entries. -/
theorem filtered_blank (toLowerCase : List Char → List Char) (FOODS : List Food)
    (search : String) (hq : isBlank search = true) :
    filtered toLowerCase FOODS search = some (FOODS.take 10) ∧
      (FOODS.length ≤ 10 → filtered toLowerCase FOODS search = some FOODS) := by
  have h : filtered toLowerCase FOODS search = some (FOODS.take 10) := by
    unfold filtered
    rw [if_pos ((trim_eq_nil_iff _).mpr hq)]
  exact ⟨h, fun hlen => by rw [h, List.take_of_length_le hlen]⟩

/-- Witness of C5 on the query of two spaces. -/
theorem filtered_blank_witness :
    isBlank "  " = true ∧
    filtered asciiLower [⟨"Chicken Soup", .fin 50⟩, ⟨"Chicken Breast, Raw", .fin 120⟩] "  " =
      some (List.take 10 [⟨"Chicken Soup", .fin 50⟩, ⟨"Chicken Breast, Raw", .fin 120⟩]) ∧
    (List.length [(⟨"Chicken Soup", .fin 50⟩ : Food), ⟨"Chicken Breast, Raw", .fin 120⟩] ≤ 10 →
      filtered asciiLower [⟨"Chicken Soup", .fin 50⟩, ⟨"Chicken Breast, Raw", .fin 120⟩] "  " =
        some [⟨"Chicken Soup", .fin 50⟩, ⟨"Chicken Breast, Raw", .fin 120⟩]) :=
  ⟨by decide, filtered_blank asciiLower _ "  " (by decide)⟩

/-! ## Lemmas on doubles -/

theorem le_roundHalfEven (n d m : Nat) (hd : 0 < d) (h : m * d ≤ n) :
    m ≤ Number.roundHalfEven n d := by
  have h1 : m ≤ n / d := (Nat.le_div_iff_mul_le hd).mpr h
  unfold Number.roundHalfEven
  split_ifs <;> omega

theorem roundHalfEven_le (n d m : Nat) (hd : 0 < d) (h : n ≤ m * d) :
    Number.roundHalfEven n d ≤ m := by
  have hdm := Nat.div_add_mod n d
  have h1 : n / d ≤ m := by
    apply Nat.div_le_of_le_mul
    rw [Nat.mul_comm]
    exact h
  have h2 : 0 < n % d → n / d + 1 ≤ m := by
    intro hr
    by_contra hc
    have he : m = n / d := by omega
    rw [he, Nat.mul_comm] at h
    omega
  unfold Number.roundHalfEven
  split_ifs <;> omega

theorem floorLog2Aux_eq : ∀ fuel n : Nat, n ≤ fuel → Number.floorLog2Aux fuel n = Nat.log2 n
  | 0, n, h => by
    have hn : n = 0 := Nat.le_zero.mp h
    subst hn
    rw [Nat.log2]
    simp [Number.floorLog2Aux]
  | fuel + 1, n, h => by
    rw [Nat.log2]
    by_cases h2 : n < 2
    · have h3 : ¬ n ≥ 2 := by omega
      simp [Number.floorLog2Aux, h2, h3]
    · have h3 : n ≥ 2 := by omega
      have h4 : n / 2 ≤ fuel := by omega
      simp only [Number.floorLog2Aux, h2, h3, if_false, if_true,
        floorLog2Aux_eq fuel (n / 2) h4]

theorem floorLog2_eq (n : Nat) : Number.floorLog2 n = Nat.log2 n :=
  floorLog2Aux_eq n n (Nat.le_refl n)

theorem binade_le (n d : Nat) (hn : 0 < n) (hd : 0 < d) :
    (2 : ℚ) ^ Number.binade n d ≤ (n : ℚ) / d := by
  have ha : 2 ^ Nat.log2 n ≤ n := Nat.log2_self_le (Nat.pos_iff_ne_zero.mp hn)
  have hb : d < 2 ^ (Nat.log2 d + 1) := Nat.lt_log2_self
  have hdq : (0 : ℚ) < d := by exact_mod_cast hd
  unfold Number.binade
  rw [floorLog2_eq, floorLog2_eq]
  generalize Nat.log2 n = a at ha ⊢
  generalize Nat.log2 d = b at hb ⊢
  have hlow : (2 : ℚ) ^ ((a : ℤ) - (b : ℤ) - 1) ≤ (n : ℚ) / d := by
    have e : (a : ℤ) - (b : ℤ) - 1 = (a : ℤ) - ((b + 1 : ℕ) : ℤ) := by omega
    rw [e, zpow_sub₀ (by norm_num), zpow_natCast, zpow_natCast]
    have h1 : ((2 : ℚ) ^ a) ≤ n := by exact_mod_cast ha
    have h2 : (d : ℚ) ≤ (2 : ℚ) ^ (b + 1) := by exact_mod_cast le_of_lt hb
    exact div_le_div₀ (by positivity) h1 hdq h2
  by_cases hab : b ≤ a
  · simp only [hab, if_true]
    split_ifs with hc
    · have e : (a : ℤ) - (b : ℤ) = ((a - b : ℕ) : ℤ) := by omega
      rw [e, zpow_natCast, le_div_iff₀ hdq]
      have : (2 : ℚ) ^ (a - b) * d = ((d * 2 ^ (a - b) : ℕ) : ℚ) := by push_cast; ring
      rw [this]
      exact_mod_cast hc
    · exact hlow
  · simp only [hab, if_false]
    split_ifs with hc
    · have e : (a : ℤ) - (b : ℤ) = -((b - a : ℕ) : ℤ) := by omega
      rw [e, zpow_neg, zpow_natCast, le_div_iff₀ hdq, inv_mul_le_iff₀ (by positivity)]
      have : (2 : ℚ) ^ (b - a) * n = ((n * 2 ^ (b - a) : ℕ) : ℚ) := by push_cast; ring
      rw [this]
      exact_mod_cast hc
    · exact hlow

theorem binade_lt (n d : Nat) (hd : 0 < d) :
    (n : ℚ) / d < (2 : ℚ) ^ (Number.binade n d + 1) := by
  have ha : n < 2 ^ (Nat.log2 n + 1) := Nat.lt_log2_self
  have hb : 2 ^ Nat.log2 d ≤ d := Nat.log2_self_le (Nat.pos_iff_ne_zero.mp hd)
  have hdq : (0 : ℚ) < d := by exact_mod_cast hd
  unfold Number.binade
  rw [floorLog2_eq, floorLog2_eq]
  generalize Nat.log2 n = a at ha ⊢
  generalize Nat.log2 d = b at hb ⊢
  have hhigh : (n : ℚ) / d < (2 : ℚ) ^ ((a : ℤ) - (b : ℤ) + 1) := by
    have e : (a : ℤ) - (b : ℤ) + 1 = ((a + 1 : ℕ) : ℤ) - (b : ℤ) := by omega
    rw [e, zpow_sub₀ (by norm_num), zpow_natCast, zpow_natCast]
    have h1 : (n : ℚ) < (2 : ℚ) ^ (a + 1) := by exact_mod_cast ha
    have h2 : ((2 : ℚ) ^ b) ≤ d := by exact_mod_cast hb
    exact div_lt_div₀ h1 h2 (by positivity) (by positivity)
  by_cases hab : b ≤ a
  · simp only [hab, if_true]
    split_ifs with hc
    · exact hhigh
    · have e : (a : ℤ) - (b : ℤ) - 1 + 1 = ((a - b : ℕ) : ℤ) := by omega
      rw [e, zpow_natCast, div_lt_iff₀ hdq]
      have : (2 : ℚ) ^ (a - b) * d = ((d * 2 ^ (a - b) : ℕ) : ℚ) := by push_cast; ring
      rw [this]
      exact_mod_cast not_le.mp hc
  · simp only [hab, if_false]
    split_ifs with hc
    · exact hhigh
    · have e : (a : ℤ) - (b : ℤ) - 1 + 1 = -((b - a : ℕ) : ℤ) := by omega
      rw [e, zpow_neg, zpow_natCast, div_lt_iff₀ hdq, lt_inv_mul_iff₀ (by positivity)]
      have : (2 : ℚ) ^ (b - a) * n = ((n * 2 ^ (b - a) : ℕ) : ℚ) := by push_cast; ring
      rw [this]
      exact_mod_cast not_le.mp hc

theorem natAbs_div_den (q : ℚ) : ((q.num.natAbs : ℕ) : ℚ) / q.den = |q| := by
  have h := Rat.num_div_den q
  rcases le_total 0 q with hq | hq
  · have hn : 0 ≤ q.num := Rat.num_nonneg.mpr hq
    have e : ((q.num.natAbs : ℕ) : ℚ) = (q.num : ℚ) := by
      rw [Nat.cast_natAbs, abs_of_nonneg hn]
    rw [e, h, abs_of_nonneg hq]
  · have hn : q.num ≤ 0 := Rat.num_nonpos.mpr hq
    have e : ((q.num.natAbs : ℕ) : ℚ) = -(q.num : ℚ) := by
      rw [Nat.cast_natAbs, abs_of_nonpos hn, Int.cast_neg]
    rw [e, neg_div, h, abs_of_nonpos hq]

theorem binade_le_abs (q : ℚ) (hq : q ≠ 0) :
    (2 : ℚ) ^ Number.binade q.num.natAbs q.den ≤ |q| := by
  rw [← natAbs_div_den]
  exact binade_le _ _ (Int.natAbs_pos.mpr (Rat.num_ne_zero.mpr hq)) q.den_pos

theorem mantissa_ge (q : ℚ) (M : ℕ) (h : (M : ℚ) * (2 : ℚ) ^ Number.ulpExponent q ≤ |q|) :
    M ≤ Number.mantissa q := by
  have hdq : (0 : ℚ) < q.den := by exact_mod_cast q.den_pos
  rw [← natAbs_div_den, le_div_iff₀ hdq] at h
  unfold Number.mantissa
  split_ifs with hp
  · apply le_roundHalfEven _ _ _ (by positivity)
    have e : (2 : ℚ) ^ Number.ulpExponent q = (2 : ℚ) ^ (Number.ulpExponent q).toNat := by
      rw [← zpow_natCast, Int.toNat_of_nonneg hp]
    rw [e] at h
    have : ((M * (q.den * 2 ^ (Number.ulpExponent q).toNat) : ℕ) : ℚ) ≤ (q.num.natAbs : ℚ) := by
      push_cast
      calc (M : ℚ) * ((q.den : ℚ) * 2 ^ (Number.ulpExponent q).toNat)
          = (M : ℚ) * 2 ^ (Number.ulpExponent q).toNat * q.den := by ring
        _ ≤ _ := h
    exact_mod_cast this
  · apply le_roundHalfEven _ _ _ q.den_pos
    have hp' : 0 ≤ - Number.ulpExponent q := by omega
    have e : (2 : ℚ) ^ Number.ulpExponent q = ((2 : ℚ) ^ (- Number.ulpExponent q).toNat)⁻¹ := by
      rw [← zpow_natCast, Int.toNat_of_nonneg hp', zpow_neg, inv_inv]
    rw [e] at h
    have hpos : (0 : ℚ) < (2 : ℚ) ^ (- Number.ulpExponent q).toNat := by positivity
    have : ((M * q.den : ℕ) : ℚ) ≤ ((q.num.natAbs * 2 ^ (- Number.ulpExponent q).toNat : ℕ) : ℚ) := by
      push_cast
      have h2 := mul_le_mul_of_nonneg_right h (le_of_lt hpos)
      calc (M : ℚ) * q.den
          = (M : ℚ) * ((2 : ℚ) ^ (- Number.ulpExponent q).toNat)⁻¹ * q.den *
              (2 : ℚ) ^ (- Number.ulpExponent q).toNat := by
            field_simp
        _ ≤ _ := h2
    exact_mod_cast this

theorem mantissa_le (q : ℚ) (M : ℕ) (h : |q| ≤ (M : ℚ) * (2 : ℚ) ^ Number.ulpExponent q) :
    Number.mantissa q ≤ M := by
  have hdq : (0 : ℚ) < q.den := by exact_mod_cast q.den_pos
  rw [← natAbs_div_den, div_le_iff₀ hdq] at h
  unfold Number.mantissa
  split_ifs with hp
  · apply roundHalfEven_le _ _ _ (by positivity)
    have e : (2 : ℚ) ^ Number.ulpExponent q = (2 : ℚ) ^ (Number.ulpExponent q).toNat := by
      rw [← zpow_natCast, Int.toNat_of_nonneg hp]
    rw [e] at h
    have : (q.num.natAbs : ℚ) ≤ ((M * (q.den * 2 ^ (Number.ulpExponent q).toNat) : ℕ) : ℚ) := by
      push_cast
      calc (q.num.natAbs : ℚ) ≤ (M : ℚ) * 2 ^ (Number.ulpExponent q).toNat * q.den := h
        _ = _ := by ring
    exact_mod_cast this
  · apply roundHalfEven_le _ _ _ q.den_pos
    have hp' : 0 ≤ - Number.ulpExponent q := by omega
    have e : (2 : ℚ) ^ Number.ulpExponent q = ((2 : ℚ) ^ (- Number.ulpExponent q).toNat)⁻¹ := by
      rw [← zpow_natCast, Int.toNat_of_nonneg hp', zpow_neg, inv_inv]
    rw [e] at h
    have hpos : (0 : ℚ) < (2 : ℚ) ^ (- Number.ulpExponent q).toNat := by positivity
    have : ((q.num.natAbs * 2 ^ (- Number.ulpExponent q).toNat : ℕ) : ℚ) ≤ ((M * q.den : ℕ) : ℚ) := by
      push_cast
      have h2 := mul_le_mul_of_nonneg_right h (le_of_lt hpos)
      calc (q.num.natAbs : ℚ) * (2 : ℚ) ^ (- Number.ulpExponent q).toNat ≤ _ := h2
        _ = (M : ℚ) * q.den := by field_simp
    exact_mod_cast this

theorem ulpExponent_cases (q : ℚ) :
    (Number.ulpExponent q = Number.binade q.num.natAbs q.den - 52 ∧ -1074 ≤ Number.ulpExponent q) ∨
      Number.ulpExponent q = -1074 := by
  unfold Number.ulpExponent
  rcases le_total (Number.binade q.num.natAbs q.den - 52) (-1074) with h | h
  · right; exact max_eq_right h
  · left; rw [max_eq_left h]; exact ⟨rfl, h⟩

theorem two_zpow_toNat_mul (p p0 : ℤ) (h : p ≤ p0) :
    (((2 ^ (p0 - p).toNat : ℕ) : ℚ)) * (2 : ℚ) ^ p = (2 : ℚ) ^ p0 := by
  have h1 : ((p0 - p).toNat : ℤ) = p0 - p := Int.toNat_of_nonneg (by omega)
  rw [Nat.cast_pow, Nat.cast_ofNat, ← zpow_natCast, h1, ← zpow_add₀ (by norm_num)]
  congr 1
  ring

theorem nearest_ge (q : ℚ) (hq : q ≠ 0) (m0 : ℕ) (p0 : ℤ) (hm : m0 < 2 ^ 53)
    (hp : -1074 ≤ p0) (h : (m0 : ℚ) * (2 : ℚ) ^ p0 ≤ |q|) :
    (m0 : ℚ) * (2 : ℚ) ^ p0 ≤ Number.nearest q := by
  have hpos : ∀ z : ℤ, (0 : ℚ) < (2 : ℚ) ^ z := fun z => by positivity
  unfold Number.nearest
  by_cases hpp : Number.ulpExponent q ≤ p0
  · have hM := mantissa_ge q (m0 * 2 ^ (p0 - Number.ulpExponent q).toNat) (by
      rw [Nat.cast_mul, mul_assoc, two_zpow_toNat_mul _ _ hpp]
      exact h)
    have hM2 : ((m0 * 2 ^ (p0 - Number.ulpExponent q).toNat : ℕ) : ℚ) ≤ (Number.mantissa q : ℚ) := by
      exact_mod_cast hM
    calc (m0 : ℚ) * (2 : ℚ) ^ p0
        = ((m0 * 2 ^ (p0 - Number.ulpExponent q).toNat : ℕ) : ℚ) * (2 : ℚ) ^ Number.ulpExponent q := by
          rw [Nat.cast_mul, mul_assoc, two_zpow_toNat_mul _ _ hpp]
      _ ≤ _ := mul_le_mul_of_nonneg_right hM2 (le_of_lt (hpos _))
  · have hpe : Number.ulpExponent q = Number.binade q.num.natAbs q.den - 52 := by
      rcases ulpExponent_cases q with h1 | h1
      · exact h1.1
      · omega
    have hb := binade_le_abs q hq
    have he : (2 : ℚ) ^ Number.binade q.num.natAbs q.den =
        ((2 ^ 52 : ℕ) : ℚ) * (2 : ℚ) ^ Number.ulpExponent q := by
      rw [hpe, Nat.cast_pow, Nat.cast_ofNat, ← zpow_natCast, ← zpow_add₀ (by norm_num)]
      congr 1
      push_cast
      ring
    have hM := mantissa_ge q (2 ^ 52) (by rw [← he]; exact hb)
    have hM2 : ((2 ^ 52 : ℕ) : ℚ) ≤ (Number.mantissa q : ℚ) := by exact_mod_cast hM
    have h53 : (m0 : ℚ) ≤ ((2 ^ 53 : ℕ) : ℚ) := by exact_mod_cast le_of_lt hm
    have hstep : (2 : ℚ) ^ p0 * 2 ≤ (2 : ℚ) ^ Number.ulpExponent q := by
      have : (2 : ℚ) ^ p0 * 2 = (2 : ℚ) ^ (p0 + 1) := by
        rw [zpow_add₀ (by norm_num), zpow_one]
      rw [this]
      exact zpow_le_zpow_right₀ (by norm_num) (by omega)
    calc (m0 : ℚ) * (2 : ℚ) ^ p0
        ≤ ((2 ^ 53 : ℕ) : ℚ) * (2 : ℚ) ^ p0 :=
          mul_le_mul_of_nonneg_right h53 (le_of_lt (hpos _))
      _ = ((2 ^ 52 : ℕ) : ℚ) * ((2 : ℚ) ^ p0 * 2) := by push_cast; ring
      _ ≤ ((2 ^ 52 : ℕ) : ℚ) * (2 : ℚ) ^ Number.ulpExponent q :=
          mul_le_mul_of_nonneg_left hstep (by positivity)
      _ ≤ _ := mul_le_mul_of_nonneg_right hM2 (le_of_lt (hpos _))

theorem nearest_le (q : ℚ) (hq : q ≠ 0) (m0 : ℕ) (p0 : ℤ) (hm : m0 < 2 ^ 53)
    (hp : -1074 ≤ p0) (h : |q| ≤ (m0 : ℚ) * (2 : ℚ) ^ p0) :
    Number.nearest q ≤ (m0 : ℚ) * (2 : ℚ) ^ p0 := by
  have hpos : ∀ z : ℤ, (0 : ℚ) < (2 : ℚ) ^ z := fun z => by positivity
  unfold Number.nearest
  have hpp : Number.ulpExponent q ≤ p0 := by
    by_contra hc
    have hpe : Number.ulpExponent q = Number.binade q.num.natAbs q.den - 52 := by
      rcases ulpExponent_cases q with h1 | h1
      · exact h1.1
      · omega
    have hb := binade_le_abs q hq
    have h53 : (m0 : ℚ) < ((2 ^ 53 : ℕ) : ℚ) := by exact_mod_cast hm
    have hlt : (2 : ℚ) ^ Number.binade q.num.natAbs q.den < (2 : ℚ) ^ (53 + p0) := by
      calc (2 : ℚ) ^ Number.binade q.num.natAbs q.den ≤ |q| := hb
        _ ≤ (m0 : ℚ) * (2 : ℚ) ^ p0 := h
        _ < ((2 ^ 53 : ℕ) : ℚ) * (2 : ℚ) ^ p0 := mul_lt_mul_of_pos_right h53 (hpos _)
        _ = (2 : ℚ) ^ (53 + p0) := by
          rw [zpow_add₀ (by norm_num)]
          norm_num
    have := (zpow_lt_zpow_iff_right₀ (by norm_num : (1 : ℚ) < 2)).mp hlt
    omega
  have hM := mantissa_le q (m0 * 2 ^ (p0 - Number.ulpExponent q).toNat) (by
    rw [Nat.cast_mul, mul_assoc, two_zpow_toNat_mul _ _ hpp]
    exact h)
  have hM2 : (Number.mantissa q : ℚ) ≤ ((m0 * 2 ^ (p0 - Number.ulpExponent q).toNat : ℕ) : ℚ) := by
    exact_mod_cast hM
  calc (Number.mantissa q : ℚ) * (2 : ℚ) ^ Number.ulpExponent q
      ≤ ((m0 * 2 ^ (p0 - Number.ulpExponent q).toNat : ℕ) : ℚ) * (2 : ℚ) ^ Number.ulpExponent q :=
        mul_le_mul_of_nonneg_right hM2 (le_of_lt (hpos _))
    _ = _ := by rw [Nat.cast_mul, mul_assoc, two_zpow_toNat_mul _ _ hpp]

theorem nearest_nonneg (q : ℚ) : 0 ≤ Number.nearest q := by
  unfold Number.nearest
  positivity

theorem nearest_neg (q : ℚ) : Number.nearest (-q) = Number.nearest q := by
  simp [Number.nearest, Number.mantissa, Number.ulpExponent]

theorem nearest_zero : Number.nearest 0 = 0 := by decide!

/-- A double is rounded to itself. -/
theorem nearest_exact (m0 : ℕ) (p0 : ℤ) (hm : m0 < 2 ^ 53) (hp : -1074 ≤ p0) :
    Number.nearest ((m0 : ℚ) * (2 : ℚ) ^ p0) = (m0 : ℚ) * (2 : ℚ) ^ p0 := by
  by_cases h0 : (m0 : ℚ) * (2 : ℚ) ^ p0 = 0
  · rw [h0, nearest_zero]
  · have habs : |(m0 : ℚ) * (2 : ℚ) ^ p0| = (m0 : ℚ) * (2 : ℚ) ^ p0 :=
      abs_of_nonneg (by positivity)
    exact le_antisymm (nearest_le _ h0 m0 p0 hm hp (le_of_eq habs))
      (nearest_ge _ h0 m0 p0 hm hp (le_of_eq habs.symm))

theorem two_pow_1024_pos : ¬ (2 : ℚ) ^ (1024 : ℕ) ≤ 0 := not_le.mpr (by positivity)

theorem two_pow_53_le : ((2 ^ 53 : ℕ) : ℚ) ≤ (2 : ℚ) ^ (1024 : ℕ) := by decide!

theorem dyadic_nonneg (m : ℕ) (p : ℤ) : (0 : ℚ) ≤ (m : ℚ) * (2 : ℚ) ^ p := by
  positivity

theorem roundDouble_zero : Number.roundDouble 0 = .fin 0 := by
  unfold Number.roundDouble
  rw [nearest_zero, if_neg two_pow_1024_pos, if_neg (lt_irrefl 0)]

theorem roundDouble_of_pos (q : ℚ) (hq : 0 ≤ q) :
    Number.roundDouble q =
      if (2 : ℚ) ^ (1024 : ℕ) ≤ Number.nearest q then .inf false else .fin (Number.nearest q) := by
  have h : ¬ q < 0 := not_lt.mpr hq
  simp only [Number.roundDouble, h, decide_False, if_false]

theorem roundDouble_neg (q : ℚ) : Number.roundDouble (-q) = Number.neg (Number.roundDouble q) := by
  rcases lt_trichotomy q 0 with h | h | h
  · have h1 : ¬ -q < 0 := by linarith
    by_cases hov : (2 : ℚ) ^ (1024 : ℕ) ≤ Number.nearest q
    · simp [Number.roundDouble, nearest_neg, hov, h, h1, Number.neg]
    · simp [Number.roundDouble, nearest_neg, hov, h, h1, Number.neg]
  · subst h
    rw [neg_zero, roundDouble_zero]
    simp [Number.neg]
  · have h1 : -q < 0 := by linarith
    have h2 : ¬ q < 0 := by linarith
    by_cases hov : (2 : ℚ) ^ (1024 : ℕ) ≤ Number.nearest q
    · simp [Number.roundDouble, nearest_neg, hov, h1, h2, Number.neg]
    · simp [Number.roundDouble, nearest_neg, hov, h1, h2, Number.neg]

/-- A double is rounded to itself. -/
theorem roundDouble_exact (m0 : ℕ) (p0 : ℤ) (hm : m0 < 2 ^ 53) (hp : -1074 ≤ p0)
    (hlt : (m0 : ℚ) * (2 : ℚ) ^ p0 < (2 : ℚ) ^ (1024 : ℕ)) :
    Number.roundDouble ((m0 : ℚ) * (2 : ℚ) ^ p0) = .fin ((m0 : ℚ) * (2 : ℚ) ^ p0) := by
  rw [roundDouble_of_pos _ (dyadic_nonneg m0 p0), nearest_exact m0 p0 hm hp,
    if_neg (not_le.mpr hlt)]

theorem roundDouble_natCast (n : ℕ) (h : n < 2 ^ 53) : Number.roundDouble (n : ℚ) = .fin n := by
  have := roundDouble_exact n 0 h (by norm_num) (by
    rw [zpow_zero, mul_one]
    have h1 : (n : ℚ) < ((2 ^ 53 : ℕ) : ℚ) := by exact_mod_cast h
    exact lt_of_lt_of_le h1 two_pow_53_le)
  rw [zpow_zero, mul_one] at this
  exact this

/-- A dyadic rational with a numerator below `2 ^ 53` is a double. -/
theorem roundDouble_dyadic (z : ℤ) (k : ℕ) (hz : z.natAbs < 2 ^ 53) (hk : k ≤ 1074) :
    Number.roundDouble ((z : ℚ) / (2 : ℚ) ^ k) = .fin ((z : ℚ) / (2 : ℚ) ^ k) := by
  have hkey : ∀ n : ℕ, n < 2 ^ 53 →
      Number.roundDouble ((n : ℚ) / (2 : ℚ) ^ k) = .fin ((n : ℚ) / (2 : ℚ) ^ k) := by
    intro n hn
    have e : (n : ℚ) / (2 : ℚ) ^ k = (n : ℚ) * (2 : ℚ) ^ (-(k : ℤ)) := by
      rw [zpow_neg, zpow_natCast, div_eq_mul_inv]
    rw [e]
    apply roundDouble_exact n _ hn (by omega)
    rw [← e]
    have h1 : (n : ℚ) < ((2 ^ 53 : ℕ) : ℚ) := by exact_mod_cast hn
    have h2 : (1 : ℚ) ≤ (2 : ℚ) ^ k := one_le_pow₀ (by norm_num)
    calc (n : ℚ) / (2 : ℚ) ^ k ≤ (n : ℚ) := div_le_self (by positivity) h2
      _ < ((2 ^ 53 : ℕ) : ℚ) := h1
      _ ≤ (2 : ℚ) ^ (1024 : ℕ) := two_pow_53_le
  rcases le_total 0 z with h0 | h0
  · have e : (z : ℚ) = ((z.natAbs : ℕ) : ℚ) := by
      rw [Nat.cast_natAbs, abs_of_nonneg h0]
    rw [e]
    exact hkey _ hz
  · have e : (z : ℚ) = -((z.natAbs : ℕ) : ℚ) := by
      rw [Nat.cast_natAbs, abs_of_nonpos h0, Int.cast_neg, neg_neg]
    rw [e, neg_div, roundDouble_neg, hkey _ hz]
    rfl

theorem roundDouble_intCast (z : ℤ) (hz : z.natAbs < 2 ^ 53) :
    Number.roundDouble (z : ℚ) = .fin z := by
  have := roundDouble_dyadic z 0 hz (by norm_num)
  rw [pow_zero, div_one] at this
  exact this

/-- Rounding keeps a value between two doubles between them. -/
theorem roundDouble_between (q : ℚ) (m1 m2 : ℕ) (p1 p2 : ℤ) (hm1 : m1 < 2 ^ 53)
    (hm2 : m2 < 2 ^ 53) (hp1 : -1074 ≤ p1) (hp2 : -1074 ≤ p2)
    (hlt : (m2 : ℚ) * (2 : ℚ) ^ p2 < (2 : ℚ) ^ (1024 : ℕ))
    (h1 : (m1 : ℚ) * (2 : ℚ) ^ p1 ≤ q) (h2 : q ≤ (m2 : ℚ) * (2 : ℚ) ^ p2) :
    ∃ r : ℚ, Number.roundDouble q = .fin r ∧ (m1 : ℚ) * (2 : ℚ) ^ p1 ≤ r ∧
      r ≤ (m2 : ℚ) * (2 : ℚ) ^ p2 := by
  have hq0 : 0 ≤ q := le_trans (dyadic_nonneg m1 p1) h1
  by_cases hz : q = 0
  · subst hz
    exact ⟨0, roundDouble_zero, h1, h2⟩
  · have habs : |q| = q := abs_of_nonneg hq0
    have hle := nearest_le q hz m2 p2 hm2 hp2 (by rw [habs]; exact h2)
    have hge := nearest_ge q hz m1 p1 hm1 hp1 (by rw [habs]; exact h1)
    refine ⟨Number.nearest q, ?_, hge, hle⟩
    rw [roundDouble_of_pos _ hq0, if_neg (not_le.mpr (lt_of_le_of_lt hle hlt))]

/-- Rounding a value from a double on gives that double at least. -/
theorem roundDouble_ge (q : ℚ) (m1 : ℕ) (p1 : ℤ) (hm1 : m1 < 2 ^ 53) (hp1 : -1074 ≤ p1)
    (hpos : 0 < (m1 : ℚ) * (2 : ℚ) ^ p1) (h1 : (m1 : ℚ) * (2 : ℚ) ^ p1 ≤ q) :
    Number.roundDouble q = .inf false ∨
      ∃ r : ℚ, Number.roundDouble q = .fin r ∧ (m1 : ℚ) * (2 : ℚ) ^ p1 ≤ r := by
  have hq0 : 0 < q := lt_of_lt_of_le hpos h1
  have habs : |q| = q := abs_of_pos hq0
  have hge := nearest_ge q (ne_of_gt hq0) m1 p1 hm1 hp1 (by rw [habs]; exact h1)
  rw [roundDouble_of_pos _ (le_of_lt hq0)]
  by_cases hov : (2 : ℚ) ^ (1024 : ℕ) ≤ Number.nearest q
  · left; rw [if_pos hov]
  · right; rw [if_neg hov]; exact ⟨_, rfl, hge⟩

theorem roundDouble_nonpos (q : ℚ) (hq : q ≤ 0) :
    (Number.roundDouble q).gt (.fin 0) = false := by
  have hn := nearest_nonneg q
  unfold Number.roundDouble
  split_ifs with h1 h2
  · have : q < 0 := by
      by_contra hc
      have : q = 0 := le_antisymm hq (not_lt.mp hc)
      rw [this, nearest_zero] at h1
      exact two_pow_1024_pos h1
    simp [this, Number.gt, Number.lt]
  · simp only [Number.gt, Number.lt, decide_eq_false_iff_not, not_lt]
    linarith
  · have : q = 0 := le_antisymm hq (not_lt.mp h2)
    rw [this, nearest_zero]
    simp [Number.gt, Number.lt]

/-- The rounding at some known values: `0.1`, `0.1 + 0.2`, the ties at `2 ^ 53 + 1` and
`2 ^ 53 + 3`, `1e23`, the smallest subnormal, an underflow to zero, the largest double and
an overflow. -/
theorem roundDouble_examples :
    Number.roundDouble (1 / 10) = .fin (3602879701896397 / 36028797018963968) ∧
    Number.fadd (Number.roundDouble (1 / 10)) (Number.roundDouble (2 / 10)) =
      .fin (1351079888211149 / 4503599627370496) ∧
    Number.roundDouble 9007199254740993 = .fin 9007199254740992 ∧
    Number.roundDouble 9007199254740995 = .fin 9007199254740996 ∧
    parseFloat (.str "1e23") = .fin 99999999999999991611392 ∧
    parseFloat (.str "5e-324") = .fin ((2 : ℚ) ^ (-1074 : ℤ)) ∧
    parseFloat (.str "1e-400") = .fin 0 ∧
    parseFloat (.str "1.7976931348623157e308") =
      .fin ((2 : ℚ) ^ (1024 : ℕ) - (2 : ℚ) ^ (971 : ℕ)) ∧
    parseFloat (.str "1.7976931348623159e308") = .inf false ∧
    parseFloat (.str "-1e309") = .inf true :=
  ⟨by decide!, by decide!, by decide!, by decide!, by decide!, by decide!, by decide!,
    by decide!, by decide!, by decide!⟩

/-! ## Lemmas on the profile rules -/

theorem weightGuard_eq_false_iff (w : Number) :
    (w.isFalsy || w.le (.fin 0) || w.gt (.fin 500)) = false ↔
      ∃ q : ℚ, w = .fin q ∧ 0 < q ∧ q ≤ 500 := by
  cases w with
  | nan => simp [Number.isFalsy]
  | fin q =>
    simp only [Number.isFalsy, Number.le, Number.gt, Number.lt, Bool.or_eq_false_iff,
      beq_eq_false_iff_ne, decide_eq_false_iff_not, not_le, not_lt, Number.fin.injEq,
      exists_eq_left']
    constructor
    · rintro ⟨⟨_, h2⟩, h3⟩
      exact ⟨h2, h3⟩
    · rintro ⟨h2, h3⟩
      exact ⟨⟨ne_of_gt h2, h2⟩, h3⟩
  | inf n => cases n <;> simp [Number.isFalsy, Number.le, Number.gt, Number.lt]

theorem rangeGuard_eq_false_iff (x : Number) (lo hi : ℚ) (hlo : 0 < lo) :
    (x.isFalsy || x.lt (.fin lo) || x.gt (.fin hi)) = false ↔
      ∃ q : ℚ, x = .fin q ∧ lo ≤ q ∧ q ≤ hi := by
  cases x with
  | nan => simp [Number.isFalsy]
  | fin q =>
    simp only [Number.isFalsy, Number.gt, Number.lt, Bool.or_eq_false_iff,
      beq_eq_false_iff_ne, decide_eq_false_iff_not, not_lt, Number.fin.injEq,
      exists_eq_left']
    constructor
    · rintro ⟨⟨_, h2⟩, h3⟩
      exact ⟨h2, h3⟩
    · rintro ⟨h2, h3⟩
      exact ⟨⟨ne_of_gt (lt_of_lt_of_le hlo h2), h2⟩, h3⟩
  | inf n => cases n <;> simp [Number.isFalsy, Number.gt, Number.lt]

/-! ## More lemmas on doubles -/

theorem two_zpow_lt_overflow (b : ℤ) (hb : b ≤ 1023) :
    (1 : ℕ) * (2 : ℚ) ^ b < (2 : ℚ) ^ (1024 : ℕ) := by
  rw [Nat.cast_one, one_mul, ← zpow_natCast]
  exact zpow_lt_zpow_right₀ (by norm_num) (by omega)

/-- Rounding keeps a value between two powers of two between them. -/
theorem roundDouble_between_pow (q : ℚ) (a b : ℤ) (ha : -1074 ≤ a) (hab : a ≤ b)
    (hb : b ≤ 1023) (h1 : (2 : ℚ) ^ a ≤ q) (h2 : q ≤ (2 : ℚ) ^ b) :
    ∃ r : ℚ, Number.roundDouble q = .fin r ∧ (2 : ℚ) ^ a ≤ r ∧ r ≤ (2 : ℚ) ^ b := by
  have h := roundDouble_between q 1 1 a b (by norm_num) (by norm_num) ha (by omega)
    (two_zpow_lt_overflow b hb) (by rw [Nat.cast_one, one_mul]; exact h1)
    (by rw [Nat.cast_one, one_mul]; exact h2)
  simp only [Nat.cast_one, one_mul] at h
  exact h

/-- Rounding keeps a value between zero and a power of two between them. -/
theorem roundDouble_nonneg_le_pow (q : ℚ) (b : ℤ) (hb1 : -1074 ≤ b) (hb : b ≤ 1023)
    (h1 : 0 ≤ q) (h2 : q ≤ (2 : ℚ) ^ b) :
    ∃ r : ℚ, Number.roundDouble q = .fin r ∧ 0 ≤ r ∧ r ≤ (2 : ℚ) ^ b := by
  have h := roundDouble_between q 0 1 0 b (by norm_num) (by norm_num) (by norm_num) hb1
    (two_zpow_lt_overflow b hb) (by rw [Nat.cast_zero, zero_mul]; exact h1)
    (by rw [Nat.cast_one, one_mul]; exact h2)
  simp only [Nat.cast_one, one_mul, Nat.cast_zero, zero_mul] at h
  exact h

theorem fadd_fin (a b : ℚ) :
    Number.fadd (.fin a) (.fin b) = Number.roundDouble (a + b) := rfl

theorem fsub_fin (a b : ℚ) :
    Number.fsub (.fin a) (.fin b) = Number.roundDouble (a - b) := by
  show Number.toDouble (Number.add (.fin a) (Number.neg (.fin b))) = _
  simp only [Number.neg, Number.add, Number.toDouble, sub_eq_add_neg]

theorem fmul_fin (a b : ℚ) :
    Number.fmul (.fin a) (.fin b) = Number.roundDouble (a * b) := rfl

theorem fdiv_fin (a : ℚ) {b : ℚ} (hb : b ≠ 0) :
    Number.fdiv (.fin a) (.fin b) = Number.roundDouble (a / b) := by
  show Number.toDouble (Number.div (.fin a) (.fin b)) = _
  simp only [Number.div, hb, if_false, Number.toDouble]

/-! ## Lemmas on the profile rules, continued -/

/-- `calcBMI` reads its arguments through `parseFloat` only. -/
theorem calcBMI_of_parse {wKg hCm : Value} {w h : Number} (hw : parseFloat wKg = w)
    (hh : parseFloat hCm = h) : calcBMI wKg hCm = calcBMI (.num w) (.num h) := by
  have e1 : parseFloat (.num w) = w := rfl
  have e2 : parseFloat (.num h) = h := rfl
  simp only [calcBMI, hw, hh, e1, e2]

/-- For a weight and a height that pass the rules of `saveProfile`, `calcBMI` returns a
finite number: the height in metres is between 0.5 and 4, its square between 0.25 and 16,
and the quotient at most 2048. -/
theorem calcBMI_of_ranges {w h : ℚ} (hw1 : 0 < w) (hw2 : w ≤ 500) (hh1 : 50 ≤ h)
    (hh2 : h ≤ 280) :
    ∃ b : ℚ, calcBMI (.num (.fin w)) (.num (.fin h)) = some (.fin b) ∧ 0 ≤ b ∧
      b ≤ 2048 := by
  obtain ⟨r1, e1, l1, u1⟩ := roundDouble_between_pow (h / 100) (-1) 2 (by norm_num)
    (by norm_num) (by norm_num) (by norm_num; linarith) (by norm_num; linarith)
  have l1' : (1 : ℚ) / 2 ≤ r1 := by norm_num at l1; linarith
  have u1' : r1 ≤ 4 := by norm_num at u1; exact u1
  obtain ⟨r2, e2, l2, u2⟩ := roundDouble_between_pow (r1 * r1) (-2) 4 (by norm_num)
    (by norm_num) (by norm_num) (by norm_num; nlinarith) (by norm_num; nlinarith)
  have l2' : (1 : ℚ) / 4 ≤ r2 := by norm_num at l2; linarith
  have hr2 : r2 ≠ 0 := by linarith
  have hq : w / r2 ≤ 2048 := by
    rw [div_le_iff₀ (by linarith)]
    nlinarith
  obtain ⟨b, e3, l3, u3⟩ := roundDouble_nonneg_le_pow (w / r2) 11 (by norm_num) (by norm_num)
    (div_nonneg (le_of_lt hw1) (by linarith)) (by norm_num; exact hq)
  refine ⟨b, ?_, l3, by norm_num at u3; exact u3⟩
  have hpos1 : (0 : ℚ) < r1 := by linarith
  simp only [calcBMI, parseFloat, fdiv_fin h (by norm_num : (100 : ℚ) ≠ 0), e1, fmul_fin, e2,
    fdiv_fin w hr2, e3, Number.gt, Number.lt, hw1, hpos1, decide_True, Bool.and_self, if_true]

theorem bmiGuard_eq_false_iff (b : ℚ) :
    (Number.lt (.fin b) (.fin 5) || Number.gt (.fin b) (.fin 100)) = false ↔
      5 ≤ b ∧ b ≤ 100 := by
  simp [Number.lt, Number.gt]

theorem saveProfile_of_ranges (st : State) {w h a : ℚ} (hn : nameRule st)
    (hw : parseFloat (.str st.weight) = .fin w) (hw1 : 0 < w) (hw2 : w ≤ 500)
    (hh : parseFloat (.str st.height) = .fin h) (hh1 : 50 ≤ h) (hh2 : h ≤ 280)
    (ha : parseFloat (.str st.age) = .fin a) (ha1 : 1 ≤ a) (ha2 : a ≤ 130) :
    ∃ b : ℚ, calcBMI (.str st.weight) (.str st.height) = some (.fin b) ∧
      saveProfile st =
        if 5 ≤ b ∧ b ≤ 100 then
          some { st with
            validationErr := .empty
            savedProfile := some
              { name := ⟨trim st.firstName.data⟩, weight := .fin w, height := .fin h,
                age := .fin a, sex := st.sex }
            profileSaved := true }
        else some { st with validationErr := .bmi (.fin b) } := by
  have g1 := (weightGuard_eq_false_iff (.fin w)).mpr ⟨w, rfl, hw1, hw2⟩
  have g2 := (rangeGuard_eq_false_iff (.fin h) 50 280 (by norm_num)).mpr ⟨h, rfl, hh1, hh2⟩
  have g3 := (rangeGuard_eq_false_iff (.fin a) 1 130 (by norm_num)).mpr ⟨a, rfl, ha1, ha2⟩
  obtain ⟨b, hb, _, _⟩ := calcBMI_of_ranges hw1 hw2 hh1 hh2
  refine ⟨b, (calcBMI_of_parse hw hh).trans hb, ?_⟩
  unfold nameRule at hn
  simp only [saveProfile, if_neg hn, hw, hh, ha, g1, g2, g3, hb, Bool.false_eq_true, if_false]
  by_cases hc : 5 ≤ b ∧ b ≤ 100
  · rw [if_pos hc, (bmiGuard_eq_false_iff _).mpr hc]
    simp
  · have hg : (Number.lt (.fin b) (.fin 5) || Number.gt (.fin b) (.fin 100)) = true := by
      rw [← Bool.not_eq_false]
      exact fun hf => hc ((bmiGuard_eq_false_iff _).mp hf)
    rw [if_neg hc, hg]
    simp

theorem saveProfile_name_error (st : State) (hn : ¬ nameRule st) :
    saveProfile st = some { st with validationErr := .name } := by
  unfold nameRule at hn
  simp only [saveProfile, if_pos (not_not.mp hn)]

theorem saveProfile_weight_error (st : State) (hn : nameRule st) (hw : ¬ weightRule st) :
    saveProfile st = some { st with validationErr := .weight } := by
  have g1 : (Number.isFalsy (parseFloat (.str st.weight)) ||
      Number.le (parseFloat (.str st.weight)) (.fin 0) ||
      Number.gt (parseFloat (.str st.weight)) (.fin 500)) = true := by
    rw [← Bool.not_eq_false]
    exact fun hf => hw ((weightGuard_eq_false_iff _).mp hf)
  unfold nameRule at hn
  simp only [saveProfile, if_neg hn, g1, if_true]

theorem saveProfile_height_error (st : State) (hn : nameRule st) (hw : weightRule st)
    (hh : ¬ heightRule st) : saveProfile st = some { st with validationErr := .height } := by
  have g1 := (weightGuard_eq_false_iff _).mpr hw
  have g2 : (Number.isFalsy (parseFloat (.str st.height)) ||
      Number.lt (parseFloat (.str st.height)) (.fin 50) ||
      Number.gt (parseFloat (.str st.height)) (.fin 280)) = true := by
    rw [← Bool.not_eq_false]
    exact fun hf => hh ((rangeGuard_eq_false_iff _ 50 280 (by norm_num)).mp hf)
  unfold nameRule at hn
  simp only [saveProfile, if_neg hn, g1, g2, if_true, Bool.false_eq_true, if_false]

theorem saveProfile_age_error (st : State) (hn : nameRule st) (hw : weightRule st)
    (hh : heightRule st) (ha : ¬ ageRule st) :
    saveProfile st = some { st with validationErr := .age } := by
  have g1 := (weightGuard_eq_false_iff _).mpr hw
  have g2 := (rangeGuard_eq_false_iff _ 50 280 (by norm_num)).mpr hh
  have g3 : (Number.isFalsy (parseFloat (.str st.age)) ||
      Number.lt (parseFloat (.str st.age)) (.fin 1) ||
      Number.gt (parseFloat (.str st.age)) (.fin 130)) = true := by
    rw [← Bool.not_eq_false]
    exact fun hf => ha ((rangeGuard_eq_false_iff _ 1 130 (by norm_num)).mp hf)
  unfold nameRule at hn
  simp only [saveProfile, if_neg hn, g1, g2, g3, if_true, Bool.false_eq_true, if_false]

theorem saveProfile_bmi_error (st : State) (hn : nameRule st) (hw : weightRule st)
    (hh : heightRule st) (ha : ageRule st) (hb : ¬ bmiRule st) :
    ∃ b : ℚ, saveProfile st = some { st with validationErr := .bmi (.fin b) } := by
  obtain ⟨w, hw, hw1, hw2⟩ := hw
  obtain ⟨h, hh, hh1, hh2⟩ := hh
  obtain ⟨a, ha, ha1, ha2⟩ := ha
  obtain ⟨b, hcb, hs⟩ := saveProfile_of_ranges st hn hw hw1 hw2 hh hh1 hh2 ha ha1 ha2
  refine ⟨b, ?_⟩
  rw [hs, if_neg]
  exact fun hc => hb ⟨b, hcb, hc.1, hc.2⟩

theorem parseFloat_str_80 : parseFloat (.str "80") = .fin 80 := by decide!

theorem parseFloat_str_1_8 :
    parseFloat (.str "1.8") = .fin (8106479329266893 / 4503599627370496) := by decide!

/-! ## Lemmas on the energy model -/

theorem fin_add (a b : ℚ) : (Number.fin a + Number.fin b : Number) = .fin (a + b) := rfl

theorem fin_sub (a b : ℚ) : (Number.fin a - Number.fin b : Number) = .fin (a - b) := by
  show Number.add (.fin a) (Number.neg (.fin b)) = _
  simp only [Number.neg, Number.add, sub_eq_add_neg]

theorem fin_mul (a b : ℚ) : (Number.fin a * Number.fin b : Number) = .fin (a * b) := rfl

/-- A multiple of a sixteenth with a numerator below `2 ^ 53` is a double. -/
theorem roundDouble_sixteenth (z : ℤ) (h1 : -(2 ^ 53) < z) (h2 : z < 2 ^ 53) :
    Number.roundDouble ((z : ℚ) / 16) = .fin ((z : ℚ) / 16) := by
  have hz : z.natAbs < 2 ^ 53 := by omega
  have := roundDouble_dyadic z 4 hz (by norm_num)
  norm_num at this
  exact this

/-- For a whole number of kilograms and of years and a height in quarters of a centimetre
no operation of `calcBMR` rounds. -/
theorem calcBMR_grid (W H A : ℕ) (sex : String) (hW : W < 2 ^ 40) (hH : H < 2 ^ 40)
    (hA : A < 2 ^ 40) :
    calcBMR (.fin W) (.fin ((H : ℚ) / 4)) (.fin A) sex =
      .fin (if sex = "male" then 10 * (W : ℚ) + 25 / 4 * ((H : ℚ) / 4) - 5 * (A : ℚ) + 5
        else 10 * (W : ℚ) + 25 / 4 * ((H : ℚ) / 4) - 5 * (A : ℚ) - 161) := by
  have e1 : (10 : ℚ) * W = ((160 * W : ℤ) : ℚ) / 16 := by push_cast; ring
  have e2 : (25 / 4 : ℚ) * ((H : ℚ) / 4) = ((25 * H : ℤ) : ℚ) / 16 := by push_cast; ring
  have e3 : ((160 * W : ℤ) : ℚ) / 16 + ((25 * H : ℤ) : ℚ) / 16 =
      ((160 * W + 25 * H : ℤ) : ℚ) / 16 := by push_cast; ring
  have e4 : (5 : ℚ) * A = ((80 * A : ℤ) : ℚ) / 16 := by push_cast; ring
  have e5 : ((160 * W + 25 * H : ℤ) : ℚ) / 16 - ((80 * A : ℤ) : ℚ) / 16 =
      ((160 * W + 25 * H - 80 * A : ℤ) : ℚ) / 16 := by push_cast; ring
  have e6 : ((160 * W + 25 * H - 80 * A : ℤ) : ℚ) / 16 + 5 =
      ((160 * W + 25 * H - 80 * A + 80 : ℤ) : ℚ) / 16 := by push_cast; ring
  have e7 : ((160 * W + 25 * H - 80 * A : ℤ) : ℚ) / 16 - 161 =
      ((160 * W + 25 * H - 80 * A - 2576 : ℤ) : ℚ) / 16 := by push_cast; ring
  unfold calcBMR
  split
  · rw [fmul_fin, fmul_fin, fmul_fin, e1, e2, e4,
      roundDouble_sixteenth _ (by omega) (by omega),
      roundDouble_sixteenth _ (by omega) (by omega),
      roundDouble_sixteenth _ (by omega) (by omega), fadd_fin, e3,
      roundDouble_sixteenth _ (by omega) (by omega), fsub_fin, e5,
      roundDouble_sixteenth _ (by omega) (by omega), fadd_fin, e6,
      roundDouble_sixteenth _ (by omega) (by omega)]
  · rw [fmul_fin, fmul_fin, fmul_fin, e1, e2, e4,
      roundDouble_sixteenth _ (by omega) (by omega),
      roundDouble_sixteenth _ (by omega) (by omega),
      roundDouble_sixteenth _ (by omega) (by omega), fadd_fin, e3,
      roundDouble_sixteenth _ (by omega) (by omega), fsub_fin, e5,
      roundDouble_sixteenth _ (by omega) (by omega), fsub_fin, e7,
      roundDouble_sixteenth _ (by omega) (by omega)]

theorem actFactor_of_mem {lvl : ActivityLevel} (hl : lvl ∈ ACTIVITY_LEVELS) :
    actFactor lvl.id = lvl.factor := by
  simp only [ACTIVITY_LEVELS, List.mem_cons, List.mem_singleton, List.not_mem_nil,
    or_false] at hl
  rcases hl with rfl | rfl | rfl | rfl | rfl <;> decide!

theorem tdee_of_bmr {p : Profile} {b : ℚ} {activity : String}
    (hb : bmr (some p) = some (.fin b)) (hb0 : b ≠ 0) :
    tdee (some p) activity =
      some (Number.round (Number.fmul (.fin b) (actFactor activity))) := by
  simp only [tdee, hb, Number.isFalsy, beq_iff_eq, hb0, if_false]

theorem tdee_of_bmr_zero {p : Profile} {activity : String}
    (hb : bmr (some p) = some (.fin 0)) : tdee (some p) activity = none := by
  simp [tdee, hb, Number.isFalsy]

theorem parseFloat_str_14 : parseFloat (.str "14") = .fin 14 := by decide!

theorem parseFloat_str_129 : parseFloat (.str "129") = .fin 129 := by decide!

theorem calcBMR_scenario : calcBMR (.fin 80) (.fin 180) (.fin 30) "male" = .fin 1780 := by
  have h := calcBMR_grid 80 720 30 "male" (by norm_num) (by norm_num) (by norm_num)
  norm_num at h
  exact h

theorem bmr_scenario :
    bmr (some ⟨"Bo", .fin 80, .fin 180, .fin 30, "male"⟩) = some (.fin 1780) := by
  simp only [bmr, calcBMR_scenario]

theorem actFactor_moderate :
    actFactor "moderate" = .fin (6980579422424269 / 4503599627370496) := by decide!

theorem tdee_scenario :
    tdee (some ⟨"Bo", .fin 80, .fin 180, .fin 30, "male"⟩) "moderate" = some (.fin 2759) := by
  rw [tdee_of_bmr bmr_scenario (by norm_num), actFactor_moderate]
  have h : Number.round
      (Number.fmul (.fin 1780) (.fin (6980579422424269 / 4503599627370496))) = .fin 2759 := by
    decide!
  rw [h]

theorem bmr_zero :
    bmr (some ⟨"Bo", .fin 14, .fin 80, .fin 129, "male"⟩) = some (.fin 0) := by
  have h := calcBMR_grid 14 320 129 "male" (by norm_num) (by norm_num) (by norm_num)
  norm_num at h
  simp only [bmr, h]

theorem bmr_female_example :
    bmr (some ⟨"Ida", .fin 70, .fin 175, .fin 40, "female"⟩) = some (.fin (5731 / 4)) := by
  have h := calcBMR_grid 70 700 40 "female" (by norm_num) (by norm_num) (by norm_num)
  rw [if_neg (by decide)] at h
  norm_num at h
  simp only [bmr, h]

/-! ## Profile store: results -/

/-- C6 fails as stated at the upper bound of the body-mass index: for weight `49` and
height `70` the index is exactly 100, inside the range, but the code computes it in doubles
as 100.00000000000001 (0.7 is no double) and rejects the draft with the message of the
body-mass index. -/
theorem saveProfile_bmi_counterexample :
    saveProfile { firstName := "Bo", weight := "49", height := "70", age := "30" } =
      some { firstName := "Bo", weight := "49", height := "70", age := "30",
             validationErr := .bmi (.fin (7036874417766401 / 70368744177664)) } ∧
    (49 : ℚ) / (70 / 100) ^ 2 = 100 :=
  ⟨by decide!, by norm_num⟩

/-- C6, amended: `saveProfile` stores the profile (trimmed name, parsed weight, height and
age, sex), sets the flag and clears the message exactly when the five rules hold, the fifth
being that the body-mass index as `calcBMI` computes it in doubles lies between 5 and 100;
otherwise it changes only the message, to that of the first violated rule in the order
name, weight, height, age, body-mass index. -/
theorem saveProfile_spec (st : State) :
    ((nameRule st ∧ weightRule st ∧ heightRule st ∧ ageRule st ∧ bmiRule st) ↔
      ∃ w h a : ℚ, parseFloat (.str st.weight) = .fin w ∧
        parseFloat (.str st.height) = .fin h ∧ parseFloat (.str st.age) = .fin a ∧
        saveProfile st = some { st with
          validationErr := .empty
          savedProfile := some
            { name := ⟨trim st.firstName.data⟩, weight := .fin w, height := .fin h,
              age := .fin a, sex := st.sex }
          profileSaved := true }) ∧
    (¬ nameRule st → saveProfile st = some { st with validationErr := .name }) ∧
    (nameRule st → ¬ weightRule st →
      saveProfile st = some { st with validationErr := .weight }) ∧
    (nameRule st → weightRule st → ¬ heightRule st →
      saveProfile st = some { st with validationErr := .height }) ∧
    (nameRule st → weightRule st → heightRule st → ¬ ageRule st →
      saveProfile st = some { st with validationErr := .age }) ∧
    (nameRule st → weightRule st → heightRule st → ageRule st → ¬ bmiRule st →
      ∃ b : ℚ, saveProfile st = some { st with validationErr := .bmi (.fin b) }) := by
  refine ⟨⟨?_, ?_⟩, saveProfile_name_error st, saveProfile_weight_error st,
    saveProfile_height_error st, saveProfile_age_error st, saveProfile_bmi_error st⟩
  · rintro ⟨hn, ⟨w, hw, hw1, hw2⟩, ⟨h, hh, hh1, hh2⟩, ⟨a, ha, ha1, ha2⟩, ⟨b', hb', hb⟩⟩
    obtain ⟨b, hcb, hs⟩ := saveProfile_of_ranges st hn hw hw1 hw2 hh hh1 hh2 ha ha1 ha2
    have e : b = b' := by
      have := hcb.symm.trans hb'
      injection this with this
      injection this
    subst e
    exact ⟨w, h, a, hw, hh, ha, by rw [hs, if_pos hb]⟩
  · rintro ⟨w, h, a, hw, hh, ha, hs⟩
    have hmsg : ∀ m : Message, m ≠ .empty →
        saveProfile st ≠ some { st with validationErr := m } := by
      intro m hm he
      rw [hs] at he
      injection he with he
      have := congrArg State.validationErr he
      exact hm this.symm
    have hn : nameRule st := by
      by_contra hc
      exact hmsg _ (by simp) (saveProfile_name_error st hc)
    have hwr : weightRule st := by
      by_contra hc
      exact hmsg _ (by simp) (saveProfile_weight_error st hn hc)
    have hhr : heightRule st := by
      by_contra hc
      exact hmsg _ (by simp) (saveProfile_height_error st hn hwr hc)
    have har : ageRule st := by
      by_contra hc
      exact hmsg _ (by simp) (saveProfile_age_error st hn hwr hhr hc)
    have hbr : bmiRule st := by
      by_contra hc
      obtain ⟨b, hb⟩ := saveProfile_bmi_error st hn hwr hhr har hc
      exact hmsg _ (by simp) hb
    exact ⟨hn, hwr, hhr, har, hbr⟩

/-- C7 fails as stated: with name `Bo`, weight `80`, height `1.8` and age `30` the draft is
rejected (profile and flag stay as they were), but the message is the height message and
not the body-mass-index message. -/
theorem saveProfile_height_in_metres_counterexample :
    saveProfile { firstName := "Bo", weight := "80", height := "1.8", age := "30" } =
      some { firstName := "Bo", weight := "80", height := "1.8", age := "30",
             validationErr := .height } ∧
    ∀ b : Number,
      saveProfile { firstName := "Bo", weight := "80", height := "1.8", age := "30" } ≠
        some { firstName := "Bo", weight := "80", height := "1.8", age := "30",
               validationErr := .bmi b } := by
  have h : saveProfile { firstName := "Bo", weight := "80", height := "1.8", age := "30" } =
      some { firstName := "Bo", weight := "80", height := "1.8", age := "30",
             validationErr := .height } := by
    apply saveProfile_height_error
    · show trim "Bo".data ≠ []
      decide
    · exact ⟨80, parseFloat_str_80, by norm_num, by norm_num⟩
    · rintro ⟨q, hq, h1, _⟩
      have hq2 : parseFloat (.str "1.8") = .fin q := hq
      rw [parseFloat_str_1_8] at hq2
      injection hq2 with hq2
      rw [← hq2] at h1
      norm_num at h1
  refine ⟨h, fun b hb => ?_⟩
  rw [h] at hb
  injection hb with hb
  have := congrArg State.validationErr hb
  simp at this

/-- C7, amended: `saveProfile` called with height `1.8` and weight `80`, whatever the age and
for any name that is not blank, is rejected: stored profile and flag unchanged, and the
message is that of the height rule (50 to 280 cm), which is checked before the body-mass
index. -/
theorem saveProfile_height_in_metres (st : State) (hn : nameRule st)
    (hw : st.weight = "80") (hh : st.height = "1.8") :
    saveProfile st = some { st with validationErr := .height } := by
  apply saveProfile_height_error st hn
  · exact ⟨80, by rw [hw]; exact parseFloat_str_80, by norm_num, by norm_num⟩
  · rintro ⟨q, hq, h1, _⟩
    rw [hh, parseFloat_str_1_8] at hq
    injection hq with hq
    rw [← hq] at h1
    norm_num at h1

/-- Witness of the amended C7. -/
theorem saveProfile_height_in_metres_witness :
    nameRule { firstName := "Bo", weight := "80", height := "1.8", age := "30" } ∧
    saveProfile { firstName := "Bo", weight := "80", height := "1.8", age := "30" } =
      some { firstName := "Bo", weight := "80", height := "1.8", age := "30",
             validationErr := .height } :=
  ⟨by show trim "Bo".data ≠ []; decide,
    saveProfile_height_in_metres _ (by show trim "Bo".data ≠ []; decide) rfl rfl⟩

/-! ## Energy model: results -/

/-- C8 fails as stated.  The example is wrong: 80 kg, 180 cm, 30 years, male gives 1780, not
1692.5.  And the code computes in doubles: for `22`, `128.2` and `11` (male) it returns
971.2499999999999, which is not the value of the formula at the parsed numbers; for
`96.82`, `195.33` and `28.29` the male value minus the female value is
166.00000000000023; and the weights `80` and `80.00000000000001` give the same value. -/
theorem calcBMR_example_counterexample :
    (calcBMR (.fin 80) (.fin 180) (.fin 30) "male" = .fin 1780 ∧
      calcBMR (.fin 80) (.fin 180) (.fin 30) "male" ≠ .fin (3385 / 2)) ∧
    (parseFloat (.str "128.2") = .fin (2255318250894131 / 17592186044416) ∧
      calcBMR (parseFloat (.str "22")) (parseFloat (.str "128.2")) (parseFloat (.str "11"))
        "male" = .fin (8543205347819519 / 8796093022208) ∧
      (10 : ℚ) * 22 + 25 / 4 * (2255318250894131 / 17592186044416) - 5 * 11 + 5 ≠
        8543205347819519 / 8796093022208) ∧
    (Number.fsub
        (calcBMR (parseFloat (.str "96.82")) (parseFloat (.str "195.33"))
          (parseFloat (.str "28.29")) "male")
        (calcBMR (parseFloat (.str "96.82")) (parseFloat (.str "195.33"))
          (parseFloat (.str "28.29")) "female") =
        .fin (730075720843265 / 4398046511104) ∧
      (730075720843265 / 4398046511104 : ℚ) ≠ 166) ∧
    (Number.lt (parseFloat (.str "80")) (parseFloat (.str "80.00000000000001")) = true ∧
      calcBMR (parseFloat (.str "80")) (.fin 180) (.fin 30) "male" =
        calcBMR (parseFloat (.str "80.00000000000001")) (.fin 180) (.fin 30) "male") := by
  refine ⟨⟨calcBMR_scenario, ?_⟩, ⟨by decide!, by decide!, by norm_num⟩,
    ⟨by decide!, by norm_num⟩, by decide!, by decide!⟩
  rw [calcBMR_scenario]
  intro hc
  injection hc with hc
  norm_num at hc

/-- C8, amended: `calcBMR` evaluates `10·w + 6.25·h − 5·a + 5` for `male` and
`10·w + 6.25·h − 5·a − 161` otherwise from left to right in doubles.  For a whole number of
kilograms and of years and a height in quarters of a centimetre, all below `2 ^ 40`, no
operation rounds: the value is that of the formula, the male value minus the female value
is 166, and among such inputs the value strictly increases with the weight and with the
height; 80 kg, 180 cm, 30 years, male gives 1780. -/
theorem calcBMR_formula (W H A : ℕ) (sex : String) (hW : W < 2 ^ 40) (hH : H < 2 ^ 40)
    (hA : A < 2 ^ 40) :
    (∀ w h a : Number,
      calcBMR w h a "male" =
        Number.fadd
          (Number.fsub
            (Number.fadd (Number.fmul (.fin 10) w) (Number.fmul (.fin (25 / 4)) h))
            (Number.fmul (.fin 5) a))
          (.fin 5) ∧
      (sex ≠ "male" →
        calcBMR w h a sex =
          Number.fsub
            (Number.fsub
              (Number.fadd (Number.fmul (.fin 10) w) (Number.fmul (.fin (25 / 4)) h))
              (Number.fmul (.fin 5) a))
            (.fin 161))) ∧
    calcBMR (.fin W) (.fin ((H : ℚ) / 4)) (.fin A) sex =
      .fin (if sex = "male" then 10 * (W : ℚ) + 25 / 4 * ((H : ℚ) / 4) - 5 * (A : ℚ) + 5
        else 10 * (W : ℚ) + 25 / 4 * ((H : ℚ) / 4) - 5 * (A : ℚ) - 161) ∧
    Number.fsub (calcBMR (.fin W) (.fin ((H : ℚ) / 4)) (.fin A) "male")
      (calcBMR (.fin W) (.fin ((H : ℚ) / 4)) (.fin A) "female") = .fin 166 ∧
    (∀ W' : ℕ, W' < 2 ^ 40 → W < W' →
      Number.lt (calcBMR (.fin W) (.fin ((H : ℚ) / 4)) (.fin A) sex)
        (calcBMR (.fin W') (.fin ((H : ℚ) / 4)) (.fin A) sex) = true) ∧
    (∀ H' : ℕ, H' < 2 ^ 40 → H < H' →
      Number.lt (calcBMR (.fin W) (.fin ((H : ℚ) / 4)) (.fin A) sex)
        (calcBMR (.fin W) (.fin ((H' : ℚ) / 4)) (.fin A) sex) = true) ∧
    calcBMR (.fin 80) (.fin 180) (.fin 30) "male" = .fin 1780 := by
  refine ⟨?_, calcBMR_grid W H A sex hW hH hA, ?_, ?_, ?_, calcBMR_scenario⟩
  · intro w h a
    refine ⟨by simp only [calcBMR, if_true], fun hs => by simp only [calcBMR, hs, if_false]⟩
  · rw [calcBMR_grid W H A "male" hW hH hA, calcBMR_grid W H A "female" hW hH hA, fsub_fin,
      if_pos rfl, if_neg (by decide)]
    have e : (10 * (W : ℚ) + 25 / 4 * ((H : ℚ) / 4) - 5 * (A : ℚ) + 5 -
        (10 * (W : ℚ) + 25 / 4 * ((H : ℚ) / 4) - 5 * (A : ℚ) - 161)) = ((166 : ℕ) : ℚ) := by
      push_cast
      ring
    rw [e, roundDouble_natCast 166 (by norm_num)]
    norm_num
  · intro W' hW' hlt
    rw [calcBMR_grid W H A sex hW hH hA, calcBMR_grid W' H A sex hW' hH hA]
    have hq : (W : ℚ) < W' := by exact_mod_cast hlt
    simp only [Number.lt, decide_eq_true_eq]
    split <;> linarith
  · intro H' hH' hlt
    rw [calcBMR_grid W H A sex hW hH hA, calcBMR_grid W H' A sex hW hH' hA]
    have hq : (H : ℚ) < H' := by exact_mod_cast hlt
    simp only [Number.lt, decide_eq_true_eq]
    split <;> linarith

/-- Witness of the amended C8 at 70 kg, 175 cm, 40 years, female. -/
theorem calcBMR_formula_witness :
    calcBMR (.fin 70) (.fin 175) (.fin 40) "female" = .fin (5731 / 4) ∧
    Number.lt (calcBMR (.fin 70) (.fin 175) (.fin 40) "female")
      (calcBMR (.fin 71) (.fin 175) (.fin 40) "female") = true := by
  have h := calcBMR_formula 70 700 40 "female" (by norm_num) (by norm_num) (by norm_num)
  have h1 := h.2.1
  have h2 := h.2.2.2.1 71 (by norm_num) (by norm_num)
  rw [if_neg (by decide)] at h1
  norm_num at h1 h2
  exact ⟨h1, h2⟩

/-- C9 fails as stated, at three inputs.  For 80 kg, 180 cm, 30 years, male and `moderate`
the basal rate is 1780 and the daily expenditure 2759, not 1692.5 and 2623.  The draft
14 kg, 80 cm, 129 years, male passes every rule of `saveProfile`, has basal rate 0, and gets
no daily expenditure at all (`null`).  And for `34.5`, `262.4`, `18`, male and `active` the
basal rate is 1899.9999999999998 and the product with the factor is rounded to the double
3277.5 before `Math.round`, so the daily expenditure is 3278, while the product itself
rounds to 3277. -/
theorem tdee_counterexample :
    (bmr (some ⟨"Bo", .fin 80, .fin 180, .fin 30, "male"⟩) = some (.fin 1780) ∧
      tdee (some ⟨"Bo", .fin 80, .fin 180, .fin 30, "male"⟩) "moderate" = some (.fin 2759) ∧
      tdee (some ⟨"Bo", .fin 80, .fin 180, .fin 30, "male"⟩) "moderate" ≠ some (.fin 2623)) ∧
    (saveProfile { firstName := "Bo", weight := "14", height := "80", age := "129" } =
        some { firstName := "Bo", weight := "14", height := "80", age := "129",
               savedProfile := some ⟨"Bo", .fin 14, .fin 80, .fin 129, "male"⟩,
               profileSaved := true } ∧
      bmr (some ⟨"Bo", .fin 14, .fin 80, .fin 129, "male"⟩) = some (.fin 0) ∧
      tdee (some ⟨"Bo", .fin 14, .fin 80, .fin 129, "male"⟩) "moderate" = none) ∧
    (saveProfile { firstName := "Bo", weight := "34.5", height := "262.4", age := "18" } =
        some { firstName := "Bo", weight := "34.5", height := "262.4", age := "18",
               savedProfile :=
                 some ⟨"Bo", .fin (69 / 2), .fin (2308094809027379 / 8796093022208), .fin 18,
                   "male"⟩,
               profileSaved := true } ∧
      bmr (some ⟨"Bo", .fin (69 / 2), .fin (2308094809027379 / 8796093022208), .fin 18,
          "male"⟩) = some (.fin (8356288371097599 / 4398046511104)) ∧
      tdee (some ⟨"Bo", .fin (69 / 2), .fin (2308094809027379 / 8796093022208), .fin 18,
          "male"⟩) "active" = some (.fin 3278) ∧
      actFactor "active" = .fin (3884354678607053 / 2251799813685248) ∧
      Int.floor ((8356288371097599 / 4398046511104 : ℚ) *
        (3884354678607053 / 2251799813685248) + 1 / 2) = 3277 ∧
      Int.floor ((8356288371097599 / 4398046511104 : ℚ) * (69 / 40) + 1 / 2) = 3277) := by
  refine ⟨⟨bmr_scenario, tdee_scenario, ?_⟩, ⟨by decide!, bmr_zero, tdee_of_bmr_zero bmr_zero⟩,
    by decide!, by decide!, by decide!, by decide!, by decide!, by decide!⟩
  rw [tdee_scenario]
  intro hc
  injection hc with hc
  injection hc with hc
  norm_num at hc

/-- C9, amended: for every stored profile whose basal rate is a finite value `b` other than
zero, and every activity level of the table, whose factor is the double `f`, `tdee` is
`Math.round` of the product `b × f` rounded to the nearest double: an integer, or an
infinity when the product overflows; for 80 kg, 180 cm, 30 years, male and `moderate`
(factor 1.55) the basal rate is 1780 and the daily expenditure 2759; and a basal rate of
zero gives no daily expenditure (`null`). -/
theorem tdee_round (p : Profile) (lvl : ActivityLevel) (b f : ℚ)
    (hb : bmr (some p) = some (.fin b)) (hb0 : b ≠ 0)
    (hl : lvl ∈ ACTIVITY_LEVELS) (hf : lvl.factor = .fin f) :
    tdee (some p) lvl.id = some (Number.round (Number.roundDouble (b * f))) ∧
    ((∃ z : ℤ, tdee (some p) lvl.id = some (.fin z)) ∨
      ∃ n : Bool, tdee (some p) lvl.id = some (.inf n)) ∧
    bmr (some ⟨"Bo", .fin 80, .fin 180, .fin 30, "male"⟩) = some (.fin 1780) ∧
    tdee (some ⟨"Bo", .fin 80, .fin 180, .fin 30, "male"⟩) "moderate" = some (.fin 2759) ∧
    (∀ (q : Profile) (activity : String), bmr (some q) = some (.fin 0) →
      tdee (some q) activity = none) := by
  have h1 : tdee (some p) lvl.id = some (Number.round (Number.roundDouble (b * f))) := by
    rw [tdee_of_bmr hb hb0, actFactor_of_mem hl, hf, fmul_fin]
  refine ⟨h1, ?_, bmr_scenario, tdee_scenario, fun q activity hq => tdee_of_bmr_zero hq⟩
  rw [h1]
  unfold Number.roundDouble
  split_ifs
  · exact Or.inr ⟨_, rfl⟩
  · exact Or.inl ⟨_, rfl⟩
  · exact Or.inl ⟨_, rfl⟩

/-- Witness of the amended C9: 70 kg, 175 cm, 40 years, female, level `light`. -/
theorem tdee_round_witness :
    bmr (some ⟨"Ida", .fin 70, .fin 175, .fin 40, "female"⟩) = some (.fin (5731 / 4)) ∧
    (5731 / 4 : ℚ) ≠ 0 ∧
    (⟨"light", .fin (11 / 8)⟩ : ActivityLevel) ∈ ACTIVITY_LEVELS ∧
    tdee (some ⟨"Ida", .fin 70, .fin 175, .fin 40, "female"⟩) "light" =
      some (Number.round (Number.roundDouble ((5731 / 4 : ℚ) * (11 / 8)))) ∧
    Number.round (Number.roundDouble ((5731 / 4 : ℚ) * (11 / 8))) = .fin 1970 :=
  ⟨bmr_female_example, by norm_num, by decide!,
    (tdee_round ⟨"Ida", .fin 70, .fin 175, .fin 40, "female"⟩ ⟨"light", .fin (11 / 8)⟩
      (5731 / 4) (11 / 8) bmr_female_example (by norm_num) (by decide!) rfl).1,
    by decide!⟩

/-- C10 fails as stated.  `calcBMI(64, 160)` is 24.999999999999996 in the doubles of the
code, not the quotient 25.  For the height `1e-160` the height in metres is positive but
its square underflows to 0, so that the code divides by zero and returns `Infinity`.  And
for the positive height `5e-324` the height in metres underflows to 0 and the code returns
`null`. -/
theorem calcBMI_rounding_counterexample :
    calcBMI (.num (.fin 64)) (.num (.fin 160)) =
      some (.fin (7036874417766399 / 281474976710656)) ∧
    (64 : ℚ) / (160 / 100) ^ 2 = 25 ∧
    calcBMI (.str "80") (.str "1e-160") = some (.inf false) ∧
    Number.gt (Number.fdiv (parseFloat (.str "1e-160")) (.fin 100)) (.fin 0) = true ∧
    Number.fmul (Number.fdiv (parseFloat (.str "1e-160")) (.fin 100))
      (Number.fdiv (parseFloat (.str "1e-160")) (.fin 100)) = .fin 0 ∧
    Number.gt (parseFloat (.str "5e-324")) (.fin 0) = true ∧
    calcBMI (.str "80") (.str "5e-324") = none :=
  ⟨by decide!, by norm_num, by decide!, by decide!, by decide!, by decide!, by decide!⟩

/-- C10, amended: `calcBMI` returns a value exactly when the weight and the height in
metres (the height divided by 100, in doubles) are above 0, and the value is the weight
divided by the square of the height in metres, each of the three operations rounded to the
nearest double; it returns `null` when either argument is not numeric or not positive; and
for a positive weight and a height of at least 1 it returns a value and the divisor is
above 0. -/
theorem calcBMI_spec (wKg hCm : Value) :
    (∀ r : Number, calcBMI wKg hCm = some r ↔
      Number.gt (parseFloat wKg) (.fin 0) = true ∧
      Number.gt (Number.fdiv (parseFloat hCm) (.fin 100)) (.fin 0) = true ∧
      r = Number.fdiv (parseFloat wKg)
        (Number.fmul (Number.fdiv (parseFloat hCm) (.fin 100))
          (Number.fdiv (parseFloat hCm) (.fin 100)))) ∧
    ((parseFloat wKg = .nan ∨ parseFloat wKg = .inf true ∨
        (∃ w : ℚ, parseFloat wKg = .fin w ∧ w ≤ 0) ∨
      parseFloat hCm = .nan ∨ parseFloat hCm = .inf true ∨
        (∃ h : ℚ, parseFloat hCm = .fin h ∧ h ≤ 0)) → calcBMI wKg hCm = none) ∧
    (∀ w h : ℚ, parseFloat wKg = .fin w → parseFloat hCm = .fin h → 0 < w → 1 ≤ h →
      (∃ r : Number, calcBMI wKg hCm = some r) ∧
      Number.gt
        (Number.fmul (Number.fdiv (parseFloat hCm) (.fin 100))
          (Number.fdiv (parseFloat hCm) (.fin 100))) (.fin 0) = true) := by
  have h100 : (100 : ℚ) ≠ 0 := by norm_num
  refine ⟨?_, ?_, ?_⟩
  · intro r
    constructor
    · intro hr
      unfold calcBMI at hr
      by_cases hc : (Number.gt (parseFloat wKg) (.fin 0) &&
          Number.gt (Number.fdiv (parseFloat hCm) (.fin 100)) (.fin 0)) = true
      · simp only [hc, if_true, Option.some.injEq] at hr
        rw [Bool.and_eq_true] at hc
        exact ⟨hc.1, hc.2, hr.symm⟩
      · simp only [hc, if_false] at hr
        cases hr
    · rintro ⟨h1, h2, h3⟩
      simp only [calcBMI, h1, h2, h3, Bool.and_self, if_true]
  · rintro (hw | hw | ⟨w, hw, hw0⟩ | hh | hh | ⟨h, hh, hh0⟩)
    · simp [calcBMI, hw, Number.gt, Number.lt]
    · simp [calcBMI, hw, Number.gt, Number.lt]
    · simp [calcBMI, hw, Number.gt, Number.lt, not_lt.mpr hw0]
    · have e : Number.fdiv .nan (.fin 100) = .nan := rfl
      simp [calcBMI, hh, e, Number.gt, Number.lt]
    · have e : Number.fdiv (.inf true) (.fin 100) = .inf true := by decide!
      simp [calcBMI, hh, e, Number.gt, Number.lt]
    · have e := roundDouble_nonpos (h / 100)
        (div_nonpos_of_nonpos_of_nonneg hh0 (by norm_num))
      simp [calcBMI, hh, fdiv_fin h h100, e]
  · intro w h hw hh hw0 hh1
    have hlow : (1 : ℕ) * (2 : ℚ) ^ (-7 : ℤ) ≤ h / 100 := by
      rw [Nat.cast_one, one_mul, le_div_iff₀ (by norm_num)]
      norm_num
      linarith
    have hpos7 : (0 : ℚ) < (1 : ℕ) * (2 : ℚ) ^ (-7 : ℤ) := by norm_num
    have hwgt : Number.gt (parseFloat wKg) (.fin 0) = true := by
      rw [hw]
      simp [Number.gt, Number.lt, hw0]
    rcases roundDouble_ge (h / 100) 1 (-7) (by norm_num) (by norm_num) hpos7 hlow with
      e1 | ⟨r1, e1, l1⟩
    · have hm : Number.fdiv (parseFloat hCm) (.fin 100) = .inf false := by
        rw [hh, fdiv_fin h h100, e1]
      have hsq : Number.fmul (.inf false) (.inf false) = .inf false := by decide!
      rw [hm, hsq]
      refine ⟨⟨_, by simp only [calcBMI, hm, hwgt]; rfl⟩, rfl⟩
    · have hm : Number.fdiv (parseFloat hCm) (.fin 100) = .fin r1 := by
        rw [hh, fdiv_fin h h100, e1]
      have hr1 : (0 : ℚ) < r1 := lt_of_lt_of_le hpos7 l1
      have hgt1 : Number.gt (.fin r1) (.fin 0) = true := by
        simp [Number.gt, Number.lt, hr1]
      have l1' : (1 : ℚ) / 128 ≤ r1 := by
        have : (1 : ℕ) * (2 : ℚ) ^ (-7 : ℤ) = 1 / 128 := by norm_num
        rw [← this]
        exact l1
      have hlow2 : (1 : ℕ) * (2 : ℚ) ^ (-14 : ℤ) ≤ r1 * r1 := by
        have : (1 : ℕ) * (2 : ℚ) ^ (-14 : ℤ) = 1 / 128 * (1 / 128) := by norm_num
        rw [this]
        exact mul_le_mul l1' l1' (by norm_num) (le_of_lt hr1)
      have hpos14 : (0 : ℚ) < (1 : ℕ) * (2 : ℚ) ^ (-14 : ℤ) := by norm_num
      rw [hm, fmul_fin]
      refine ⟨⟨_, by simp only [calcBMI, hm, hwgt, hgt1]; rfl⟩, ?_⟩
      rcases roundDouble_ge (r1 * r1) 1 (-14) (by norm_num) (by norm_num) hpos14 hlow2 with
        e2 | ⟨r2, e2, l2⟩
      · rw [e2]
        rfl
      · rw [e2]
        have hr2 : (0 : ℚ) < r2 := lt_of_lt_of_le hpos14 l2
        simp [Number.gt, Number.lt, hr2]

/-- Witness of the amended C10 at weight `80` and height `180`, the weight given as text:
the body-mass index is 24.691358024691358. -/
theorem calcBMI_spec_witness :
    parseFloat (.str "80") = .fin 80 ∧ parseFloat (.num (.fin 180)) = .fin 180 ∧
    calcBMI (.str "80") (.num (.fin 180)) =
      some (.fin (6949999424954469 / 281474976710656)) ∧
    ((∃ r : Number, calcBMI (.str "80") (.num (.fin 180)) = some r) ∧
      Number.gt
        (Number.fmul (Number.fdiv (parseFloat (.num (.fin 180))) (.fin 100))
          (Number.fdiv (parseFloat (.num (.fin 180))) (.fin 100))) (.fin 0) = true) :=
  ⟨parseFloat_str_80, rfl, by decide!,
    (calcBMI_spec (.str "80") (.num (.fin 180))).2.2 80 180 parseFloat_str_80 rfl
      (by norm_num) (by norm_num)⟩

/-! ## Body-mass-index categories: results -/

theorem getBmiCat_of_find {bmi : Number} {c : BmiCat}
    (h : BMI_CATS.find? (fun c => bmi.lt c.max) = some c) : getBmiCat bmi = c := by
  unfold getBmiCat
  rw [h]

/-- C11: `getBmiCat` returns the first category of the table, in the order 18.5, 25, 30,
100, whose bound is strictly greater than the value, and the last category when there is
none (values from 100 on); a value equal to a bound falls into the category above it. -/
theorem getBmiCat_spec (b : ℚ) :
    (∀ (pre post : List BmiCat) (c : BmiCat), BMI_CATS = pre ++ c :: post →
      (∀ d ∈ pre, Number.lt (.fin b) d.max = false) → Number.lt (.fin b) c.max = true →
      getBmiCat (.fin b) = c) ∧
    (b < 37 / 2 → getBmiCat (.fin b) = ⟨.fin (37 / 2), "Undervægtig", "#5BA4CF"⟩) ∧
    (37 / 2 ≤ b → b < 25 → getBmiCat (.fin b) = ⟨.fin 25, "Normalvægtig", "#66BB6A"⟩) ∧
    (25 ≤ b → b < 30 → getBmiCat (.fin b) = ⟨.fin 30, "Overvægtig", "#FFA726"⟩) ∧
    (30 ≤ b → b < 100 → getBmiCat (.fin b) = ⟨.fin 100, "Svær overvægt", "#EF5350"⟩) ∧
    (100 ≤ b → getBmiCat (.fin b) = ⟨.fin 100, "Svær overvægt", "#EF5350"⟩) := by
  refine ⟨?_, ?_, ?_, ?_, ?_, ?_⟩
  · intro pre post c hsplit hpre hc
    apply getBmiCat_of_find
    rw [hsplit, List.find?_append]
    have hnone : pre.find? (fun c => Number.lt (.fin b) c.max) = none := by
      rw [List.find?_eq_none]
      intro d hd
      simp [hpre d hd]
    rw [hnone, List.find?_cons, hc]
    rfl
  · intro h1
    apply getBmiCat_of_find
    simp [BMI_CATS, List.find?, Number.lt, h1]
  · intro h1 h2
    apply getBmiCat_of_find
    simp [BMI_CATS, List.find?, Number.lt, not_lt.mpr h1, h2]
  · intro h1 h2
    have h0 : (37 / 2 : ℚ) ≤ b := le_trans (by norm_num) h1
    apply getBmiCat_of_find
    simp [BMI_CATS, List.find?, Number.lt, not_lt.mpr h0, not_lt.mpr h1, h2]
  · intro h1 h2
    have h0 : (37 / 2 : ℚ) ≤ b := le_trans (by norm_num) h1
    have h00 : (25 : ℚ) ≤ b := le_trans (by norm_num) h1
    apply getBmiCat_of_find
    simp [BMI_CATS, List.find?, Number.lt, not_lt.mpr h0, not_lt.mpr h00, not_lt.mpr h1, h2]
  · intro h1
    have h0 : (37 / 2 : ℚ) ≤ b := le_trans (by norm_num) h1
    have h00 : (25 : ℚ) ≤ b := le_trans (by norm_num) h1
    have h000 : (30 : ℚ) ≤ b := le_trans (by norm_num) h1
    have hnone : BMI_CATS.find? (fun c => Number.lt (.fin b) c.max) = none := by
      simp [BMI_CATS, List.find?, Number.lt, not_lt.mpr h0, not_lt.mpr h00, not_lt.mpr h000,
        not_lt.mpr h1]
    unfold getBmiCat
    rw [hnone]
    rfl

/-- Witness of C11: the value 25, on a bound, is in the category above that bound. -/
theorem getBmiCat_spec_witness :
    getBmiCat (.fin 25) = ⟨.fin 30, "Overvægtig", "#FFA726"⟩ :=
  (getBmiCat_spec 25).2.2.2.1 (by norm_num) (by norm_num)

/-! ## Lemmas on entries -/

theorem fin_div (a : ℚ) {b : ℚ} (hb : b ≠ 0) :
    (Number.fin a / Number.fin b : Number) = .fin (a / b) := by
  show Number.div (.fin a) (.fin b) = _
  simp only [Number.div, hb, if_false]

theorem parseFloat_str_empty : parseFloat (.str "") = .nan := by decide!

theorem parseFloat_str_150 : parseFloat (.str "150") = .fin 150 := by decide!

theorem parseFloat_str_400 : parseFloat (.str "400") = .fin 400 := by decide!

theorem parseFloat_str_neg50 : parseFloat (.str "-50") = .fin (-50) := by decide!

theorem addEntry_accept {st : State} {food : Food} (now : Nat) (todayStr time : String)
    (hf : st.selectedFood = some food) (ha : st.amount ≠ "")
    (hpos : (parseFloat (.str st.amount)).le (.fin 0) = false) :
    addEntry now todayStr time st =
      { st with
        entries := st.entries ++
          [{ id := now, food := food.n, amount := parseFloat (.str st.amount), unit := "g",
             calories := Number.round
               (Number.fmul (Number.fdiv food.c (.fin 100)) (parseFloat (.str st.amount))),
             date := todayStr, meal := some st.selectedMeal, time := time }]
        recentFoods := (food :: st.recentFoods.filter (fun ff => ff.n != food.n)).take 15
        selectedFood := none, amount := "", search := "" } := by
  simp [addEntry, hf, ha, hpos, addToRecent]

theorem addEntry_reject {st : State} (now : Nat) (todayStr time : String)
    (h : st.selectedFood = none ∨ st.amount = "" ∨
      (parseFloat (.str st.amount)).le (.fin 0) = true) :
    addEntry now todayStr time st = st := by
  unfold addEntry
  cases hsel : st.selectedFood with
  | none => rfl
  | some food =>
    rcases h with h | h | h
    · rw [hsel] at h
      cases h
    · simp [h]
    · simp [h]

theorem addCustom_accept {st : State} (now : Nat) (todayStr time : String)
    (hn : st.customName ≠ "") (hc : st.customCal ≠ "") (ha : st.customAmt ≠ "") :
    addCustom now todayStr time st =
      { st with
        entries := st.entries ++
          [{ id := now, food := st.customName, amount := parseFloat (.str st.customAmt),
             unit := "g",
             calories := Number.round
               (Number.fmul (Number.fdiv (parseFloat (.str st.customCal)) (.fin 100))
                 (parseFloat (.str st.customAmt))),
             date := todayStr, meal := some st.selectedMeal, time := time }]
        recentFoods :=
          ((⟨st.customName, parseFloat (.str st.customCal)⟩ : Food) ::
            st.recentFoods.filter (fun ff => ff.n != st.customName)).take 15
        customName := "", customCal := "", customAmt := "" } := by
  simp [addCustom, hn, hc, ha, addToRecent]

theorem addCustom_reject {st : State} (now : Nat) (todayStr time : String)
    (h : st.customName = "" ∨ st.customCal = "" ∨ st.customAmt = "") :
    addCustom now todayStr time st = st := by
  unfold addCustom
  rcases h with h | h | h <;> simp [h]

/-- With a whole number `k` of kcal per gram, that is `100 k` per 100 g, and a whole number
of grams no operation of the calories rounds. -/
theorem round_cal_exact (k n : ℕ) (hk : k < 2 ^ 53) (hkn : k * n < 2 ^ 53) :
    Number.round (Number.fmul (Number.fdiv (.fin (100 * (k : ℚ))) (.fin 100)) (.fin n)) =
      .fin ((k : ℚ) * n) := by
  have e1 : (100 * (k : ℚ)) / 100 = (k : ℚ) := by field_simp
  have e2 : (k : ℚ) * n = ((k * n : ℕ) : ℚ) := by push_cast; ring
  rw [fdiv_fin _ (by norm_num : (100 : ℚ) ≠ 0), e1, roundDouble_natCast k hk, fmul_fin, e2,
    roundDouble_natCast _ hkn]
  simp only [Number.round]
  congr 1
  have : Int.floor (((k * n : ℕ) : ℚ) + 1 / 2) = ((k * n : ℕ) : ℤ) := by
    rw [Int.floor_eq_iff]
    constructor
    · push_cast; linarith
    · push_cast; linarith
  rw [this]
  push_cast
  ring

theorem amount_ne_empty {amount : String} {g : ℚ} (hg : parseFloat (.str amount) = .fin g) :
    amount ≠ "" := by
  intro h
  rw [h, parseFloat_str_empty] at hg
  cases hg

/-! ## Entries: results -/

/-- C12 fails as stated: for a food of 57 kcal per 100 g and the amount `50` the calories
are `round (57 × 50 / 100) = round 28.5 = 29`, but the code divides 57 by 100 first, which is
no double, gets 28.499999999999996 for the product and logs 28. -/
theorem addEntry_rounding_counterexample :
    (addEntry 1000 "5.11.2026" "12.00"
        { selectedFood := some ⟨"Ris", .fin 57⟩, amount := "50" }).entries =
      [{ id := 1000, food := "Ris", amount := .fin 50, unit := "g", calories := .fin 28,
         date := "5.11.2026", meal := some "breakfast", time := "12.00" }] ∧
    Number.fmul (Number.fdiv (.fin 57) (.fin 100)) (.fin 50) =
      .fin (8022036836253695 / 281474976710656) ∧
    Int.floor ((57 : ℚ) * 50 / 100 + 1 / 2) = 29 :=
  ⟨by decide!, by decide!, by decide!⟩

/-- C12, amended: with a selected food of `c` kcal per 100 g and an amount that parses to a
positive `g`, `addEntry` appends exactly one entry at the end of `entries`, the earlier
entries unchanged, and its `calories` is `Math.round` of `(c / 100) * g` computed in
doubles, the quotient and the product each rounded to the nearest double; 150 g of a food
with 200 kcal per 100 g is logged as 300; and when `c` is a whole multiple of 100 and `g` a
whole number the calories are exactly `c × g / 100`. -/
theorem addEntry_appends (now : Nat) (todayStr time : String) (st : State) (food : Food)
    (c g : ℚ) (hf : st.selectedFood = some food) (hc : food.c = .fin c)
    (hg : parseFloat (.str st.amount) = .fin g) (hpos : 0 < g) :
    (addEntry now todayStr time st).entries = st.entries ++
      [{ id := now, food := food.n, amount := .fin g, unit := "g",
         calories := Number.round (Number.fmul (Number.fdiv (.fin c) (.fin 100)) (.fin g)),
         date := todayStr, meal := some st.selectedMeal, time := time }] ∧
    (∀ (st' : State) (name : String), st'.selectedFood = some ⟨name, .fin 200⟩ →
      st'.amount = "150" →
      (addEntry now todayStr time st').entries = st'.entries ++
        [{ id := now, food := name, amount := .fin 150, unit := "g", calories := .fin 300,
           date := todayStr, meal := some st'.selectedMeal, time := time }]) ∧
    (∀ k n : ℕ, c = 100 * (k : ℚ) → g = (n : ℚ) → k < 2 ^ 53 → k * n < 2 ^ 53 →
      Number.round (Number.fmul (Number.fdiv (.fin c) (.fin 100)) (.fin g)) =
        .fin (c * g / 100)) := by
  refine ⟨?_, ?_, ?_⟩
  · rw [addEntry_accept now todayStr time hf (amount_ne_empty hg)
      (by rw [hg]; simp [Number.le, hpos])]
    simp only [hg, hc]
  · intro st' name hf' ha'
    have hg' : parseFloat (.str st'.amount) = .fin 150 := by
      rw [ha']
      exact parseFloat_str_150
    rw [addEntry_accept now todayStr time hf' (amount_ne_empty hg')
      (by rw [hg']; simp [Number.le])]
    have hcal : Number.round (Number.fmul (Number.fdiv (.fin 200) (.fin 100)) (.fin 150)) =
        .fin 300 := by decide!
    simp only [hg', hcal]
  · intro k n hk hn hk1 hk2
    rw [hk, hn, round_cal_exact k n hk1 hk2]
    congr 1
    field_simp
    ring

/-- Witness of C12: 150 g of rice at 200 kcal per 100 g. -/
theorem addEntry_appends_witness :
    (addEntry 1000 "5.11.2026" "12.00"
        { selectedFood := some ⟨"Ris", .fin 200⟩, amount := "150" }).entries =
      [{ id := 1000, food := "Ris", amount := .fin 150, unit := "g",
         calories := Number.round (Number.fmul (Number.fdiv (.fin 200) (.fin 100)) (.fin 150)),
         date := "5.11.2026", meal := some "breakfast", time := "12.00" }] ∧
    Number.round (Number.fmul (Number.fdiv (.fin 200) (.fin 100)) (.fin 150)) = .fin 300 :=
  ⟨(addEntry_appends 1000 "5.11.2026" "12.00"
    { selectedFood := some ⟨"Ris", .fin 200⟩, amount := "150" } ⟨"Ris", .fin 200⟩ 200 150
    rfl rfl parseFloat_str_150 (by norm_num)).1, by decide!⟩

/-- C13: `addEntry` does nothing when no food is selected, when the amount is empty, or when
the amount is zero or negative: the state, and with it `entries` and `recentFoods`, is
returned as it was. -/
theorem addEntry_guard (now : Nat) (todayStr time : String) (st : State)
    (h : st.selectedFood = none ∨ st.amount = "" ∨
      (∃ g : ℚ, parseFloat (.str st.amount) = .fin g ∧ g ≤ 0) ∨
      parseFloat (.str st.amount) = .inf true) :
    addEntry now todayStr time st = st ∧
    (addEntry now todayStr time st).entries = st.entries ∧
    (addEntry now todayStr time st).recentFoods = st.recentFoods := by
  have h1 : addEntry now todayStr time st = st := by
    apply addEntry_reject
    rcases h with h | h | ⟨g, hg, hle⟩ | h
    · exact Or.inl h
    · exact Or.inr (Or.inl h)
    · refine Or.inr (Or.inr ?_)
      rw [hg]
      simp [Number.le, hle]
    · refine Or.inr (Or.inr ?_)
      rw [h]
      rfl
  rw [h1]
  exact ⟨rfl, rfl, rfl⟩

/-- Witness of C13: a selected food with the amount `-50`. -/
theorem addEntry_guard_witness :
    addEntry 1000 "5.11.2026" "12.00"
        { selectedFood := some ⟨"Kage", .fin 400⟩, amount := "-50" } =
      { selectedFood := some ⟨"Kage", .fin 400⟩, amount := "-50" } :=
  (addEntry_guard 1000 "5.11.2026" "12.00"
    { selectedFood := some ⟨"Kage", .fin 400⟩, amount := "-50" }
    (Or.inr (Or.inr (Or.inl ⟨-50, parseFloat_str_neg50, by norm_num⟩)))).1

/-- C14, the code at the failing input: with name `Kage`, 400 kcal per 100 g and the amount
`-50`, `addCustom` is no no-op.  It appends an entry of -200 kcal and records the food in
`recentFoods`, while `addEntry` leaves the state alone for the same food and amount. -/
theorem addCustom_negative_amount :
    (addCustom 1000 "5.11.2026" "12.00"
        { customName := "Kage", customCal := "400", customAmt := "-50" }).entries =
      [{ id := 1000, food := "Kage", amount := .fin (-50), unit := "g", calories := .fin (-200),
         date := "5.11.2026", meal := some "breakfast", time := "12.00" }] ∧
    (addCustom 1000 "5.11.2026" "12.00"
        { customName := "Kage", customCal := "400", customAmt := "-50" }).recentFoods =
      [⟨"Kage", .fin 400⟩] ∧
    addEntry 1000 "5.11.2026" "12.00"
        { selectedFood := some ⟨"Kage", .fin 400⟩, amount := "-50" } =
      { selectedFood := some ⟨"Kage", .fin 400⟩, amount := "-50" } := by
  decide!

/-- C19: `removeEntry(id)` keeps exactly the entries whose id differs from `id`, unchanged
and in their order, and touches nothing else; when no entry has that id the state is
unchanged. -/
theorem removeEntry_spec (id : Nat) (st : State) :
    (removeEntry id st).entries = st.entries.filter (fun e => decide (e.id ≠ id)) ∧
    (removeEntry id st).entries <+ st.entries ∧
    (∀ e, e ∈ (removeEntry id st).entries ↔ e ∈ st.entries ∧ e.id ≠ id) ∧
    removeEntry id st = { st with entries := (removeEntry id st).entries } ∧
    ((∀ e ∈ st.entries, e.id ≠ id) → removeEntry id st = st) := by
  have h1 : (removeEntry id st).entries = st.entries.filter (fun e => decide (e.id ≠ id)) := by
    unfold removeEntry
    simp only
    apply List.filter_congr
    intro e _
    by_cases h : e.id = id <;> simp [h]
  refine ⟨h1, ?_, ?_, rfl, ?_⟩
  · rw [h1]
    exact List.filter_sublist _
  · intro e
    rw [h1, List.mem_filter]
    simp
  · intro h
    have h2 : (removeEntry id st).entries = st.entries := by
      rw [h1, List.filter_eq_self]
      intro e he
      simpa using h e he
    unfold removeEntry at h2 ⊢
    simp only at h2
    rw [h2]

/-- Witness of C19: removing an id that no entry has. -/
theorem removeEntry_spec_witness :
    removeEntry 7 { entries := [⟨1, "Ris", .fin 150, "g", .fin 300, "5.11.2026", none, "12.00"⟩] } =
      { entries := [⟨1, "Ris", .fin 150, "g", .fin 300, "5.11.2026", none, "12.00"⟩] } :=
  (removeEntry_spec 7
    { entries := [⟨1, "Ris", .fin 150, "g", .fin 300, "5.11.2026", none, "12.00"⟩] }).2.2.2.2
    (by simp)

/-! ## Lemmas on entry ids -/

theorem addEntry_ids (now : Nat) (todayStr time : String) (st : State) :
    (addEntry now todayStr time st).entries.map (fun e => e.id) = st.entries.map (fun e => e.id) ∨
    (addEntry now todayStr time st).entries.map (fun e => e.id) =
      st.entries.map (fun e => e.id) ++ [now] := by
  cases hsel : st.selectedFood with
  | none => exact Or.inl (by rw [addEntry_reject now todayStr time (Or.inl hsel)])
  | some food =>
    by_cases ha : st.amount = ""
    · exact Or.inl (by rw [addEntry_reject now todayStr time (Or.inr (Or.inl ha))])
    · rcases Bool.eq_false_or_eq_true ((parseFloat (.str st.amount)).le (.fin 0)) with hp | hp
      · exact Or.inl (by rw [addEntry_reject now todayStr time (Or.inr (Or.inr hp))])
      · right
        rw [addEntry_accept now todayStr time hsel ha hp]
        simp

theorem addCustom_ids (now : Nat) (todayStr time : String) (st : State) :
    (addCustom now todayStr time st).entries.map (fun e => e.id) = st.entries.map (fun e => e.id) ∨
    (addCustom now todayStr time st).entries.map (fun e => e.id) =
      st.entries.map (fun e => e.id) ++ [now] := by
  by_cases hn : st.customName = ""
  · exact Or.inl (by rw [addCustom_reject now todayStr time (Or.inl hn)])
  · by_cases hc : st.customCal = ""
    · exact Or.inl (by rw [addCustom_reject now todayStr time (Or.inr (Or.inl hc))])
    · by_cases ha : st.customAmt = ""
      · exact Or.inl (by rw [addCustom_reject now todayStr time (Or.inr (Or.inr ha))])
      · right
        rw [addCustom_accept now todayStr time hn hc ha]
        simp

theorem removeEntry_ids (id : Nat) (st : State) :
    (removeEntry id st).entries.map (fun e => e.id) <+ st.entries.map (fun e => e.id) := by
  unfold removeEntry
  exact (List.filter_sublist _).map _

theorem run_ids (a : EntryAction) (st : State) :
    (a.run st).entries.map (fun e => e.id) <+ st.entries.map (fun e => e.id) ∨
    ∃ now, a.clock = some now ∧
      (a.run st).entries.map (fun e => e.id) = st.entries.map (fun e => e.id) ++ [now] := by
  cases a with
  | add selectedFood amount selectedMeal now todayStr time =>
    rcases addEntry_ids now todayStr time
      { st with selectedFood := selectedFood, amount := amount, selectedMeal := selectedMeal }
      with h | h
    · left
      show (addEntry now todayStr time _).entries.map _ <+ _
      rw [h]
    · right
      exact ⟨now, rfl, h⟩
  | custom customName customCal customAmt selectedMeal now todayStr time =>
    rcases addCustom_ids now todayStr time
      { st with customName := customName, customCal := customCal, customAmt := customAmt,
                selectedMeal := selectedMeal }
      with h | h
    · left
      show (addCustom now todayStr time _).entries.map _ <+ _
      rw [h]
    · right
      exact ⟨now, rfl, h⟩
  | remove id =>
    left
    exact removeEntry_ids id st

theorem runEntryActions_ids_nodup : ∀ (acts : List EntryAction) (st : State),
    (st.entries.map (fun e => e.id)).Nodup →
    (acts.filterMap EntryAction.clock).Nodup →
    (∀ i ∈ st.entries.map (fun e => e.id), i ∉ acts.filterMap EntryAction.clock) →
    ((runEntryActions acts st).entries.map (fun e => e.id)).Nodup
  | [], _, hst, _, _ => hst
  | a :: acts, st, hst, hclock, hdisj => by
    show ((runEntryActions acts (a.run st)).entries.map (fun e => e.id)).Nodup
    have hrest : (acts.filterMap EntryAction.clock).Nodup := by
      cases hc : a.clock with
      | none => simpa [List.filterMap_cons, hc] using hclock
      | some now =>
        rw [List.filterMap_cons, hc] at hclock
        exact (List.nodup_cons.mp hclock).2
    have hsub : ∀ i, i ∈ acts.filterMap EntryAction.clock →
        i ∈ (a :: acts).filterMap EntryAction.clock := by
      intro i hi
      cases hc : a.clock with
      | none => simpa [List.filterMap_cons, hc] using hi
      | some now =>
        rw [List.filterMap_cons, hc]
        exact List.mem_cons_of_mem _ hi
    apply runEntryActions_ids_nodup acts (a.run st) _ hrest
    · rcases run_ids a st with h | ⟨now, hc, h⟩
      · intro i hi hmem
        exact hdisj i (h.subset hi) (hsub i hmem)
      · intro i hi hmem
        rw [h, List.mem_append, List.mem_singleton] at hi
        rcases hi with hi | hi
        · exact hdisj i hi (hsub i hmem)
        · subst hi
          rw [List.filterMap_cons, hc] at hclock
          exact (List.nodup_cons.mp hclock).1 hmem
    · rcases run_ids a st with h | ⟨now, hc, h⟩
      · exact hst.sublist h
      · rw [h]
        refine List.Nodup.append hst (List.nodup_singleton _) ?_
        intro i hi hi2
        rw [List.mem_singleton] at hi2
        subst hi2
        apply hdisj i hi
        rw [List.filterMap_cons, hc]
        exact List.mem_cons_self _ _

theorem length_filter_id_ne (id : Nat) : ∀ l : List Entry,
    (l.map (fun e => e.id)).Nodup → l.length ≤ (l.filter (fun e => e.id != id)).length + 1
  | [], _ => by simp
  | e :: l, h => by
    rw [List.map_cons, List.nodup_cons] at h
    by_cases he : e.id = id
    · have hall : l.filter (fun e => e.id != id) = l := by
        rw [List.filter_eq_self]
        intro x hx
        have : x.id ≠ id := by
          intro hxe
          apply h.1
          rw [he, ← hxe]
          exact List.mem_map_of_mem _ hx
        simpa using this
      simp [List.filter_cons, he, hall]
    · have ih := length_filter_id_ne id l h.2
      simp [List.filter_cons, he]
      omega

theorem addEntry_ids_rice (now : Nat) (todayStr time : String) (st : State)
    (hf : st.selectedFood = some ⟨"Ris", .fin 200⟩) (ha : st.amount = "150") :
    (addEntry now todayStr time st).entries.map (fun e => e.id) =
      st.entries.map (fun e => e.id) ++ [now] := by
  have hg : parseFloat (.str st.amount) = .fin 150 := by
    rw [ha]
    exact parseFloat_str_150
  rw [addEntry_accept now todayStr time hf (amount_ne_empty hg) (by rw [hg]; simp [Number.le])]
  simp

/-- C20 fails as stated: the id of an entry is the value of `Date.now()`, and nothing makes
two calls read different values.  Two `addEntry` calls that read the clock value 1000 leave
two entries with the id 1000, and `removeEntry(1000)` then removes both. -/
theorem entry_ids_counterexample :
    (runEntryActions
      [.add (some ⟨"Ris", .fin 200⟩) "150" "lunch" 1000 "5.11.2026" "12.00",
       .add (some ⟨"Ris", .fin 200⟩) "150" "lunch" 1000 "5.11.2026" "12.00"]
      { }).entries.map (fun e => e.id) = [1000, 1000] ∧
    (removeEntry 1000 (runEntryActions
      [.add (some ⟨"Ris", .fin 200⟩) "150" "lunch" 1000 "5.11.2026" "12.00",
       .add (some ⟨"Ris", .fin 200⟩) "150" "lunch" 1000 "5.11.2026" "12.00"]
      { })).entries = [] := by
  have hids : (runEntryActions
      [.add (some ⟨"Ris", .fin 200⟩) "150" "lunch" 1000 "5.11.2026" "12.00",
       .add (some ⟨"Ris", .fin 200⟩) "150" "lunch" 1000 "5.11.2026" "12.00"]
      { }).entries.map (fun e => e.id) = [1000, 1000] := by
    simp only [runEntryActions, List.foldl, EntryAction.run]
    rw [addEntry_ids_rice _ _ _ _ rfl rfl]
    simp only
    rw [addEntry_ids_rice _ _ _ _ rfl rfl]
    rfl
  refine ⟨hids, ?_⟩
  unfold removeEntry
  simp only
  rw [List.filter_eq_nil_iff]
  intro e he
  have hmem : e.id ∈ [1000, 1000] := by
    rw [← hids]
    exact List.mem_map_of_mem (fun e => e.id) he
  have : e.id = 1000 := by simpa using hmem
  simp [this]

/-- C20, amended: in every state reached from an empty `entries` list by `addEntry`,
`addCustom` and `removeEntry` calls whose `Date.now()` values are pairwise distinct, the
ids of the entries are pairwise distinct, and `removeEntry(id)` removes at most one
entry. -/
theorem entry_ids_distinct (acts : List EntryAction) (st : State) (h0 : st.entries = [])
    (hclock : (acts.filterMap EntryAction.clock).Nodup) :
    ((runEntryActions acts st).entries.map (fun e => e.id)).Nodup ∧
    ∀ id : Nat, (runEntryActions acts st).entries.length ≤
      (removeEntry id (runEntryActions acts st)).entries.length + 1 := by
  have hn : ((runEntryActions acts st).entries.map (fun e => e.id)).Nodup := by
    apply runEntryActions_ids_nodup acts st _ hclock
    · rw [h0]
      intro i hi
      cases hi
    · rw [h0]
      exact List.nodup_nil
  exact ⟨hn, fun id => length_filter_id_ne id _ hn⟩

/-- Witness of the amended C20: two additions at the clock values 1000 and 1001. -/
theorem entry_ids_distinct_witness :
    ((runEntryActions
      [.add (some ⟨"Ris", .fin 200⟩) "150" "lunch" 1000 "5.11.2026" "12.00",
       .custom "Kage" "400" "50" "snack" 1001 "5.11.2026" "12.01"]
      { }).entries.map (fun e => e.id)).Nodup ∧
    ∀ id : Nat, (runEntryActions
      [.add (some ⟨"Ris", .fin 200⟩) "150" "lunch" 1000 "5.11.2026" "12.00",
       .custom "Kage" "400" "50" "snack" 1001 "5.11.2026" "12.01"]
      { }).entries.length ≤
      (removeEntry id (runEntryActions
        [.add (some ⟨"Ris", .fin 200⟩) "150" "lunch" 1000 "5.11.2026" "12.00",
         .custom "Kage" "400" "50" "snack" 1001 "5.11.2026" "12.01"]
        { })).entries.length + 1 :=
  entry_ids_distinct _ { } rfl (by decide)

/-! ## Lemmas on the weight log -/

theorem weightLogsUpdater_cons (today : String) (w : Number) (now : Nat) (x : WeightLog)
    (xs : List WeightLog) :
    weightLogsUpdater today w now (x :: xs) =
      if x.date = today then { x with weight := w } :: xs
      else x :: weightLogsUpdater today w now xs := by
  unfold weightLogsUpdater
  by_cases hx : x.date = today
  · simp [findIndex, hx, updateAt]
  · cases hfi : findIndex (fun l : WeightLog => l.date == today) xs with
    | none => simp [findIndex, hx, hfi]
    | some i => simp [findIndex, hx, hfi, updateAt]

theorem addWeightLog_accept {st : State} {w : ℚ} (today : String) (now : Nat)
    (hw : parseFloat (.str st.newWeight) = .fin w) (h1 : 0 < w) (h2 : w ≤ 500) :
    addWeightLog today now st =
      { st with
        weightLogs := weightLogsUpdater today (.fin w) now st.weightLogs
        newWeight := ""
        savedProfile := st.savedProfile.map (fun prev => { prev with weight := .fin w }) } := by
  have g := (weightGuard_eq_false_iff (.fin w)).mpr ⟨w, rfl, h1, h2⟩
  simp only [addWeightLog, hw, g, Bool.false_eq_true, if_false]

theorem addWeightLog_reject {st : State} (today : String) (now : Nat)
    (h : ¬ ∃ w : ℚ, parseFloat (.str st.newWeight) = .fin w ∧ 0 < w ∧ w ≤ 500) :
    addWeightLog today now st = st := by
  have g : (Number.isFalsy (parseFloat (.str st.newWeight)) ||
      Number.le (parseFloat (.str st.newWeight)) (.fin 0) ||
      Number.gt (parseFloat (.str st.newWeight)) (.fin 500)) = true := by
    rw [← Bool.not_eq_false]
    exact fun hf => h ((weightGuard_eq_false_iff _).mp hf)
  simp only [addWeightLog, g, if_true]

theorem weightLogsUpdater_dates (today : String) (w : Number) (now : Nat) :
    ∀ logs : List WeightLog,
      (weightLogsUpdater today w now logs).map (fun l => l.date) =
      if today ∈ logs.map (fun l => l.date) then logs.map (fun l => l.date)
      else logs.map (fun l => l.date) ++ [today]
  | [] => by simp [weightLogsUpdater, findIndex]
  | x :: xs => by
    have ih := weightLogsUpdater_dates today w now xs
    rw [weightLogsUpdater_cons]
    by_cases hx : x.date = today
    · simp [hx]
    · have hx2 : ¬ today = x.date := fun h => hx h.symm
      simp only [hx, if_false, List.map_cons, ih, List.mem_cons, hx2, false_or]
      split <;> rfl

theorem weightLogsUpdater_split (today : String) (w : Number) (now : Nat)
    (l : WeightLog) (post : List WeightLog) (hl : l.date = today) :
    ∀ pre : List WeightLog, (∀ x ∈ pre, x.date ≠ today) →
      weightLogsUpdater today w now (pre ++ l :: post) = pre ++ { l with weight := w } :: post
  | [], _ => by
    rw [List.nil_append, weightLogsUpdater_cons, if_pos hl]
    rfl
  | x :: pre, hpre => by
    have hx : x.date ≠ today := hpre x (List.mem_cons_self _ _)
    rw [List.cons_append, weightLogsUpdater_cons, if_neg hx,
      weightLogsUpdater_split today w now l post hl pre
        (fun y hy => hpre y (List.mem_cons_of_mem _ hy))]
    rfl

theorem addWeightLog_dates_nodup (today : String) (now : Nat) (st : State)
    (h : (st.weightLogs.map (fun l => l.date)).Nodup) :
    ((addWeightLog today now st).weightLogs.map (fun l => l.date)).Nodup := by
  by_cases hw : ∃ w : ℚ, parseFloat (.str st.newWeight) = .fin w ∧ 0 < w ∧ w ≤ 500
  · obtain ⟨w, hw, h1, h2⟩ := hw
    rw [addWeightLog_accept today now hw h1 h2]
    simp only
    rw [weightLogsUpdater_dates]
    split
    · exact h
    · next hmem =>
      refine List.Nodup.append h (List.nodup_singleton _) ?_
      intro d hd hd2
      rw [List.mem_singleton] at hd2
      subst hd2
      exact hmem hd
  · rw [addWeightLog_reject today now hw]
    exact h

theorem runWeightActions_dates_nodup : ∀ (acts : List WeightAction) (st : State),
    (st.weightLogs.map (fun l => l.date)).Nodup →
    ((runWeightActions acts st).weightLogs.map (fun l => l.date)).Nodup
  | [], _, h => h
  | a :: acts, st, h => by
    show ((runWeightActions acts (a.run st)).weightLogs.map (fun l => l.date)).Nodup
    apply runWeightActions_dates_nodup acts
    cases a with
    | log newWeight today now =>
      exact addWeightLog_dates_nodup today now { st with newWeight := newWeight } h
    | remove ts =>
      exact h.sublist ((List.filter_sublist _).map _)

theorem parseFloat_str_80_0 : parseFloat (.str "80.0") = .fin 80 := by decide!

theorem parseFloat_str_81_5 : parseFloat (.str "81.5") = .fin (163 / 2) := by decide!

theorem addWeightLog_logs (today : String) (now : Nat) (st : State) (w : ℚ)
    (hw : parseFloat (.str st.newWeight) = .fin w) (h1 : 0 < w) (h2 : w ≤ 500) :
    (addWeightLog today now st).weightLogs =
      weightLogsUpdater today (.fin w) now st.weightLogs := by
  rw [addWeightLog_accept today now hw h1 h2]

theorem run_log_logs (today : String) (now : Nat) (st : State) (nw : String) (w : ℚ)
    (hw : parseFloat (.str nw) = .fin w) (h1 : 0 < w) (h2 : w ≤ 500) :
    ((WeightAction.log nw today now).run st).weightLogs =
      weightLogsUpdater today (.fin w) now st.weightLogs :=
  addWeightLog_logs today now { st with newWeight := nw } w hw h1 h2

theorem runWeightActions_cons (a : WeightAction) (acts : List WeightAction) (st : State) :
    runWeightActions (a :: acts) st = runWeightActions acts (a.run st) := rfl

theorem runWeightActions_nil (st : State) : runWeightActions [] st = st := rfl

theorem parseFloat_str_tiny : parseFloat (.str "1e-400") = .fin 0 := by decide!

theorem parseFloat_str_over_500 :
    parseFloat (.str "500.0000000000000001") = .fin 500 := by decide!

/-! ## Weight log: results -/

/-- C15: starting without weight logs, after any sequence of `addWeightLog` and
`removeWeightLog` calls no two logs have the same date; logging an accepted weight on a
date that has a log replaces the weight of that log and nothing else (same `ts`, same
position, same number of logs); `80.0` then `81.5` on one date leave one log, of 81.5. -/
theorem weightLogs_one_per_date (acts : List WeightAction) (st : State)
    (h0 : st.weightLogs = []) :
    ((runWeightActions acts st).weightLogs.map (fun l => l.date)).Nodup ∧
    (∀ (s : State) (today : String) (now : Nat) (w : ℚ) (pre post : List WeightLog)
        (l : WeightLog),
      parseFloat (.str s.newWeight) = .fin w → 0 < w → w ≤ 500 →
      (s.weightLogs.map (fun l => l.date)).Nodup →
      s.weightLogs = pre ++ l :: post → l.date = today →
      (addWeightLog today now s).weightLogs =
        pre ++ { date := l.date, weight := .fin w, ts := l.ts } :: post) ∧
    (∀ (today : String) (t1 t2 : Nat),
      (runWeightActions [.log "80.0" today t1, .log "81.5" today t2] st).weightLogs =
        [{ date := today, weight := .fin (163 / 2), ts := t1 }]) := by
  refine ⟨?_, ?_, ?_⟩
  · apply runWeightActions_dates_nodup
    rw [h0]
    exact List.nodup_nil
  · intro s today now w pre post l hw h1 h2 hnodup hsplit hl
    rw [addWeightLog_accept today now hw h1 h2]
    simp only
    rw [hsplit]
    apply weightLogsUpdater_split today (.fin w) now l post hl
    intro x hx hxd
    rw [hsplit, List.map_append, List.map_cons] at hnodup
    have hdisj := (List.nodup_append.mp hnodup).2.2
    exact hdisj (List.mem_map_of_mem (fun l => l.date) hx)
      (by rw [hxd, ← hl]; exact List.mem_cons_self _ _)
  · intro today t1 t2
    rw [runWeightActions_cons, runWeightActions_cons, runWeightActions_nil,
      run_log_logs today t2 _ "81.5" (163 / 2) parseFloat_str_81_5 (by norm_num) (by norm_num),
      run_log_logs today t1 _ "80.0" 80 parseFloat_str_80_0 (by norm_num) (by norm_num), h0]
    have e3 : weightLogsUpdater today (.fin 80) t1 [] =
        [{ date := today, weight := .fin 80, ts := t1 }] := rfl
    rw [e3, weightLogsUpdater_cons, if_pos rfl]

/-- Witness of C15: two logs on one date and a removal, from the initial state. -/
theorem weightLogs_one_per_date_witness :
    ((runWeightActions [.log "80.0" "5.11.2026" 1, .log "81.5" "5.11.2026" 2, .remove 7]
      { }).weightLogs.map (fun l => l.date)).Nodup ∧
    (runWeightActions [.log "80.0" "5.11.2026" 1, .log "81.5" "5.11.2026" 2] { }).weightLogs =
      [{ date := "5.11.2026", weight := .fin (163 / 2), ts := 1 }] :=
  ⟨(weightLogs_one_per_date
      [.log "80.0" "5.11.2026" 1, .log "81.5" "5.11.2026" 2, .remove 7] { } rfl).1,
    (weightLogs_one_per_date [] { } rfl).2.2 "5.11.2026" 1 2⟩

/-- C16: for an accepted weight `w` (`0 < w ≤ 500`) `addWeightLog` sets the weight of the
stored profile to `w`, its name, height, age and sex unchanged, and leaves an absent
profile absent; for a rejected weight (not a number, `≤ 0` or `> 500`) the whole state,
weight logs and profile included, stays as it was.  The weight `w` is the double that
`parseFloat` reads from the text of the field. -/
theorem addWeightLog_profile (today : String) (now : Nat) (st : State) :
    (∀ w : ℚ, parseFloat (.str st.newWeight) = .fin w → 0 < w → w ≤ 500 →
      (∀ p : Profile, st.savedProfile = some p →
        (addWeightLog today now st).savedProfile =
          some { name := p.name, weight := .fin w, height := p.height, age := p.age,
                 sex := p.sex }) ∧
      (st.savedProfile = none → (addWeightLog today now st).savedProfile = none)) ∧
    ((¬ ∃ w : ℚ, parseFloat (.str st.newWeight) = .fin w ∧ 0 < w ∧ w ≤ 500) →
      addWeightLog today now st = st ∧
      (addWeightLog today now st).weightLogs = st.weightLogs ∧
      (addWeightLog today now st).savedProfile = st.savedProfile) := by
  constructor
  · intro w hw h1 h2
    rw [addWeightLog_accept today now hw h1 h2]
    constructor
    · intro p hp
      simp only [hp, Option.map_some']
    · intro hp
      simp only [hp, Option.map_none']
  · intro h
    rw [addWeightLog_reject today now h]
    exact ⟨rfl, rfl, rfl⟩

/-- Witness of C16: the weight `81.5` logged with a stored profile of 80 kg; the text
`500.0000000000000001`, which is read as the double 500 and accepted; and the text
`1e-400`, which is read as 0 and rejected. -/
theorem addWeightLog_profile_witness :
    (addWeightLog "5.11.2026" 1
      { newWeight := "81.5",
        savedProfile := some ⟨"Bo", .fin 80, .fin 180, .fin 30, "male"⟩ }).savedProfile =
      some ⟨"Bo", .fin (163 / 2), .fin 180, .fin 30, "male"⟩ ∧
    (addWeightLog "5.11.2026" 1
      { newWeight := "500.0000000000000001",
        savedProfile := some ⟨"Bo", .fin 80, .fin 180, .fin 30, "male"⟩ }).savedProfile =
      some ⟨"Bo", .fin 500, .fin 180, .fin 30, "male"⟩ ∧
    addWeightLog "5.11.2026" 1
      { newWeight := "1e-400",
        savedProfile := some ⟨"Bo", .fin 80, .fin 180, .fin 30, "male"⟩ } =
      { newWeight := "1e-400",
        savedProfile := some ⟨"Bo", .fin 80, .fin 180, .fin 30, "male"⟩ } :=
  ⟨((addWeightLog_profile "5.11.2026" 1
      { newWeight := "81.5",
        savedProfile := some ⟨"Bo", .fin 80, .fin 180, .fin 30, "male"⟩ }).1 (163 / 2)
      parseFloat_str_81_5 (by norm_num) (by norm_num)).1 _ rfl,
    ((addWeightLog_profile "5.11.2026" 1
      { newWeight := "500.0000000000000001",
        savedProfile := some ⟨"Bo", .fin 80, .fin 180, .fin 30, "male"⟩ }).1 500
      parseFloat_str_over_500 (by norm_num) (by norm_num)).1 _ rfl,
    ((addWeightLog_profile "5.11.2026" 1
      { newWeight := "1e-400",
        savedProfile := some ⟨"Bo", .fin 80, .fin 180, .fin 30, "male"⟩ }).2
      (by
        rintro ⟨w, hw, h1, _⟩
        have hw2 : parseFloat (.str "1e-400") = .fin w := hw
        rw [parseFloat_str_tiny] at hw2
        injection hw2 with hw2
        rw [← hw2] at h1
        exact lt_irrefl _ h1)).1⟩

/-! ## Lemmas on recents and favorites -/

theorem addToRecent_recentFoods (food : Food) (st : State) :
    (addToRecent food st).recentFoods =
      (food :: st.recentFoods.filter (fun ff => ff.n != food.n)).take 15 := rfl

theorem recordAll_nil (st : State) : recordAll [] st = st := rfl

theorem recordAll_cons (food : Food) (foods : List Food) (st : State) :
    recordAll (food :: foods) st = recordAll foods (addToRecent food st) := rfl

theorem recordAll_append_singleton (init : List Food) (last : Food) (st : State) :
    recordAll (init ++ [last]) st = addToRecent last (recordAll init st) := by
  unfold recordAll
  rw [List.foldl_append]
  rfl

theorem addToRecent_length (food : Food) (st : State) :
    (addToRecent food st).recentFoods.length ≤ 15 := by
  rw [addToRecent_recentFoods, List.length_take]
  exact Nat.min_le_left _ _

theorem addToRecent_names_nodup (food : Food) (st : State)
    (h : (st.recentFoods.map (fun f => f.n)).Nodup) :
    ((addToRecent food st).recentFoods.map (fun f => f.n)).Nodup := by
  rw [addToRecent_recentFoods]
  have hsub : ((food :: st.recentFoods.filter (fun ff => ff.n != food.n)).take 15).map
      (fun f => f.n) <+
      (food :: st.recentFoods.filter (fun ff => ff.n != food.n)).map (fun f => f.n) :=
    (List.take_sublist _ _).map _
  apply List.Nodup.sublist hsub
  rw [List.map_cons, List.nodup_cons]
  constructor
  · intro hmem
    rw [List.mem_map] at hmem
    obtain ⟨x, hx, hxn⟩ := hmem
    have := (List.mem_filter.mp hx).2
    simp [hxn] at this
  · exact h.sublist ((List.filter_sublist _).map _)

theorem addToRecent_head (food : Food) (st : State) :
    ∃ rest, (addToRecent food st).recentFoods = food :: rest ∧ rest <+ st.recentFoods := by
  refine ⟨(st.recentFoods.filter (fun ff => ff.n != food.n)).take 14, ?_, ?_⟩
  · rw [addToRecent_recentFoods]
    rfl
  · exact (List.take_sublist _ _).trans (List.filter_sublist _)

theorem recordAll_invariant : ∀ (foods : List Food) (st : State),
    st.recentFoods.length ≤ 15 → (st.recentFoods.map (fun f => f.n)).Nodup →
    (recordAll foods st).recentFoods.length ≤ 15 ∧
      ((recordAll foods st).recentFoods.map (fun f => f.n)).Nodup
  | [], _, h1, h2 => ⟨h1, h2⟩
  | food :: foods, st, _, h2 => by
    rw [recordAll_cons]
    exact recordAll_invariant foods (addToRecent food st) (addToRecent_length food st)
      (addToRecent_names_nodup food st h2)

theorem toggleFavorite_favorites (foodName : String) (st : State) :
    (toggleFavorite foodName st).favorites =
      if foodName ∈ st.favorites then st.favorites.filter (fun f => f != foodName)
      else st.favorites ++ [foodName] := by
  unfold toggleFavorite
  by_cases h : foodName ∈ st.favorites <;> simp [h]

theorem mem_toggleFavorite (foodName : String) (st : State) (m : String) :
    m ∈ (toggleFavorite foodName st).favorites ↔
      (m ≠ foodName ∧ m ∈ st.favorites) ∨ (m = foodName ∧ foodName ∉ st.favorites) := by
  rw [toggleFavorite_favorites]
  by_cases h : foodName ∈ st.favorites
  · rw [if_pos h, List.mem_filter]
    constructor
    · rintro ⟨h1, h2⟩
      exact Or.inl ⟨by simpa using h2, h1⟩
    · rintro (⟨h1, h2⟩ | ⟨_, h2⟩)
      · exact ⟨h2, by simpa using h1⟩
      · exact absurd h h2
  · rw [if_neg h, List.mem_append, List.mem_singleton]
    constructor
    · rintro (h1 | h1)
      · exact Or.inl ⟨fun hm => h (hm ▸ h1), h1⟩
      · exact Or.inr ⟨h1, h⟩
    · rintro (⟨_, h2⟩ | ⟨h1, _⟩)
      · exact Or.inl h2
      · exact Or.inr h1

/-! ## Recents and favorites: results -/

/-- C17: starting without recents, after recording any sequence of foods the list has at
most 15 foods, no two of one name; the food recorded last is first and the others are a
selection of the previous list in its order; recording A, B, A leaves [A, B]. -/
theorem recents_invariant (foods : List Food) (st : State) (h0 : st.recentFoods = []) :
    (recordAll foods st).recentFoods.length ≤ 15 ∧
    ((recordAll foods st).recentFoods.map (fun f => f.n)).Nodup ∧
    (∀ (init : List Food) (last : Food), foods = init ++ [last] →
      ∃ rest, (recordAll foods st).recentFoods = last :: rest ∧
        rest <+ (recordAll init st).recentFoods) ∧
    (∀ A B : Food, A.n ≠ B.n → (recordAll [A, B, A] st).recentFoods = [A, B]) := by
  have hinv := recordAll_invariant foods st (by rw [h0]; exact Nat.zero_le _)
    (by rw [h0]; exact List.nodup_nil)
  refine ⟨hinv.1, hinv.2, ?_, ?_⟩
  · intro init last hfoods
    rw [hfoods, recordAll_append_singleton]
    exact addToRecent_head last (recordAll init st)
  · intro A B hAB
    have hBA : B.n ≠ A.n := fun h => hAB h.symm
    rw [recordAll_cons, recordAll_cons, recordAll_cons, recordAll_nil,
      addToRecent_recentFoods, addToRecent_recentFoods, addToRecent_recentFoods, h0]
    simp [hAB, hBA]

/-- Witness of C17: rice, cake, rice recorded from the initial state. -/
theorem recents_invariant_witness :
    (recordAll [⟨"Ris", .fin 130⟩, ⟨"Kage", .fin 400⟩, ⟨"Ris", .fin 130⟩] { }).recentFoods =
      [⟨"Ris", .fin 130⟩, ⟨"Kage", .fin 400⟩] :=
  (recents_invariant [] { } rfl).2.2.2 ⟨"Ris", .fin 130⟩ ⟨"Kage", .fin 400⟩ (by decide)

/-- C18: on a favorites list without duplicates, `toggleFavorite(n)` appends `n` at the end
when it is absent and removes it when it is present, the other names staying in their
order; the list stays without duplicates, every other name keeps its membership, and
toggling the same name twice restores the membership of every name. -/
theorem toggleFavorite_spec (foodName : String) (st : State) (hnd : st.favorites.Nodup) :
    (foodName ∉ st.favorites →
      (toggleFavorite foodName st).favorites = st.favorites ++ [foodName]) ∧
    (foodName ∈ st.favorites →
      (toggleFavorite foodName st).favorites = st.favorites.filter (fun f => decide (f ≠ foodName)) ∧
      (toggleFavorite foodName st).favorites <+ st.favorites ∧
      foodName ∉ (toggleFavorite foodName st).favorites) ∧
    (toggleFavorite foodName st).favorites.Nodup ∧
    (∀ m : String, m ≠ foodName →
      (m ∈ (toggleFavorite foodName st).favorites ↔ m ∈ st.favorites)) ∧
    (∀ m : String, m ∈ (toggleFavorite foodName (toggleFavorite foodName st)).favorites ↔
      m ∈ st.favorites) := by
  refine ⟨?_, ?_, ?_, ?_, ?_⟩
  · intro h
    rw [toggleFavorite_favorites, if_neg h]
  · intro h
    have hf : (toggleFavorite foodName st).favorites =
        st.favorites.filter (fun f => decide (f ≠ foodName)) := by
      rw [toggleFavorite_favorites, if_pos h]
      apply List.filter_congr
      intro f _
      by_cases hfe : f = foodName <;> simp [hfe]
    refine ⟨hf, ?_, ?_⟩
    · rw [hf]
      exact List.filter_sublist _
    · rw [hf, List.mem_filter]
      simp
  · rw [toggleFavorite_favorites]
    split
    · exact hnd.filter _
    · next h =>
      refine List.Nodup.append hnd (List.nodup_singleton _) ?_
      intro x hx hx2
      rw [List.mem_singleton] at hx2
      exact h (hx2 ▸ hx)
  · intro m hm
    rw [mem_toggleFavorite]
    constructor
    · rintro (⟨_, h⟩ | ⟨h, _⟩)
      · exact h
      · exact absurd h hm
    · intro h
      exact Or.inl ⟨hm, h⟩
  · intro m
    rw [mem_toggleFavorite, mem_toggleFavorite, mem_toggleFavorite]
    by_cases hm : m = foodName
    · subst hm
      by_cases h : m ∈ st.favorites <;> simp [h]
    · simp [hm]

/-- Witness of C18: toggling a name that is absent appends it. -/
theorem toggleFavorite_spec_witness :
    (toggleFavorite "Kage" { favorites := ["Ris"] }).favorites = ["Ris", "Kage"] :=
  (toggleFavorite_spec "Kage" { favorites := ["Ris"] } (by decide)).1 (by decide)

/-! ## Search ranker: completeness and safety -/

theorem matchesAll_iff (toLowerCase : List Char → List Char) (sws : List (List Char))
    (food : Food) :
    matchesAll toLowerCase sws food = true ↔
      ∀ sw ∈ sws, ∃ t ∈ tokenize toLowerCase food.n, sw <+: t := by
  unfold matchesAll wordMatches
  simp only [List.all_eq_true, List.any_eq_true, List.isPrefixOf_iff_prefix]

theorem mem_filtered_of_matches {toLowerCase : List Char → List Char}
    (hl : PreservesBlank toLowerCase) {FOODS : List Food} {search : String}
    (hq : isBlank search = false)
    (hcount : (FOODS.filter
      (matchesAll toLowerCase (searchWords toLowerCase search))).length ≤ 30)
    {res : List Food} (hres : filtered toLowerCase FOODS search = some res) {food : Food}
    (hf : food ∈ FOODS)
    (hm : matchesAll toLowerCase (searchWords toLowerCase search) food = true) :
    food ∈ res := by
  rw [filtered_of_not_blank hl FOODS hq] at hres
  injection hres with hres
  subst hres
  rw [List.take_of_length_le (by
    rw [List.length_map]
    unfold sortResults
    rw [List.length_insertionSort, List.length_map]
    exact hcount)]
  rw [List.mem_map]
  refine ⟨⟨food, scoreSpec toLowerCase (searchWords toLowerCase search) food⟩, ?_, rfl⟩
  unfold sortResults
  rw [List.mem_insertionSort, List.mem_map]
  exact ⟨food, List.mem_filter.mpr ⟨hf, hm⟩, rfl⟩

/-- C29: for a non-blank query and a food table in which at most 30 foods match, every
table food whose name has, for each search word, a token starting with it is returned: it
gets a score of at least 5 per search word, which is positive, and passes the `score > 0`
filter; and a food that fails some word is not returned. -/
theorem filtered_complete (toLowerCase : List Char → List Char)
    (hl : PreservesBlank toLowerCase) (FOODS : List Food) (search : String)
    (hq : isBlank search = false)
    (hcount : (FOODS.filter
      (matchesAll toLowerCase (searchWords toLowerCase search))).length ≤ 30) :
    ∃ res, filtered toLowerCase FOODS search = some res ∧
      (∀ food ∈ FOODS,
        (∀ sw ∈ searchWords toLowerCase search, ∃ t ∈ tokenize toLowerCase food.n, sw <+: t) →
        food ∈ res ∧
        ∃ s : Int, score toLowerCase (searchWords toLowerCase search) food = some s ∧
          5 * ((searchWords toLowerCase search).length : Int) ≤ s ∧ 0 < s) ∧
      (∀ food ∈ res,
        ∀ sw ∈ searchWords toLowerCase search, ∃ t ∈ tokenize toLowerCase food.n, sw <+: t) := by
  refine ⟨_, filtered_of_not_blank hl FOODS hq, ?_, ?_⟩
  · intro food hf hall
    have hm := (matchesAll_iff toLowerCase _ food).mpr hall
    refine ⟨mem_filtered_of_matches hl hq hcount (filtered_of_not_blank hl FOODS hq) hf hm,
      scoreSpec toLowerCase (searchWords toLowerCase search) food, ?_, ?_, ?_⟩
    · rw [score_eq, if_pos hm]
    · exact scoreSpec_ge toLowerCase _ food
    · exact scoreSpec_pos toLowerCase (searchWords_ne_nil hl hq) food
  · intro food hf
    exact (matchesAll_iff toLowerCase _ food).mp
      (mem_filtered_of_not_blank hl hq (filtered_of_not_blank hl FOODS hq) hf).2

/-- Witness of C29 on a two-entry table and the query `chicken`. -/
theorem filtered_complete_witness :
    PreservesBlank asciiLower ∧ isBlank "chicken" = false ∧
    ∃ res, filtered asciiLower
        [⟨"Chicken Soup", .fin 50⟩, ⟨"Chicken Breast, Raw", .fin 120⟩] "chicken" = some res ∧
      (∀ food ∈ [(⟨"Chicken Soup", .fin 50⟩ : Food), ⟨"Chicken Breast, Raw", .fin 120⟩],
        (∀ sw ∈ searchWords asciiLower "chicken", ∃ t ∈ tokenize asciiLower food.n, sw <+: t) →
        food ∈ res ∧
        ∃ s : Int, score asciiLower (searchWords asciiLower "chicken") food = some s ∧
          5 * ((searchWords asciiLower "chicken").length : Int) ≤ s ∧ 0 < s) ∧
      (∀ food ∈ res,
        ∀ sw ∈ searchWords asciiLower "chicken", ∃ t ∈ tokenize asciiLower food.n, sw <+: t) :=
  ⟨preservesBlank_asciiLower, by decide,
    filtered_complete asciiLower preservesBlank_asciiLower _ "chicken" (by decide) (by decide)⟩

/-- C30: `score` never raises the `TypeError` of `tokens[0]` on an empty token list: for
every name and every list of search words it returns a number; a name without tokens gets
-1 as soon as there is a search word, and with a non-blank query such a food is not in the
result.  The empty name and a name of punctuation only have no tokens. -/
theorem score_total (toLowerCase : List Char → List Char) (sws : List (List Char))
    (food : Food) :
    (∃ s : Int, score toLowerCase sws food = some s) ∧
    (tokenize toLowerCase food.n = [] → sws ≠ [] → score toLowerCase sws food = some (-1)) ∧
    (∀ (FOODS : List Food) (search : String), PreservesBlank toLowerCase →
      isBlank search = false → tokenize toLowerCase food.n = [] →
      ∃ res, filtered toLowerCase FOODS search = some res ∧ food ∉ res) ∧
    tokenize asciiLower "" = [] ∧ tokenize asciiLower "(-, /)" = [] := by
  have hno : tokenize toLowerCase food.n = [] → sws ≠ [] →
      matchesAll toLowerCase sws food = false := by
    intro ht hs
    cases sws with
    | nil => exact absurd rfl hs
    | cons sw rest => simp [matchesAll, ht, wordMatches]
  refine ⟨?_, ?_, ?_, by decide, by decide⟩
  · rw [score_eq]
    split
    · exact ⟨_, rfl⟩
    · exact ⟨_, rfl⟩
  · intro ht hs
    rw [score_eq, hno ht hs]
    rfl
  · intro FOODS search hl hq ht
    refine ⟨_, filtered_of_not_blank hl FOODS hq, ?_⟩
    intro hmem
    have hm := (mem_filtered_of_not_blank hl hq (filtered_of_not_blank hl FOODS hq) hmem).2
    have hs : searchWords toLowerCase search ≠ [] := searchWords_ne_nil hl hq
    have hfalse : matchesAll toLowerCase (searchWords toLowerCase search) food = false := by
      cases hsw : searchWords toLowerCase search with
      | nil => exact absurd hsw hs
      | cons sw rest => simp [matchesAll, ht, wordMatches]
    rw [hfalse] at hm
    exact Bool.false_ne_true hm

/-- Witness of C30: the food with the empty name against the query `chicken`. -/
theorem score_total_witness :
    score asciiLower (searchWords asciiLower "chicken") ⟨"", .fin 10⟩ = some (-1) :=
  (score_total asciiLower (searchWords asciiLower "chicken") ⟨"", .fin 10⟩).2.1
    (by decide) (by decide)

theorem searchWords_of_lower {toLowerCase : List Char → List Char} {search low : String}
    (h : toLowerCase search.data = low.data) :
    searchWords toLowerCase search = filterBoolean (splitRegex isWhiteSpace low.data) := by
  unfold searchWords
  rw [h]

theorem tokenize_of_lower {toLowerCase : List Char → List Char} {name low : String}
    (h : toLowerCase name.data = low.data) :
    tokenize toLowerCase name = filterBoolean (splitRegex isTokenSep low.data) := by
  unfold tokenize
  rw [h]

/-- C26 fails as stated: in a table with thirty foods named `Chicken Breast` (score 28)
before `Chicken Breast, Raw` (score 27) and `Chicken Soup`, the result for the query
`chicken breast` is the thirty foods, and `Chicken Breast, Raw` is not in it. -/
theorem chicken_breast_counterexample :
    filtered asciiLower
      (List.replicate 30 ⟨"Chicken Breast", .fin 165⟩ ++
        [⟨"Chicken Breast, Raw", .fin 120⟩, ⟨"Chicken Soup", .fin 50⟩]) "chicken breast" =
      some (List.replicate 30 ⟨"Chicken Breast", .fin 165⟩) ∧
    (⟨"Chicken Breast, Raw", .fin 120⟩ : Food) ∉
      List.replicate 30 (⟨"Chicken Breast", .fin 165⟩ : Food) := by
  decide

/-- C26, amended: for every food table and the query `chicken breast`, no food named
`Chicken Soup` is in the result, so none stands before `Chicken Breast, Raw`; and when at
most 30 table foods match the query, every table food named `Chicken Breast, Raw` is in the
result. -/
theorem chicken_breast_ranking (toLowerCase : List Char → List Char)
    (hl : PreservesBlank toLowerCase)
    (hquery : toLowerCase "chicken breast".data = "chicken breast".data)
    (hraw : toLowerCase "Chicken Breast, Raw".data = "chicken breast, raw".data)
    (hsoup : toLowerCase "Chicken Soup".data = "chicken soup".data)
    (FOODS : List Food) :
    ∃ res, filtered toLowerCase FOODS "chicken breast" = some res ∧
      (∀ food ∈ res, food.n ≠ "Chicken Soup") ∧
      ((FOODS.filter (matchesAll toLowerCase
          (searchWords toLowerCase "chicken breast"))).length ≤ 30 →
        ∀ food ∈ FOODS, food.n = "Chicken Breast, Raw" → food ∈ res) := by
  have hq : isBlank "chicken breast" = false := by decide
  refine ⟨_, filtered_of_not_blank hl FOODS hq, ?_, ?_⟩
  · intro food hf hn
    have hm := (mem_filtered_of_not_blank hl hq (filtered_of_not_blank hl FOODS hq) hf).2
    have hfalse : matchesAll toLowerCase (searchWords toLowerCase "chicken breast") food =
        false := by
      unfold matchesAll
      rw [hn, searchWords_of_lower hquery, tokenize_of_lower hsoup]
      decide
    rw [hfalse] at hm
    exact Bool.false_ne_true hm
  · intro hcount food hf hn
    apply mem_filtered_of_matches hl hq hcount (filtered_of_not_blank hl FOODS hq) hf
    unfold matchesAll
    rw [hn, searchWords_of_lower hquery, tokenize_of_lower hraw]
    decide

/-- Witness of the amended C26 on a table of the two foods. -/
theorem chicken_breast_ranking_witness :
    ∃ res, filtered asciiLower
        [⟨"Chicken Soup", .fin 50⟩, ⟨"Chicken Breast, Raw", .fin 120⟩] "chicken breast" =
          some res ∧
      (∀ food ∈ res, food.n ≠ "Chicken Soup") ∧
      ((List.filter (matchesAll asciiLower (searchWords asciiLower "chicken breast"))
          [⟨"Chicken Soup", .fin 50⟩, ⟨"Chicken Breast, Raw", .fin 120⟩]).length ≤ 30 →
        ∀ food ∈ [(⟨"Chicken Soup", .fin 50⟩ : Food), ⟨"Chicken Breast, Raw", .fin 120⟩],
          food.n = "Chicken Breast, Raw" → food ∈ res) :=
  chicken_breast_ranking asciiLower preservesBlank_asciiLower (by decide) (by decide)
    (by decide) _

theorem editProfile_some (numberToString : Number → String) (st : State) (p : Profile)
    (hp : st.savedProfile = some p) :
    editProfile numberToString st =
      { st with
        firstName := p.name, weight := numberToString p.weight,
        height := numberToString p.height, age := numberToString p.age, sex := p.sex,
        profileSaved := false, validationErr := .empty } := by
  simp only [editProfile, hp]
  by_cases hn : p.name = ""
  · simp [hn]
  · simp [hn]

theorem editProfile_none (numberToString : Number → String) (st : State)
    (hp : st.savedProfile = none) :
    editProfile numberToString st =
      { st with profileSaved := false, validationErr := .empty } := by
  simp only [editProfile, hp]

theorem parseFloat_str_180 : parseFloat (.str "180") = .fin 180 := by decide!

theorem parseFloat_str_30 : parseFloat (.str "30") = .fin 30 := by decide!

theorem string_mk_ne_empty {l : List Char} (h : l ≠ []) : (⟨l⟩ : String) ≠ "" := by
  intro hc
  apply h
  have := congrArg String.data hc
  simpa using this

/-- What `saveProfile` does to the stored profile: it raises no exception, and either
leaves the stored profile as it was, with a message, or stores a profile that meets all
five rules, with the message cleared. -/
theorem saveProfile_cases (st : State) :
    ∃ st', saveProfile st = some st' ∧
      ((st'.savedProfile = st.savedProfile ∧ st'.validationErr ≠ .empty) ∨
        ∃ p, st'.savedProfile = some p ∧ ProfileInRanges p ∧ ProfileBmiPlausible p) := by
  by_cases hn : nameRule st
  · by_cases hw : weightRule st
    · by_cases hh : heightRule st
      · by_cases ha : ageRule st
        · obtain ⟨w, hw, hw1, hw2⟩ := hw
          obtain ⟨h, hh, hh1, hh2⟩ := hh
          obtain ⟨a, ha, ha1, ha2⟩ := ha
          obtain ⟨b, hcb, hs⟩ := saveProfile_of_ranges st hn hw hw1 hw2 hh hh1 hh2 ha ha1 ha2
          by_cases hb : 5 ≤ b ∧ b ≤ 100
          · rw [if_pos hb] at hs
            refine ⟨_, hs, Or.inr ⟨_, rfl,
              ⟨string_mk_ne_empty hn, ⟨w, rfl, hw1, hw2⟩, ⟨h, rfl, hh1, hh2⟩,
                ⟨a, rfl, ha1, ha2⟩⟩,
              ⟨b, ?_, hb.1, hb.2⟩⟩⟩
            rw [← calcBMI_of_parse hw hh]
            exact hcb
          · rw [if_neg hb] at hs
            exact ⟨_, hs, Or.inl ⟨rfl, by simp⟩⟩
        · exact ⟨_, saveProfile_age_error st hn hw hh ha, Or.inl ⟨rfl, by simp⟩⟩
      · exact ⟨_, saveProfile_height_error st hn hw hh, Or.inl ⟨rfl, by simp⟩⟩
    · exact ⟨_, saveProfile_weight_error st hn hw, Or.inl ⟨rfl, by simp⟩⟩
  · exact ⟨_, saveProfile_name_error st hn, Or.inl ⟨rfl, by simp⟩⟩

theorem addWeightLog_savedProfile (today : String) (now : Nat) (st : State) :
    (addWeightLog today now st).savedProfile = st.savedProfile ∨
    ∃ w : ℚ, 0 < w ∧ w ≤ 500 ∧
      (addWeightLog today now st).savedProfile =
        st.savedProfile.map (fun prev => { prev with weight := .fin w }) := by
  by_cases hw : ∃ w : ℚ, parseFloat (.str st.newWeight) = .fin w ∧ 0 < w ∧ w ≤ 500
  · obtain ⟨w, hw, h1, h2⟩ := hw
    right
    refine ⟨w, h1, h2, ?_⟩
    rw [addWeightLog_accept today now hw h1 h2]
  · left
    rw [addWeightLog_reject today now hw]

theorem run_profile_invariant (a : ProfileAction) (st : State)
    (hinv : ∀ p, st.savedProfile = some p → ProfileInRanges p) :
    ∃ st', a.run st = some st' ∧ ∀ p, st'.savedProfile = some p → ProfileInRanges p := by
  cases a with
  | save firstName weight height age sex =>
    obtain ⟨st', hs, hcase⟩ := saveProfile_cases
      { st with firstName := firstName, weight := weight, height := height, age := age,
                sex := sex }
    refine ⟨st', hs, ?_⟩
    rcases hcase with ⟨h, _⟩ | ⟨p, hp, hr, _⟩
    · intro p hp
      rw [h] at hp
      exact hinv p hp
    · intro q hq
      rw [hp] at hq
      injection hq with hq
      subst hq
      exact hr
  | logWeight newWeight today now =>
    refine ⟨_, rfl, ?_⟩
    intro p hp
    rcases addWeightLog_savedProfile today now { st with newWeight := newWeight } with h | h
    · rw [h] at hp
      exact hinv p hp
    · obtain ⟨w, h1, h2, h⟩ := h
      rw [h] at hp
      cases hq : st.savedProfile with
      | none =>
        have hp2 : Option.map (fun prev : Profile => { prev with weight := .fin w })
            st.savedProfile = some p := hp
        rw [hq] at hp2
        cases hp2
      | some q =>
        have hp2 : Option.map (fun prev : Profile => { prev with weight := .fin w })
            st.savedProfile = some p := hp
        rw [hq] at hp2
        injection hp2 with hp2
        subst hp2
        obtain ⟨hn, _, hh, ha⟩ := hinv q hq
        exact ⟨hn, ⟨w, rfl, h1, h2⟩, hh, ha⟩

theorem runProfileActions_invariant : ∀ (acts : List ProfileAction) (st : State),
    (∀ p, st.savedProfile = some p → ProfileInRanges p) →
    ∃ st', runProfileActions acts st = some st' ∧
      ∀ p, st'.savedProfile = some p → ProfileInRanges p
  | [], st, hinv => ⟨st, rfl, hinv⟩
  | a :: acts, st, hinv => by
    obtain ⟨st1, h1, hinv1⟩ := run_profile_invariant a st hinv
    obtain ⟨st2, h2, hinv2⟩ := runProfileActions_invariant acts st1 hinv1
    refine ⟨st2, ?_, hinv2⟩
    simp only [runProfileActions, h1, h2]

theorem run_save_example :
    (ProfileAction.save "Bo" "80" "180" "30" "male").run { } =
      some { firstName := "Bo", weight := "80", height := "180", age := "30",
             savedProfile := some ⟨"Bo", .fin 80, .fin 180, .fin 30, "male"⟩,
             profileSaved := true } := by
  decide!

theorem calcBMI_400_180 :
    calcBMI (.num (.fin 400)) (.num (.fin 180)) =
      some (.fin (4343749640596543 / 35184372088832)) := by
  decide!

theorem run_logWeight_example (st : State) (p : Profile) (hp : st.savedProfile = some p) :
    ∃ st', (ProfileAction.logWeight "400" "5.11.2026" 1).run st = some st' ∧
      st'.savedProfile = some { p with weight := .fin 400 } := by
  refine ⟨_, rfl, ?_⟩
  rw [@addWeightLog_accept { st with newWeight := "400" } 400 "5.11.2026" 1 parseFloat_str_400
    (by norm_num) (by norm_num)]
  simp only [hp, Option.map_some']

/-! ## Profile form and history: results -/

/-- C21 fails as stated: `profileSaved` is a persisted value, and `editProfile` sets it to
`false`.  From a state with a stored profile and the flag set, the flag is cleared, whatever
the conversion of numbers to text. -/
theorem editProfile_flag_counterexample :
    (∀ numberToString : Number → String,
      (editProfile numberToString
        { profileSaved := true,
          savedProfile := some ⟨"Bo", .fin 80, .fin 180, .fin 30, "male"⟩ }).profileSaved =
        false) ∧
    ({ profileSaved := true,
       savedProfile := some ⟨"Bo", .fin 80, .fin 180, .fin 30, "male"⟩ } : State).profileSaved =
      true :=
  ⟨fun _ => rfl, rfl⟩

/-- C21, amended: `editProfile` leaves the stored profile, the activity level, the entries,
favorites, recents and weight logs as they were; it sets the persisted flag `profileSaved`
to `false` and clears the message; with a stored profile the form fields are filled from
it, and without one they are left alone. -/
theorem editProfile_frame (numberToString : Number → String) (st : State) :
    (editProfile numberToString st).savedProfile = st.savedProfile ∧
    (editProfile numberToString st).activity = st.activity ∧
    (editProfile numberToString st).entries = st.entries ∧
    (editProfile numberToString st).favorites = st.favorites ∧
    (editProfile numberToString st).recentFoods = st.recentFoods ∧
    (editProfile numberToString st).weightLogs = st.weightLogs ∧
    (editProfile numberToString st).profileSaved = false ∧
    (editProfile numberToString st).validationErr = .empty ∧
    (∀ p : Profile, st.savedProfile = some p →
      editProfile numberToString st =
        { st with
          firstName := p.name, weight := numberToString p.weight,
          height := numberToString p.height, age := numberToString p.age, sex := p.sex,
          profileSaved := false, validationErr := .empty }) ∧
    (st.savedProfile = none →
      editProfile numberToString st =
        { st with profileSaved := false, validationErr := .empty }) := by
  have hsome := editProfile_some numberToString st
  have hnone := editProfile_none numberToString st
  refine ⟨?_, ?_, ?_, ?_, ?_, ?_, ?_, ?_, hsome, hnone⟩
  · cases hp : st.savedProfile with
    | none => rw [hnone hp]; exact hp
    | some p => rw [hsome p hp]; exact hp
  all_goals
    cases hp : st.savedProfile with
    | none => rw [hnone hp]
    | some p => rw [hsome p hp]

/-- C28 fails as stated: after saving 80 kg, 180 cm, 30 years and then logging the weight
`400`, which `addWeightLog` accepts, the stored profile has weight 400 and height 180, for
which `calcBMI` returns the double 123.45679012345678, outside the range from 5 to 100. -/
theorem profile_bmi_counterexample :
    (runProfileActions
      [.save "Bo" "80" "180" "30" "male", .logWeight "400" "5.11.2026" 1] { }).map
        (fun st => st.savedProfile) =
      some (some ⟨"Bo", .fin 400, .fin 180, .fin 30, "male"⟩) ∧
    calcBMI (.num (.fin 400)) (.num (.fin 180)) =
      some (.fin (4343749640596543 / 35184372088832)) ∧
    (100 : ℚ) < 4343749640596543 / 35184372088832 ∧
    ¬ ProfileBmiPlausible ⟨"Bo", .fin 400, .fin 180, .fin 30, "male"⟩ := by
  refine ⟨?_, calcBMI_400_180, by norm_num, ?_⟩
  · obtain ⟨st', h2, hp⟩ := run_logWeight_example
      { firstName := "Bo", weight := "80", height := "180", age := "30",
        savedProfile := some ⟨"Bo", .fin 80, .fin 180, .fin 30, "male"⟩,
        profileSaved := true } ⟨"Bo", .fin 80, .fin 180, .fin 30, "male"⟩ rfl
    simp only [runProfileActions, run_save_example, h2, Option.map_some', hp]
  · rintro ⟨b, hb, _, h2⟩
    have hb2 : calcBMI (.num (.fin 400)) (.num (.fin 180)) = some (.fin b) := hb
    rw [calcBMI_400_180] at hb2
    injection hb2 with hb2
    injection hb2 with hb2
    subst hb2
    norm_num at h2

/-- C28, amended: in every state reached from an absent profile by `saveProfile` and
`addWeightLog` calls, a stored profile has a non-empty name, `0 < weight ≤ 500`,
`50 ≤ height ≤ 280` and `1 ≤ age ≤ 130`; in the profile that a successful `saveProfile`
stores, the body-mass index that `calcBMI` computes in doubles is between 5 and 100. -/
theorem profile_invariant (acts : List ProfileAction) (st : State)
    (h0 : st.savedProfile = none) :
    (∃ st', runProfileActions acts st = some st' ∧
      ∀ p, st'.savedProfile = some p → ProfileInRanges p) ∧
    (∀ s s' : State, saveProfile s = some s' → s'.validationErr = .empty →
      ∃ p, s'.savedProfile = some p ∧ ProfileInRanges p ∧ ProfileBmiPlausible p) := by
  constructor
  · apply runProfileActions_invariant
    intro p hp
    rw [h0] at hp
    cases hp
  · intro s s' hs hv
    obtain ⟨s'', hs'', hcase⟩ := saveProfile_cases s
    rw [hs] at hs''
    injection hs'' with hs''
    subst hs''
    rcases hcase with ⟨_, hne⟩ | h
    · exact absurd hv hne
    · exact h

/-- Witness of the amended C28: a profile saved and a weight logged from the initial
state. -/
theorem profile_invariant_witness :
    ∃ st', runProfileActions
        [.save "Bo" "80" "180" "30" "male", .logWeight "400" "5.11.2026" 1] { } = some st' ∧
      ∀ p, st'.savedProfile = some p → ProfileInRanges p :=
  (profile_invariant [.save "Bo" "80" "180" "30" "male", .logWeight "400" "5.11.2026" 1]
    { } rfl).1

/-! ## Lemmas on dictionaries and the backup -/

theorem getItem_setItem {α : Type} (k k' : String) (v : α) :
    ∀ obj : List (String × α),
      getItem k (setItem k' v obj) = if k' = k then some v else getItem k obj
  | [] => by simp [setItem, getItem]
  | (k1, v1) :: rest => by
    have ih := getItem_setItem k k' v rest
    by_cases h1 : k1 = k'
    · by_cases h2 : k' = k
      · simp [setItem, getItem, h1, h2]
      · simp [setItem, getItem, h1, h2]
    · by_cases h2 : k' = k
      · subst h2
        rw [if_pos rfl] at ih
        simp only [setItem, h1, if_false, getItem, ih, if_true]
      · simp only [setItem, h1, if_false, getItem, ih, h2]

theorem setItem_of_getItem {α : Type} (k : String) (v : α) :
    ∀ obj : List (String × α), getItem k obj = some v → setItem k v obj = obj
  | [], h => by simp [getItem] at h
  | (k1, v1) :: rest, h => by
    by_cases h1 : k1 = k
    · simp only [getItem, h1, if_true, Option.some.injEq] at h
      simp [setItem, h1, h]
    · simp only [getItem, h1, if_false] at h
      simp [setItem, h1, setItem_of_getItem k v rest h]

theorem getItem_of_mem {α : Type} (k : String) (v : α) :
    ∀ obj : List (String × α), (obj.map Prod.fst).Nodup → (k, v) ∈ obj →
      getItem k obj = some v
  | [], _, h => by cases h
  | (k1, v1) :: rest, hnd, h => by
    rw [List.map_cons, List.nodup_cons] at hnd
    rcases List.mem_cons.mp h with h | h
    · injection h with h1 h2
      simp [getItem, h1, h2]
    · have hne : k1 ≠ k := by
        intro he
        apply hnd.1
        rw [he]
        exact List.mem_map.mpr ⟨(k, v), h, rfl⟩
      simp only [getItem, hne, if_false]
      exact getItem_of_mem k v rest hnd.2 h

theorem getItem_eq_none {α : Type} (k : String) :
    ∀ obj : List (String × α), k ∉ obj.map Prod.fst → getItem k obj = none
  | [], _ => rfl
  | (k1, v1) :: rest, h => by
    rw [List.map_cons, List.mem_cons, not_or] at h
    have h1 : ¬ k1 = k := fun he => h.1 he.symm
    simp only [getItem, h1, if_false]
    exact getItem_eq_none k rest h.2

theorem exportData_spec {T J : Type} (parse : T → Option J) :
    ∀ storage : List (String × T),
      (∀ k t, (k, t) ∈ storage → hasNamespace k = true → ∃ j, parse t = some j) →
      ∃ data, exportData parse storage = some data ∧
        ∀ k j, (k, j) ∈ data ↔
          hasNamespace k = true ∧ ∃ t, (k, t) ∈ storage ∧ parse t = some j
  | [], _ => ⟨[], rfl, by simp⟩
  | (k1, t1) :: rest, h => by
    obtain ⟨data, hd, hmem⟩ := exportData_spec parse rest
      (fun k t hkt => h k t (List.mem_cons_of_mem _ hkt))
    rcases Bool.eq_false_or_eq_true (hasNamespace k1) with hns | hns
    · obtain ⟨j1, hj1⟩ := h k1 t1 (List.mem_cons_self _ _) hns
      refine ⟨(k1, j1) :: data, by simp [exportData, hns, hj1, hd], ?_⟩
      intro k j
      rw [List.mem_cons, hmem]
      constructor
      · rintro (he | ⟨h1, t, h2, h3⟩)
        · injection he with he1 he2
          subst he1 he2
          exact ⟨hns, t1, List.mem_cons_self _ _, hj1⟩
        · exact ⟨h1, t, List.mem_cons_of_mem _ h2, h3⟩
      · rintro ⟨h1, t, h2, h3⟩
        rcases List.mem_cons.mp h2 with he | h2
        · injection he with he1 he2
          subst he1 he2
          rw [hj1] at h3
          injection h3 with h3
          exact Or.inl (by rw [h3])
        · exact Or.inr ⟨h1, t, h2, h3⟩
    · refine ⟨data, by simp [exportData, hns, hd], ?_⟩
      intro k j
      rw [hmem]
      constructor
      · rintro ⟨h1, t, h2, h3⟩
        exact ⟨h1, t, List.mem_cons_of_mem _ h2, h3⟩
      · rintro ⟨h1, t, h2, h3⟩
        rcases List.mem_cons.mp h2 with he | h2
        · injection he with he1 he2
          subst he1
          rw [hns] at h1
          exact absurd h1 Bool.false_ne_true
        · exact ⟨h1, t, h2, h3⟩

theorem importData_cons {T J : Type} (stringify : J → T) (kv : String × J)
    (data : List (String × J)) (storage : List (String × T)) :
    importData stringify (kv :: data) storage =
      importData stringify data
        (if hasNamespace kv.1 then setItem kv.1 (stringify kv.2) storage else storage) := rfl

theorem importData_other {T J : Type} (stringify : J → T) (k : String) :
    ∀ (data : List (String × J)) (storage : List (String × T)),
      (hasNamespace k = false ∨ ∀ j, (k, j) ∉ data) →
      getItem k (importData stringify data storage) = getItem k storage
  | [], _, _ => rfl
  | (k1, j1) :: data, storage, h => by
    rw [importData_cons, importData_other stringify k data]
    · simp only
      split
      · next hns =>
        rw [getItem_setItem]
        have hne : ¬ k1 = k := by
          intro he
          rcases h with h | h
          · rw [← he, hns] at h
            exact Bool.false_ne_true h.symm
          · exact h j1 (by rw [← he]; exact List.mem_cons_self _ _)
        rw [if_neg hne]
      · rfl
    · rcases h with h | h
      · exact Or.inl h
      · exact Or.inr (fun j hj => h j (List.mem_cons_of_mem _ hj))

theorem importData_written {T J : Type} (stringify : J → T) (k : String) (j : J) :
    ∀ (data : List (String × J)) (storage : List (String × T)),
      (data.map Prod.fst).Nodup → (k, j) ∈ data → hasNamespace k = true →
      getItem k (importData stringify data storage) = some (stringify j)
  | [], _, _, h, _ => by cases h
  | (k1, j1) :: data, storage, hnd, h, hns => by
    rw [List.map_cons, List.nodup_cons] at hnd
    rw [importData_cons]
    rcases List.mem_cons.mp h with he | h
    · injection he with he1 he2
      subst he1 he2
      rw [importData_other stringify k data _ (Or.inr (fun j' hj' =>
        hnd.1 (List.mem_map.mpr ⟨(k, j'), hj', rfl⟩)))]
      simp only [hns, if_true]
      rw [getItem_setItem, if_pos rfl]
    · exact importData_written stringify k j data _ hnd.2 h hns

theorem importData_same {T J : Type} (stringify : J → T) :
    ∀ (data : List (String × J)) (storage : List (String × T)),
      (∀ k j, (k, j) ∈ data → hasNamespace k = true →
        getItem k storage = some (stringify j)) →
      importData stringify data storage = storage
  | [], _, _ => rfl
  | (k1, j1) :: data, storage, h => by
    rw [importData_cons]
    have hstep : (if hasNamespace k1 then setItem k1 (stringify j1) storage else storage) =
        storage := by
      split
      · next hns => exact setItem_of_getItem _ _ _ (h k1 j1 (List.mem_cons_self _ _) hns)
      · rfl
    simp only
    rw [hstep]
    exact importData_same stringify data storage
      (fun k j hkj => h k j (List.mem_cons_of_mem _ hkj))

/-! ## Backup: results -/

/-- C27: with the storage as a list of distinct keys whose namespaced values are texts
written by `JSON.stringify`, `exportData` collects exactly the entries whose key starts
with `kalorie_`; `importData` writes exactly the namespaced entries of the backup, other
keys of the backup ignored and keys absent from it untouched; and importing the export of
a storage into that storage leaves it unchanged. -/
theorem backup_round_trip {T J : Type} (parse : T → Option J) (stringify : J → T)
    (storage : List (String × T)) (hkeys : (storage.map Prod.fst).Nodup)
    (hcanon : ∀ k t, (k, t) ∈ storage → hasNamespace k = true →
      ∃ j, parse t = some j ∧ stringify j = t) :
    ∃ data, exportData parse storage = some data ∧
      (∀ k j, (k, j) ∈ data ↔
        hasNamespace k = true ∧ ∃ t, (k, t) ∈ storage ∧ parse t = some j) ∧
      (∀ (blob : List (String × J)) (store : List (String × T)),
        (blob.map Prod.fst).Nodup → ∀ k,
          (∀ j, (k, j) ∈ blob → hasNamespace k = true →
            getItem k (importData stringify blob store) = some (stringify j)) ∧
          ((hasNamespace k = false ∨ ∀ j, (k, j) ∉ blob) →
            getItem k (importData stringify blob store) = getItem k store)) ∧
      importData stringify data storage = storage := by
  obtain ⟨data, hd, hmem⟩ := exportData_spec parse storage
    (fun k t hkt hns => (hcanon k t hkt hns).imp (fun _ h => h.1))
  refine ⟨data, hd, hmem, ?_, ?_⟩
  · intro blob store hnd k
    exact ⟨fun j hj hns => importData_written stringify k j blob store hnd hj hns,
      importData_other stringify k blob store⟩
  · apply importData_same
    intro k j hkj hns
    obtain ⟨_, t, hkt, hpt⟩ := (hmem k j).mp hkj
    obtain ⟨j', hj', hst⟩ := hcanon k t hkt hns
    rw [hpt] at hj'
    injection hj' with hj'
    rw [hj', hst]
    exact getItem_of_mem k t storage hkeys hkt

/-- Witness of C27: a storage of one namespaced key and one foreign key, with texts that
stand for themselves. -/
theorem backup_round_trip_witness :
    ∃ data, exportData (fun t : String => some t)
        [("kalorie_activity", "moderate"), ("theme", "dark")] = some data ∧
      (∀ k j, (k, j) ∈ data ↔
        hasNamespace k = true ∧
          ∃ t, (k, t) ∈ [("kalorie_activity", "moderate"), ("theme", "dark")] ∧
            (fun t : String => some t) t = some j) ∧
      (∀ (blob : List (String × String)) (store : List (String × String)),
        (blob.map Prod.fst).Nodup → ∀ k,
          (∀ j, (k, j) ∈ blob → hasNamespace k = true →
            getItem k (importData (fun j : String => j) blob store) = some j) ∧
          ((hasNamespace k = false ∨ ∀ j, (k, j) ∉ blob) →
            getItem k (importData (fun j : String => j) blob store) = getItem k store)) ∧
      importData (fun j : String => j) data
        [("kalorie_activity", "moderate"), ("theme", "dark")] =
        [("kalorie_activity", "moderate"), ("theme", "dark")] :=
  backup_round_trip (fun t : String => some t) (fun j : String => j)
    [("kalorie_activity", "moderate"), ("theme", "dark")] (by decide)
    (fun _ t _ _ => ⟨t, rfl, rfl⟩)

/-! ## Lemmas on the aggregations -/

theorem keys_setItem {α : Type} (k : String) (v : α) :
    ∀ obj : List (String × α),
      (setItem k v obj).map Prod.fst =
        if k ∈ obj.map Prod.fst then obj.map Prod.fst else obj.map Prod.fst ++ [k]
  | [] => by simp [setItem]
  | (k1, v1) :: rest => by
    have ih := keys_setItem k v rest
    by_cases h1 : k1 = k
    · simp [setItem, h1]
    · have h1' : ¬ k = k1 := fun h => h1 h.symm
      by_cases h2 : k ∈ rest.map Prod.fst
      · rw [if_pos h2] at ih
        have h3 : k ∈ ((k1, v1) :: rest).map Prod.fst := by
          rw [List.map_cons]; exact List.mem_cons_of_mem _ h2
        rw [if_pos h3]
        simp only [setItem, h1, if_false, List.map_cons, ih]
      · rw [if_neg h2] at ih
        have h3 : k ∉ ((k1, v1) :: rest).map Prod.fst := by
          rw [List.map_cons, List.mem_cons, not_or]; exact ⟨h1', h2⟩
        rw [if_neg h3]
        simp only [setItem, h1, if_false, List.map_cons, ih, List.cons_append]

theorem nodup_keys_setItem {α : Type} (k : String) (v : α) (obj : List (String × α))
    (h : (obj.map Prod.fst).Nodup) : ((setItem k v obj).map Prod.fst).Nodup := by
  rw [keys_setItem]
  by_cases h2 : k ∈ obj.map Prod.fst
  · rw [if_pos h2]; exact h
  · rw [if_neg h2]
    exact List.Nodup.append h (List.nodup_singleton k)
      (by
        intro x hx hx1
        rw [List.mem_singleton] at hx1
        exact h2 (hx1 ▸ hx))

theorem mem_keys_setItem {α : Type} (k k' : String) (v : α) (obj : List (String × α)) :
    k ∈ (setItem k' v obj).map Prod.fst ↔ k = k' ∨ k ∈ obj.map Prod.fst := by
  rw [keys_setItem]
  by_cases h2 : k' ∈ obj.map Prod.fst
  · rw [if_pos h2]
    constructor
    · exact Or.inr
    · rintro (h | h)
      · rw [h]; exact h2
      · exact h
  · rw [if_neg h2, List.mem_append, List.mem_singleton]
    exact or_comm

/-- The value under a key after a loop of updates `obj[key e] = f e obj[key e]`: only the
elements of that key count. -/
theorem getItem_foldl {α β : Type} (key : β → String) (f : β → Option α → α) (k : String) :
    ∀ (es : List β) (obj : List (String × α)),
      getItem k (es.foldl (fun o e => setItem (key e) (f e (getItem (key e) o)) o) obj) =
        (es.filter (fun e => key e == k)).foldl (fun v e => some (f e v)) (getItem k obj)
  | [], obj => rfl
  | e :: es, obj => by
    rw [List.foldl_cons, getItem_foldl key f k es, getItem_setItem]
    by_cases h : key e = k
    · have hf : (e :: es).filter (fun e => key e == k) =
          e :: es.filter (fun e => key e == k) := by simp [List.filter_cons, h]
      rw [hf, List.foldl_cons, if_pos h, h]
    · have hf : (e :: es).filter (fun e => key e == k) =
          es.filter (fun e => key e == k) := by simp [List.filter_cons, h]
      rw [hf, if_neg h]

theorem nodup_keys_foldl {α β : Type} (key : β → String) (f : β → Option α → α) :
    ∀ (es : List β) (obj : List (String × α)), (obj.map Prod.fst).Nodup →
      ((es.foldl (fun o e => setItem (key e) (f e (getItem (key e) o)) o) obj).map
        Prod.fst).Nodup
  | [], _, h => h
  | e :: es, obj, h => by
    rw [List.foldl_cons]
    exact nodup_keys_foldl key f es _ (nodup_keys_setItem _ _ _ h)

theorem mem_keys_foldl {α β : Type} (key : β → String) (f : β → Option α → α) (k : String) :
    ∀ (es : List β) (obj : List (String × α)),
      k ∈ (es.foldl (fun o e => setItem (key e) (f e (getItem (key e) o)) o) obj).map
          Prod.fst ↔
        k ∈ obj.map Prod.fst ∨ ∃ e ∈ es, key e = k
  | [], obj => by simp
  | e :: es, obj => by
    rw [List.foldl_cons, mem_keys_foldl key f k es, mem_keys_setItem]
    constructor
    · rintro ((h | h) | ⟨e', he', h⟩)
      · exact Or.inr ⟨e, List.mem_cons_self _ _, h.symm⟩
      · exact Or.inl h
      · exact Or.inr ⟨e', List.mem_cons_of_mem _ he', h⟩
    · rintro (h | ⟨e', he', h⟩)
      · exact Or.inl (Or.inr h)
      · rcases List.mem_cons.mp he' with h1 | h1
        · subst h1; exact Or.inl (Or.inl h.symm)
        · exact Or.inr ⟨e', h1, h⟩

/-- The rational sum behind a loop `s + e.calories` over entries with finite calories. -/
theorem foldl_calories (es : List Entry) (hfin : ∀ e ∈ es, ∃ q, e.calories = .fin q) :
    ∀ q : ℚ, es.foldl (fun s e => s + e.calories) (.fin q) = .fin (q + (es.map calOf).sum) := by
  induction es with
  | nil => intro q; simp
  | cons e es ih =>
    intro q
    obtain ⟨c, hc⟩ := hfin e (List.mem_cons_self _ _)
    have hcal : calOf e = c := by simp [calOf, hc]
    rw [List.foldl_cons, hc, fin_add, ih (fun e' he' => hfin e' (List.mem_cons_of_mem _ he')),
      List.map_cons, List.sum_cons, hcal, add_assoc]

theorem orZero_fin (q : ℚ) : orZero (some (.fin q)) = .fin q := by
  by_cases h : q = 0
  · simp [orZero, Number.isFalsy, h]
  · simp [orZero, Number.isFalsy, h]

/-- The loop of `dailyCalories` on the entries of one date. -/
theorem foldl_dailyCalories (es : List Entry) (hfin : ∀ e ∈ es, ∃ q, e.calories = .fin q) :
    ∀ q : ℚ,
      es.foldl (fun v e => some (orZero v + e.calories)) (some (.fin q)) =
        some (.fin (q + (es.map calOf).sum)) := by
  induction es with
  | nil => intro q; simp
  | cons e es ih =>
    intro q
    obtain ⟨c, hc⟩ := hfin e (List.mem_cons_self _ _)
    have hcal : calOf e = c := by simp [calOf, hc]
    rw [List.foldl_cons, orZero_fin, hc, fin_add,
      ih (fun e' he' => hfin e' (List.mem_cons_of_mem _ he')),
      List.map_cons, List.sum_cons, hcal, add_assoc]

/-- What `dailyCalories[k]` is: nothing for a date without entries, else the sum of the
calories of the entries of that date. -/
theorem getItem_dailyCalories (entries : List Entry) (k : String)
    (hfin : ∀ e ∈ entries, ∃ q, e.calories = .fin q) :
    getItem k (dailyCalories entries) =
      if entries.filter (fun e => e.date == k) = [] then none
      else some (.fin (dayTotal entries k)) := by
  have h := getItem_foldl (fun e : Entry => e.date)
    (fun (e : Entry) (v : Option Number) => orZero v + e.calories) k entries []
  have h2 : getItem k (dailyCalories entries) =
      (entries.filter (fun e => e.date == k)).foldl
        (fun v e => some (orZero v + e.calories)) none := h
  rw [h2, dayTotal]
  have hf : ∀ e ∈ entries.filter (fun e => e.date == k), ∃ q, e.calories = .fin q :=
    fun e he => hfin e (List.mem_of_mem_filter he)
  cases hms : entries.filter (fun e => e.date == k) with
  | nil => simp
  | cons e ms =>
    rw [hms] at hf
    obtain ⟨c, hc⟩ := hf e (List.mem_cons_self _ _)
    have hcal : calOf e = c := by simp [calOf, hc]
    have h0 : orZero none + e.calories = .fin c := by
      rw [hc]; show Number.fin 0 + Number.fin c = _; rw [fin_add, zero_add]
    rw [List.foldl_cons, h0,
      foldl_dailyCalories ms (fun e' he' => hf e' (List.mem_cons_of_mem _ he')) c]
    simp [hcal]

theorem orZero_dailyCalories (entries : List Entry) (k : String)
    (hfin : ∀ e ∈ entries, ∃ q, e.calories = .fin q) :
    orZero (getItem k (dailyCalories entries)) = .fin (dayTotal entries k) := by
  rw [getItem_dailyCalories entries k hfin]
  by_cases h : entries.filter (fun e => e.date == k) = []
  · rw [if_pos h, dayTotal, h]; rfl
  · rw [if_neg h, orZero_fin]

theorem orNull_dailyCalories (entries : List Entry) (k : String)
    (hfin : ∀ e ∈ entries, ∃ q, e.calories = .fin q) :
    orNull (getItem k (dailyCalories entries)) =
      if dayTotal entries k = 0 then none else some (.fin (dayTotal entries k)) := by
  rw [getItem_dailyCalories entries k hfin]
  by_cases h : entries.filter (fun e => e.date == k) = []
  · rw [if_pos h, dayTotal, h]; simp [orNull]
  · rw [if_neg h]
    by_cases h0 : dayTotal entries k = 0
    · simp [orNull, Number.isFalsy, h0]
    · simp [orNull, Number.isFalsy, h0]

/-! ## Meal breakdown -/

/-- The buckets that `MEALS.forEach` creates. -/
theorem meals_init :
    MEALS.foldl (fun bd m => setItem m ({ entries := [], cal := .fin 0 } : MealBucket) bd) [] =
      [("breakfast", { entries := [], cal := .fin 0 }),
       ("lunch", { entries := [], cal := .fin 0 }),
       ("dinner", { entries := [], cal := .fin 0 }),
       ("snack", { entries := [], cal := .fin 0 })] := by
  simp [MEALS, setItem]

/-- A loop that throws on some elements does the plain loop when none of them occurs. -/
theorem foldlM_guard {α β : Type} (g : β → Bool) (step : α → β → α) :
    ∀ (es : List β) (a : α), (∀ e ∈ es, g e = false) →
      es.foldlM (fun a e => if g e then none else some (step a e)) a =
        some (es.foldl step a)
  | [], _, _ => rfl
  | e :: es, a, h => by
    have he : g e = false := h e (List.mem_cons_self _ _)
    rw [List.foldlM_cons, List.foldl_cons, he]
    exact foldlM_guard g step es _ (fun e' he' => h e' (List.mem_cons_of_mem _ he'))

/-- A loop that throws on some elements throws when one of them occurs. -/
theorem foldlM_guard_fail {α β : Type} (g : β → Bool) (step : α → β → α) :
    ∀ (es : List β) (a : α), (∃ e ∈ es, g e = true) →
      es.foldlM (fun a e => if g e then none else some (step a e)) a = none
  | [], _, h => by
    obtain ⟨e, he, _⟩ := h
    cases he
  | e :: es, a, h => by
    rw [List.foldlM_cons]
    by_cases he : g e = true
    · simp [he]
    · obtain ⟨x, hx, hgx⟩ := h
      have hxs : x ∈ es := by
        rcases List.mem_cons.mp hx with hxe | hxs
        · rw [hxe] at hgx
          exact absurd hgx he
        · exact hxs
      rw [if_neg he]
      exact foldlM_guard_fail g step es _ ⟨x, hxs, hgx⟩

/-- With a name of a member of `Object.prototype` among the meals of today,
`mealBreakdown` throws. -/
theorem mealBreakdown_throws (todayStr : String) (entries : List Entry)
    (h : ∃ e ∈ todayEntries todayStr entries, isPlainKey (mealOf e) = false) :
    mealBreakdown todayStr entries = none :=
  foldlM_guard_fail (fun e : Entry => objectPrototypeKeys.contains (mealOf e))
    (fun bd e =>
      setItem (mealOf e)
        ({ entries := (bucketOr (getItem (mealOf e) bd)).entries ++ [e],
           cal := Number.fadd (bucketOr (getItem (mealOf e) bd)).cal e.calories } :
          MealBucket) bd)
    (todayEntries todayStr entries) _
    (by
      obtain ⟨e, he, hk⟩ := h
      exact ⟨e, he, by simpa [isPlainKey] using hk⟩)

/-- Without names of members of `Object.prototype`, `mealBreakdown` is its loop. -/
theorem mealBreakdown_eq (todayStr : String) (entries : List Entry)
    (hplain : ∀ e ∈ todayEntries todayStr entries, isPlainKey (mealOf e) = true) :
    mealBreakdown todayStr entries =
      some
        ((todayEntries todayStr entries).foldl
          (fun bd e =>
            setItem (mealOf e)
              ({ entries := (bucketOr (getItem (mealOf e) bd)).entries ++ [e],
                 cal := Number.fadd (bucketOr (getItem (mealOf e) bd)).cal e.calories } : MealBucket) bd)
          (MEALS.foldl
            (fun bd m => setItem m ({ entries := [], cal := .fin 0 } : MealBucket) bd) [])) :=
  foldlM_guard (fun e : Entry => objectPrototypeKeys.contains (mealOf e))
    (fun bd e =>
      setItem (mealOf e)
        ({ entries := (bucketOr (getItem (mealOf e) bd)).entries ++ [e],
           cal := Number.fadd (bucketOr (getItem (mealOf e) bd)).cal e.calories } : MealBucket) bd)
    (todayEntries todayStr entries) _
    (fun e he => by
      have h := hplain e he
      simpa [isPlainKey] using h)

/-- The loop of `mealBreakdown` on the entries of one bucket. -/
theorem foldl_bucket (ms : List Entry) :
    ∀ b : MealBucket,
      ms.foldl
          (fun (v : Option MealBucket) (e : Entry) =>
            some
              ({ entries := (bucketOr v).entries ++ [e],
                 cal := Number.fadd (bucketOr v).cal e.calories } : MealBucket))
          (some b) =
        some
          { entries := b.entries ++ ms,
            cal := ms.foldl (fun s e => Number.fadd s e.calories) b.cal } := by
  induction ms with
  | nil => intro b; simp
  | cons e ms ih =>
    intro b
    rw [List.foldl_cons, ih]
    simp [bucketOr]

/-- The bucket under a name in `mealBreakdown`. -/
theorem getItem_mealBreakdown (todayStr : String) (entries : List Entry)
    (bd : List (String × MealBucket)) (hbd : mealBreakdown todayStr entries = some bd)
    (hplain : ∀ e ∈ todayEntries todayStr entries, isPlainKey (mealOf e) = true)
    (k : String) :
    getItem k bd =
      if k ∈ MEALS ∨ ∃ e ∈ todayEntries todayStr entries, mealOf e = k then
        some
          { entries := (todayEntries todayStr entries).filter (fun e => mealOf e == k),
            cal :=
              ((todayEntries todayStr entries).filter (fun e => mealOf e == k)).foldl
                (fun s e => Number.fadd s e.calories) (.fin 0) }
      else none := by
  rw [mealBreakdown_eq todayStr entries hplain, Option.some.injEq] at hbd
  rw [← hbd]
  rw [getItem_foldl mealOf
      (fun (e : Entry) (v : Option MealBucket) =>
        ({ entries := (bucketOr v).entries ++ [e],
           cal := Number.fadd (bucketOr v).cal e.calories } : MealBucket))
      k (todayEntries todayStr entries), meals_init]
  by_cases hk : k ∈ MEALS
  · have hi :
        getItem k
            [("breakfast", ({ entries := [], cal := .fin 0 } : MealBucket)),
             ("lunch", { entries := [], cal := .fin 0 }),
             ("dinner", { entries := [], cal := .fin 0 }),
             ("snack", { entries := [], cal := .fin 0 })] =
          some { entries := [], cal := .fin 0 } := by
      simp only [MEALS, List.mem_cons, List.mem_singleton, List.not_mem_nil, or_false] at hk
      rcases hk with hk | hk | hk | hk <;> subst hk <;> simp [getItem]
    rw [hi, foldl_bucket, if_pos (Or.inl hk)]
    simp
  · have hk' := hk
    simp only [MEALS, List.mem_cons, List.mem_singleton, List.not_mem_nil, or_false,
      not_or] at hk'
    have hi :
        getItem k
            [("breakfast", ({ entries := [], cal := .fin 0 } : MealBucket)),
             ("lunch", { entries := [], cal := .fin 0 }),
             ("dinner", { entries := [], cal := .fin 0 }),
             ("snack", { entries := [], cal := .fin 0 })] = none := by
      simp [getItem, Ne.symm hk'.1, Ne.symm hk'.2.1, Ne.symm hk'.2.2.1, Ne.symm hk'.2.2.2]
    rw [hi]
    cases hms : (todayEntries todayStr entries).filter (fun e => mealOf e == k) with
    | nil =>
      have hno : ¬ (k ∈ MEALS ∨ ∃ e ∈ todayEntries todayStr entries, mealOf e = k) := by
        rintro (h1 | ⟨e, he, h1⟩)
        · exact hk h1
        · have : e ∈ (todayEntries todayStr entries).filter (fun e => mealOf e == k) :=
            List.mem_filter.mpr ⟨he, by simp [h1]⟩
          rw [hms] at this
          cases this
      rw [if_neg hno]
      rfl
    | cons e ms =>
      have he : e ∈ (todayEntries todayStr entries).filter (fun e => mealOf e == k) := by
        rw [hms]; exact List.mem_cons_self _ _
      have h1 : mealOf e = k := by simpa using (List.mem_filter.mp he).2
      rw [if_pos (Or.inr ⟨e, (List.mem_filter.mp he).1, h1⟩), List.foldl_cons]
      have h0 : Number.fadd (bucketOr none).cal e.calories =
          Number.fadd (Number.fin 0) e.calories := rfl
      have h00 : (bucketOr none).entries ++ [e] = [e] := rfl
      rw [h0, h00, foldl_bucket]
      simp

theorem nodup_keys_mealBreakdown (todayStr : String) (entries : List Entry)
    (bd : List (String × MealBucket)) (hbd : mealBreakdown todayStr entries = some bd)
    (hplain : ∀ e ∈ todayEntries todayStr entries, isPlainKey (mealOf e) = true) :
    (bd.map Prod.fst).Nodup := by
  rw [mealBreakdown_eq todayStr entries hplain, Option.some.injEq] at hbd
  rw [← hbd]
  exact
    nodup_keys_foldl mealOf
      (fun (e : Entry) (v : Option MealBucket) =>
        ({ entries := (bucketOr v).entries ++ [e],
           cal := Number.fadd (bucketOr v).cal e.calories } : MealBucket))
      (todayEntries todayStr entries)
      (MEALS.foldl (fun bd m => setItem m ({ entries := [], cal := .fin 0 } : MealBucket) bd) [])
      (by rw [meals_init]; decide)

theorem mem_of_getItem {α : Type} (k : String) (v : α) :
    ∀ obj : List (String × α), getItem k obj = some v → (k, v) ∈ obj
  | [], h => by simp [getItem] at h
  | (k1, v1) :: rest, h => by
    by_cases h1 : k1 = k
    · simp only [getItem, h1, if_true, Option.some.injEq] at h
      rw [h1, h]; exact List.mem_cons_self _ _
    · simp only [getItem, h1, if_false] at h
      exact List.mem_cons_of_mem _ (mem_of_getItem k v rest h)

/-! ## Meal breakdown: results -/

/-- C23 (amended): when no meal of an entry of today is a name of a member of
`Object.prototype`, `mealBreakdown` returns buckets with one bucket per name, among them
the four meals; an entry of today is in the bucket named by its meal when that is a
non-empty text (also when it is none of the four meals) and in the bucket `snack` when the
meal is missing or empty; a bucket holds exactly the entries of today with its name, in
the order of the list, and its `cal` is their calories added to 0 one after the other in
that order, each sum rounded to a double.  When the meal of an entry of today is a name of
a member of `Object.prototype`, such as `constructor`, `mealBreakdown` throws a
`TypeError` and returns nothing. -/
theorem mealBreakdown_spec (todayStr : String) (entries : List Entry) :
    ((∀ e ∈ todayEntries todayStr entries, isPlainKey (mealOf e) = true) →
      ∃ bd, mealBreakdown todayStr entries = some bd ∧
        (bd.map Prod.fst).Nodup ∧
        (∀ m ∈ MEALS, m ∈ bd.map Prod.fst) ∧
        (∀ e : Entry, mealOf e =
            if e.meal = none ∨ e.meal = some "" then "snack" else e.meal.getD "snack") ∧
        (∀ e ∈ entries, e.date = todayStr → ∃ b, (mealOf e, b) ∈ bd ∧ e ∈ b.entries) ∧
        (∀ k b, (k, b) ∈ bd →
          b.entries = entries.filter (fun e => e.date == todayStr && mealOf e == k) ∧
          b.cal = b.entries.foldl (fun s e => Number.fadd s e.calories) (.fin 0))) ∧
    ((∃ e ∈ todayEntries todayStr entries, isPlainKey (mealOf e) = false) →
      mealBreakdown todayStr entries = none) := by
  refine ⟨?_, mealBreakdown_throws todayStr entries⟩
  intro hplain
  refine ⟨_, mealBreakdown_eq todayStr entries hplain, ?_⟩
  have hbd := mealBreakdown_eq todayStr entries hplain
  have hget := getItem_mealBreakdown todayStr entries _ hbd hplain
  have hnd := nodup_keys_mealBreakdown todayStr entries _ hbd hplain
  have hff : ∀ k, (todayEntries todayStr entries).filter (fun e => mealOf e == k) =
      entries.filter (fun e => e.date == todayStr && mealOf e == k) := by
    intro k
    rw [todayEntries, List.filter_filter]
    congr 1
    funext e
    exact Bool.and_comm _ _
  refine ⟨hnd, ?_, ?_, ?_, ?_⟩
  · intro m hm
    have h1 := hget m
    rw [if_pos (Or.inl hm)] at h1
    exact List.mem_map.mpr ⟨_, mem_of_getItem _ _ _ h1, rfl⟩
  · intro e
    cases hm : e.meal with
    | none => simp [mealOf, hm]
    | some m =>
      by_cases h0 : m = ""
      · simp [mealOf, hm, h0]
      · simp [mealOf, hm, h0]
  · intro e he hd
    have hte : e ∈ todayEntries todayStr entries :=
      List.mem_filter.mpr ⟨he, by simp [hd]⟩
    have h1 := hget (mealOf e)
    rw [if_pos (Or.inr ⟨e, hte, rfl⟩)] at h1
    exact ⟨_, mem_of_getItem _ _ _ h1, List.mem_filter.mpr ⟨hte, by simp⟩⟩
  · intro k b hb
    have h1 := getItem_of_mem k b _ hnd hb
    rw [hget k] at h1
    by_cases hc : k ∈ MEALS ∨ ∃ e ∈ todayEntries todayStr entries, mealOf e = k
    · rw [if_pos hc, Option.some.injEq] at h1
      rw [← h1, hff k]
      exact ⟨rfl, rfl⟩
    · rw [if_neg hc] at h1
      cases h1

/-- Witness of C23: a lunch and an entry without meal today, a dinner yesterday; and an
entry of today with the meal `constructor`. -/
theorem mealBreakdown_spec_witness :
    (∀ e ∈ todayEntries "5.11.2026"
        [sampleEntry 1 300 "5.11.2026" (some "lunch"), sampleEntry 2 120 "5.11.2026" none,
          sampleEntry 3 500 "4.11.2026" (some "dinner")],
      isPlainKey (mealOf e) = true) ∧
    (∃ bd,
      mealBreakdown "5.11.2026"
        [sampleEntry 1 300 "5.11.2026" (some "lunch"), sampleEntry 2 120 "5.11.2026" none,
          sampleEntry 3 500 "4.11.2026" (some "dinner")] = some bd ∧
      (bd.map Prod.fst).Nodup) ∧
    mealBreakdown "5.11.2026" [sampleEntry 1 300 "5.11.2026" (some "constructor")] = none :=
  ⟨by decide,
    ((mealBreakdown_spec "5.11.2026"
      [sampleEntry 1 300 "5.11.2026" (some "lunch"), sampleEntry 2 120 "5.11.2026" none,
        sampleEntry 3 500 "4.11.2026" (some "dinner")]).1 (by decide)).imp
      (fun _ h => ⟨h.1, h.2.1⟩),
    (mealBreakdown_spec "5.11.2026"
      [sampleEntry 1 300 "5.11.2026" (some "constructor")]).2
      ⟨sampleEntry 1 300 "5.11.2026" (some "constructor"), by decide, by decide⟩⟩

/-- Counterexample to C23: an entry of today whose meal is the unknown slot `brunch` is put
in a bucket `brunch` of its own, and the bucket `snack` stays empty. -/
theorem mealBreakdown_unknown_counterexample :
    mealBreakdown "5.11.2026" [sampleEntry 1 300 "5.11.2026" (some "brunch")] =
      some
        [("breakfast", { entries := [], cal := .fin 0 }),
         ("lunch", { entries := [], cal := .fin 0 }),
         ("dinner", { entries := [], cal := .fin 0 }),
         ("snack", { entries := [], cal := .fin 0 }),
         ("brunch",
           { entries := [sampleEntry 1 300 "5.11.2026" (some "brunch")], cal := .fin 300 })] := by
  decide!

/-! ## Weekly statistics -/

/-- The days with data among days whose calories are finite. -/
theorem filter_withData :
    ∀ (ds : List DayStat) (ts : List ℚ), ds.map (fun d => d.cal) = ts.map Number.fin →
      (ds.filter (fun d => d.cal.gt (.fin 0))).map (fun d => d.cal) =
        (ts.filter (fun t => decide (0 < t))).map Number.fin
  | [], [], _ => rfl
  | [], _ :: _, h => by simp at h
  | _ :: _, [], h => by simp at h
  | d :: ds, t :: ts, h => by
    rw [List.map_cons, List.map_cons, List.cons.injEq] at h
    have ih := filter_withData ds ts h.2
    have hd : d.cal = .fin t := h.1
    have hgt : d.cal.gt (.fin 0) = decide (0 < t) := by
      rw [hd]; rfl
    by_cases ht : 0 < t
    · have h2 : decide (0 < t) = true := by simpa using ht
      have h1 : d.cal.gt (.fin 0) = true := by rw [hgt]; exact h2
      have e1 : (d :: ds).filter (fun d => d.cal.gt (.fin 0)) =
          d :: ds.filter (fun d => d.cal.gt (.fin 0)) := by
        simp only [List.filter_cons, h1, if_true]
      have e2 : (t :: ts).filter (fun t => decide (0 < t)) =
          t :: ts.filter (fun t => decide (0 < t)) := by
        simp only [List.filter_cons, h2, if_true]
      rw [e1, e2, List.map_cons, List.map_cons, ih, hd]
    · have h2 : decide (0 < t) = false := by simpa using ht
      have h1 : d.cal.gt (.fin 0) = false := by rw [hgt]; exact h2
      have e1 : (d :: ds).filter (fun d => d.cal.gt (.fin 0)) =
          ds.filter (fun d => d.cal.gt (.fin 0)) := by
        simp [List.filter_cons, h1]
      have e2 : (t :: ts).filter (fun t => decide (0 < t)) =
          ts.filter (fun t => decide (0 < t)) := by
        simp [List.filter_cons, ht]
      rw [e1, e2, ih]

/-- The sum loop over days whose calories are finite. -/
theorem foldl_days :
    ∀ (ds : List DayStat) (ts : List ℚ), ds.map (fun d => d.cal) = ts.map Number.fin →
      ∀ q : ℚ, ds.foldl (fun s d => s + d.cal) (.fin q) = .fin (q + ts.sum)
  | [], [], _, q => by simp
  | [], _ :: _, h, _ => by simp at h
  | _ :: _, [], h, _ => by simp at h
  | d :: ds, t :: ts, h, q => by
    rw [List.map_cons, List.map_cons, List.cons.injEq] at h
    have hd : d.cal = .fin t := h.1
    rw [List.foldl_cons, hd, fin_add, foldl_days ds ts h.2, List.sum_cons, add_assoc]

/-- The value of `weeklyStats` on entries with finite calories. -/
theorem weeklyStats_formula (daysAgo : Nat → String) (entries : List Entry)
    (hfin : ∀ e ∈ entries, ∃ q, e.calories = .fin q) :
    (weeklyStats daysAgo entries).days.map (fun d => d.date) =
      [6, 5, 4, 3, 2, 1, 0].map daysAgo ∧
    (weeklyStats daysAgo entries).days.map (fun d => d.isToday) =
      [false, false, false, false, false, false, true] ∧
    (weeklyStats daysAgo entries).days.map (fun d => d.cal) =
      (weekTotals daysAgo entries).map Number.fin ∧
    (weeklyStats daysAgo entries).daysWithData = (weekTotalsWithData daysAgo entries).length ∧
    (weeklyStats daysAgo entries).avg =
      (if (weekTotalsWithData daysAgo entries).length > 0 then
        Number.round
          (.fin ((weekTotalsWithData daysAgo entries).sum /
            (weekTotalsWithData daysAgo entries).length))
      else .fin 0) ∧
    (weeklyStats daysAgo entries).total = .fin (weekTotals daysAgo entries).sum := by
  have hcal : (weeklyStats daysAgo entries).days.map (fun d => d.cal) =
      (weekTotals daysAgo entries).map Number.fin := by
    simp only [weeklyStats, weekTotals, List.map_map]
    apply List.map_congr_left
    intro i _
    exact orZero_dailyCalories entries (daysAgo i) hfin
  have hwd := filter_withData _ _ hcal
  have hlen : (weeklyStats daysAgo entries).daysWithData =
      (weekTotalsWithData daysAgo entries).length := by
    have := congrArg List.length hwd
    rw [List.length_map, List.length_map] at this
    exact this
  refine ⟨?_, ?_, hcal, hlen, ?_, ?_⟩
  · simp only [weeklyStats, List.map_map]
    rfl
  · simp only [weeklyStats, List.map_map]
    rfl
  · have hlen2 : ((weeklyStats daysAgo entries).days.filter
        (fun d => d.cal.gt (.fin 0))).length =
        (weekTotalsWithData daysAgo entries).length := hlen
    have hsum := foldl_days _ _ hwd 0
    rw [zero_add] at hsum
    have havg : (weeklyStats daysAgo entries).avg =
        if ((weeklyStats daysAgo entries).days.filter
            (fun d => d.cal.gt (.fin 0))).length > 0 then
          Number.round
            (((weeklyStats daysAgo entries).days.filter
                (fun d => d.cal.gt (.fin 0))).foldl (fun s d => s + d.cal) (.fin 0) /
              .fin (((weeklyStats daysAgo entries).days.filter
                (fun d => d.cal.gt (.fin 0))).length : ℚ))
        else .fin 0 := rfl
    rw [havg, hlen2, hsum]
    by_cases hpos : (weekTotalsWithData daysAgo entries).length > 0
    · rw [if_pos hpos, if_pos hpos, fin_div]
      · rfl
      · exact_mod_cast (Nat.pos_iff_ne_zero.mp hpos)
    · rw [if_neg hpos, if_neg hpos]
  · have hsum := foldl_days _ _ hcal 0
    rw [zero_add] at hsum
    exact hsum

theorem weekTotals_example :
    weekTotals sampleWeek
      [sampleEntry 1 300 "5.11.2026" none, sampleEntry 2 500 "3.11.2026" none] =
        [0, 0, 0, 0, 500, 0, 300] := by
  simp [weekTotals, dayTotal, sampleWeek, sampleEntry, calOf]

theorem weekTotals_example_half :
    weekTotals sampleWeek
      [sampleEntry 1 300 "5.11.2026" none, sampleEntry 2 501 "3.11.2026" none] =
        [0, 0, 0, 0, 501, 0, 300] := by
  simp [weekTotals, dayTotal, sampleWeek, sampleEntry, calOf]

theorem sampleEntry_fin (id : Nat) (cal : ℚ) (date : String) (meal : Option String) :
    (sampleEntry id cal date meal).calories = .fin cal := rfl

/-! ## Weekly statistics: results -/

/-- C22 (amended): for entries with finite calories and a week whose date texts are no
names of members of `Object.prototype`, `weeklyStats` lists the seven days from six days
ago to today, the last one marked as today, each with the sum of the calories of the
entries of that date (0 without entries); `daysWithData` is the number of days whose total
is above 0; `avg` is the average of the totals of those days rounded to the nearest
integer, halves up (0 when there is no such day); `total` is the sum of the seven
totals. -/
theorem weeklyStats_spec (daysAgo : Nat → String) (entries : List Entry)
    (_hplain : ∀ i, i ≤ 6 → isPlainKey (daysAgo i) = true)
    (hfin : ∀ e ∈ entries, ∃ q, e.calories = .fin q) :
    (weeklyStats daysAgo entries).days.map (fun d => d.date) =
      [6, 5, 4, 3, 2, 1, 0].map daysAgo ∧
    (weeklyStats daysAgo entries).days.map (fun d => d.isToday) =
      [false, false, false, false, false, false, true] ∧
    (weeklyStats daysAgo entries).days.map (fun d => d.cal) =
      (weekTotals daysAgo entries).map Number.fin ∧
    (weeklyStats daysAgo entries).daysWithData = (weekTotalsWithData daysAgo entries).length ∧
    (weeklyStats daysAgo entries).avg =
      (if (weekTotalsWithData daysAgo entries).length > 0 then
        Number.round
          (.fin ((weekTotalsWithData daysAgo entries).sum /
            (weekTotalsWithData daysAgo entries).length))
      else .fin 0) ∧
    (weeklyStats daysAgo entries).total = .fin (weekTotals daysAgo entries).sum :=
  weeklyStats_formula daysAgo entries hfin

/-- Witness of C22, the example of the specification: totals of 300 and 500 on two of the
seven days give the average 400 and two days with data. -/
theorem weeklyStats_spec_witness :
    (∀ i, i ≤ 6 → isPlainKey (sampleWeek i) = true) ∧
    (∀ e ∈ [sampleEntry 1 300 "5.11.2026" none, sampleEntry 2 500 "3.11.2026" none],
      ∃ q, e.calories = .fin q) ∧
    (weeklyStats sampleWeek
      [sampleEntry 1 300 "5.11.2026" none, sampleEntry 2 500 "3.11.2026" none]).avg =
        .fin 400 ∧
    (weeklyStats sampleWeek
      [sampleEntry 1 300 "5.11.2026" none, sampleEntry 2 500 "3.11.2026" none]).daysWithData =
        2 := by
  have hp : ∀ i, i ≤ 6 → isPlainKey (sampleWeek i) = true := by decide
  have hf : ∀ e ∈ [sampleEntry 1 300 "5.11.2026" none, sampleEntry 2 500 "3.11.2026" none],
      ∃ q, e.calories = .fin q := by
    intro e he
    simp only [List.mem_cons, List.mem_singleton, List.not_mem_nil, or_false] at he
    rcases he with he | he <;> subst he <;> exact ⟨_, rfl⟩
  have h := weeklyStats_spec sampleWeek _ hp hf
  have ht : weekTotalsWithData sampleWeek
      [sampleEntry 1 300 "5.11.2026" none, sampleEntry 2 500 "3.11.2026" none] =
        [500, 300] := by
    rw [weekTotalsWithData, weekTotals_example]
    simp
  refine ⟨hp, hf, ?_, ?_⟩
  · rw [h.2.2.2.2.1, ht]
    simp only [List.length_cons, List.length_nil, List.sum_cons, List.sum_nil, Number.round]
    norm_num
  · rw [h.2.2.2.1, ht]
    rfl

/-- Counterexample to C22: with totals of 300 and 501 on two of the seven days the average
of the days with data is 400.5, and `avg` is 401. -/
theorem weeklyStats_avg_counterexample :
    (weeklyStats sampleWeek
      [sampleEntry 1 300 "5.11.2026" none, sampleEntry 2 501 "3.11.2026" none]).avg =
        .fin 401 ∧
    weekTotalsWithData sampleWeek
      [sampleEntry 1 300 "5.11.2026" none, sampleEntry 2 501 "3.11.2026" none] =
        [501, 300] ∧
    (([501, 300] : List ℚ).sum / (([501, 300] : List ℚ).length : ℚ)) = 801 / 2 := by
  have hf : ∀ e ∈ [sampleEntry 1 300 "5.11.2026" none, sampleEntry 2 501 "3.11.2026" none],
      ∃ q, e.calories = .fin q := by
    intro e he
    simp only [List.mem_cons, List.mem_singleton, List.not_mem_nil, or_false] at he
    rcases he with he | he <;> subst he <;> exact ⟨_, rfl⟩
  have h := weeklyStats_formula sampleWeek _ hf
  have ht : weekTotalsWithData sampleWeek
      [sampleEntry 1 300 "5.11.2026" none, sampleEntry 2 501 "3.11.2026" none] =
        [501, 300] := by
    rw [weekTotalsWithData, weekTotals_example_half]
    simp
  refine ⟨?_, ht, by norm_num⟩
  rw [h.2.2.2.2.1, ht]
  simp only [List.length_cons, List.length_nil, List.sum_cons, List.sum_nil, Number.round]
  norm_num

/-! ## Weight trend -/

/-- The early return of `graphData` for no logs agrees with its general case. -/
theorem graphData_eq (weightLogs : List WeightLog) (entries : List Entry) :
    graphData weightLogs entries =
      (weightLogs.insertionSort (fun a b => a.ts ≤ b.ts)).map
        (fun l =>
          { date := l.date, weight := l.weight, ts := l.ts,
            cal := orNull (getItem l.date (dailyCalories entries)) }) := by
  cases weightLogs with
  | nil => rfl
  | cons l ls =>
    have h : ¬ (l :: ls).length = 0 := by simp
    simp only [graphData, h, if_false]

theorem graphData_logs (weightLogs : List WeightLog) (entries : List Entry) :
    (graphData weightLogs entries).map GraphPoint.log =
      weightLogs.insertionSort (fun a b => a.ts ≤ b.ts) := by
  rw [graphData_eq, List.map_map]
  have h : (GraphPoint.log ∘ fun l : WeightLog =>
      ({ date := l.date, weight := l.weight, ts := l.ts,
         cal := orNull (getItem l.date (dailyCalories entries)) } : GraphPoint)) = id := by
    funext l
    rfl
  rw [h, List.map_id]

theorem graphData_cal (weightLogs : List WeightLog) (entries : List Entry)
    (hfin : ∀ e ∈ entries, ∃ q, e.calories = .fin q) :
    ∀ p ∈ graphData weightLogs entries,
      p.cal =
        if dayTotal entries p.date = 0 then none
        else some (.fin (dayTotal entries p.date)) := by
  intro p hp
  rw [graphData_eq] at hp
  obtain ⟨l, _, hl⟩ := List.mem_map.mp hp
  rw [← hl]
  exact orNull_dailyCalories entries l.date hfin

/-! ## Weight trend: results -/

/-- C25 (amended): for entries with finite calories and weight logs whose date texts are
no names of members of `Object.prototype`, `graphData` is the weight logs in a permutation
that is sorted by ascending `ts`, of the same length and empty without logs, and each
point has as `cal` the sum of the calories of the entries of its date when that sum is not
0, and `null` when it is 0, as it is without entries of that date. -/
theorem graphData_spec (weightLogs : List WeightLog) (entries : List Entry)
    (_hplain : ∀ l ∈ weightLogs, isPlainKey l.date = true)
    (hfin : ∀ e ∈ entries, ∃ q, e.calories = .fin q) :
    (graphData weightLogs entries).map GraphPoint.log ~ weightLogs ∧
    (graphData weightLogs entries).Pairwise (fun a b => a.ts ≤ b.ts) ∧
    (graphData weightLogs entries).length = weightLogs.length ∧
    (weightLogs = [] → graphData weightLogs entries = []) ∧
    (∀ p ∈ graphData weightLogs entries,
      p.cal =
        if dayTotal entries p.date = 0 then none
        else some (.fin (dayTotal entries p.date))) ∧
    (∀ p ∈ graphData weightLogs entries,
      (entries.filter (fun e => e.date == p.date) = [] → p.cal = none)) := by
  have hlogs := graphData_logs weightLogs entries
  have hperm : (graphData weightLogs entries).map GraphPoint.log ~ weightLogs := by
    rw [hlogs]; exact List.perm_insertionSort _ _
  have hcal := graphData_cal weightLogs entries hfin
  refine ⟨hperm, ?_, ?_, ?_, hcal, ?_⟩
  · have hs : (weightLogs.insertionSort (fun a b => a.ts ≤ b.ts)).Pairwise
        (fun a b => a.ts ≤ b.ts) := List.sorted_insertionSort _ _
    rw [← hlogs, List.pairwise_map] at hs
    exact hs
  · have := hperm.length_eq
    rw [List.length_map] at this
    exact this
  · intro h
    rw [h]
    rfl
  · intro p hp hnone
    rw [hcal p hp]
    have h0 : dayTotal entries p.date = 0 := by
      rw [dayTotal, hnone]; rfl
    rw [if_pos h0]

/-- Witness of C25: two logs in the order of their creation reversed, entries on the date
of one of them. -/
theorem graphData_spec_witness :
    (∀ l ∈ [(⟨"5.11.2026", .fin 80, 20⟩ : WeightLog), ⟨"3.11.2026", .fin 81, 10⟩],
      isPlainKey l.date = true) ∧
    (∀ e ∈ [sampleEntry 1 300 "5.11.2026" none, sampleEntry 2 500 "5.11.2026" none],
      ∃ q, e.calories = .fin q) ∧
    graphData [⟨"5.11.2026", .fin 80, 20⟩, ⟨"3.11.2026", .fin 81, 10⟩]
      [sampleEntry 1 300 "5.11.2026" none, sampleEntry 2 500 "5.11.2026" none] =
        [⟨"3.11.2026", .fin 81, 10, none⟩, ⟨"5.11.2026", .fin 80, 20, some (.fin 800)⟩] ∧
    (graphData [⟨"5.11.2026", .fin 80, 20⟩, ⟨"3.11.2026", .fin 81, 10⟩]
      [sampleEntry 1 300 "5.11.2026" none, sampleEntry 2 500 "5.11.2026" none]).Pairwise
        (fun a b => a.ts ≤ b.ts) := by
  have hp : ∀ l ∈ [(⟨"5.11.2026", .fin 80, 20⟩ : WeightLog), ⟨"3.11.2026", .fin 81, 10⟩],
      isPlainKey l.date = true := by
    intro l hl
    simp only [List.mem_cons, List.mem_singleton, List.not_mem_nil, or_false] at hl
    rcases hl with hl | hl <;> subst hl <;> decide
  have hf : ∀ e ∈ [sampleEntry 1 300 "5.11.2026" none, sampleEntry 2 500 "5.11.2026" none],
      ∃ q, e.calories = .fin q := by
    intro e he
    simp only [List.mem_cons, List.mem_singleton, List.not_mem_nil, or_false] at he
    rcases he with he | he <;> subst he <;> exact ⟨_, rfl⟩
  refine ⟨hp, hf, ?_, (graphData_spec _ _ hp hf).2.1⟩
  have hs : ([⟨"5.11.2026", .fin 80, 20⟩, ⟨"3.11.2026", .fin 81, 10⟩] :
      List WeightLog).insertionSort (fun a b => a.ts ≤ b.ts) =
        [⟨"3.11.2026", .fin 81, 10⟩, ⟨"5.11.2026", .fin 80, 20⟩] := by
    simp [List.insertionSort, List.orderedInsert]
  have h3 : dayTotal [sampleEntry 1 300 "5.11.2026" none, sampleEntry 2 500 "5.11.2026" none]
      "3.11.2026" = 0 := by
    simp [dayTotal, sampleEntry, calOf]
  have h5 : dayTotal [sampleEntry 1 300 "5.11.2026" none, sampleEntry 2 500 "5.11.2026" none]
      "5.11.2026" = 800 := by
    simp [dayTotal, sampleEntry, calOf]
    norm_num
  rw [graphData_eq, hs]
  simp only [List.map]
  rw [orNull_dailyCalories _ _ hf, orNull_dailyCalories _ _ hf, h3, h5]
  simp

/-- Counterexample to C25: an entry of 0 kcal is logged on the date of a weight log, and
the point of that log has `null` as `cal`, not the sum 0. -/
theorem graphData_zero_counterexample :
    graphData [⟨"5.11.2026", .fin 80, 20⟩] [sampleEntry 1 0 "5.11.2026" none] =
      [⟨"5.11.2026", .fin 80, 20, none⟩] ∧
    [sampleEntry 1 0 "5.11.2026" none].filter (fun e => e.date == "5.11.2026") =
      [sampleEntry 1 0 "5.11.2026" none] ∧
    dayTotal [sampleEntry 1 0 "5.11.2026" none] "5.11.2026" = 0 := by
  have hf : ∀ e ∈ [sampleEntry 1 0 "5.11.2026" none], ∃ q, e.calories = .fin q := by
    intro e he
    simp only [List.mem_singleton] at he
    subst he
    exact ⟨_, rfl⟩
  refine ⟨?_, ?_, ?_⟩
  · have h0 : dayTotal [sampleEntry 1 0 "5.11.2026" none] "5.11.2026" = 0 := by
      simp [dayTotal, sampleEntry, calOf]
    rw [graphData_eq]
    simp only [List.insertionSort, List.orderedInsert, List.map]
    rw [orNull_dailyCalories _ _ hf, h0]
    simp
  · simp [sampleEntry]
  · simp [dayTotal, sampleEntry, calOf]

/-! ## Lemmas on numerals -/

theorem isDigit_toNat (c : Char) (h : c.isDigit = true) : 48 ≤ c.toNat ∧ c.toNat ≤ 57 := by
  simp only [Char.isDigit, Bool.and_eq_true, decide_eq_true_eq] at h
  exact ⟨h.1, h.2⟩

theorem isWhiteSpace_digit (c : Char) (h : c.isDigit = true) : isWhiteSpace c = false := by
  have hb := isDigit_toNat c h
  unfold isWhiteSpace
  simp
  omega

theorem dropWhile_of_head {p : Char → Bool} (c : Char) (cs : List Char) (h : p c = false) :
    (c :: cs).dropWhile p = c :: cs := by
  simp [List.dropWhile, h]

theorem trim_digits (ds : List Char) (hall : ∀ c ∈ ds, c.isDigit = true) : trim ds = ds := by
  unfold trim
  have h1 : ds.dropWhile isWhiteSpace = ds := by
    cases ds with
    | nil => rfl
    | cons c cs => exact dropWhile_of_head c cs (isWhiteSpace_digit c (hall c (List.mem_cons_self _ _)))
  rw [h1]
  have h2 : ds.reverse.dropWhile isWhiteSpace = ds.reverse := by
    cases hr : ds.reverse with
    | nil => rfl
    | cons c cs =>
      have hc : c ∈ ds := by
        rw [← List.mem_reverse, hr]; exact List.mem_cons_self _ _
      exact dropWhile_of_head c cs (isWhiteSpace_digit c (hall c hc))
  rw [h2, List.reverse_reverse]

theorem takeWhile_digits (ds : List Char) (hall : ∀ c ∈ ds, c.isDigit = true) :
    ds.takeWhile Char.isDigit = ds :=
  List.takeWhile_eq_self_iff.mpr hall

theorem dropWhile_digits (ds : List Char) (hall : ∀ c ∈ ds, c.isDigit = true) :
    ds.dropWhile Char.isDigit = [] :=
  List.dropWhile_eq_nil_iff.mpr hall

theorem nonDecimalLiteral_digits (ds : List Char) (hall : ∀ c ∈ ds, c.isDigit = true) :
    nonDecimalLiteral ds = none := by
  match ds, hall with
  | [], _ => rfl
  | [_], _ => rfl
  | c :: x :: rest, hall =>
    have hx := isDigit_toNat x (hall x (by simp))
    have h1 : x ≠ 'x' := fun e => by rw [e] at hx; revert hx; decide
    have h2 : x ≠ 'X' := fun e => by rw [e] at hx; revert hx; decide
    have h3 : x ≠ 'o' := fun e => by rw [e] at hx; revert hx; decide
    have h4 : x ≠ 'O' := fun e => by rw [e] at hx; revert hx; decide
    have h5 : x ≠ 'b' := fun e => by rw [e] at hx; revert hx; decide
    have h6 : x ≠ 'B' := fun e => by rw [e] at hx; revert hx; decide
    simp [nonDecimalLiteral, h1, h2, h3, h4, h5, h6]

theorem scanNumber_digits (c : Char) (cs : List Char)
    (hall : ∀ x ∈ c :: cs, x.isDigit = true) :
    scanNumber (c :: cs) = .decimal false (digitsValue (c :: cs)) 0 ∧
      literalRest (c :: cs) = [] := by
  have hc := isDigit_toNat c (hall c (List.mem_cons_self _ _))
  have hws := isWhiteSpace_digit c (hall c (List.mem_cons_self _ _))
  have h1 : c ≠ '+' := fun e => by rw [e] at hc; revert hc; decide
  have h2 : c ≠ '-' := fun e => by rw [e] at hc; revert hc; decide
  have h3 : c ≠ 'I' := fun e => by rw [e] at hc; revert hc; decide
  have htk := takeWhile_digits _ hall
  have hdr := dropWhile_digits _ hall
  have h3s : ¬ 'I' = c := fun e => h3 e.symm
  constructor
  · simp [scanNumber, dropWhile_of_head c cs hws, h1, h2, h3s, htk, hdr, exponentPart]
  · simp [literalRest, dropWhile_of_head c cs hws, h1, h2, h3s, htk, hdr, exponentRest]

theorem toNumber_digits (ds : List Char) (hne : ds ≠ [])
    (hall : ∀ c ∈ ds, c.isDigit = true) (hlt : digitsValue ds < 2 ^ 53) :
    toNumber ds = .fin (digitsValue ds) := by
  cases ds with
  | nil => exact absurd rfl hne
  | cons c cs =>
    have hs := scanNumber_digits c cs hall
    unfold toNumber
    rw [trim_digits _ hall, nonDecimalLiteral_digits _ hall, hs.2]
    simp [parseFloatString, hs.1, roundDouble_natCast _ hlt]

theorem digitsValue_append (ds : List Char) (c : Char) :
    digitsValue (ds ++ [c]) = 10 * digitsValue ds + (c.toNat - 48) := by
  simp [digitsValue, List.foldl_append]

theorem digitsValue_eq_ofDigits (ds : List Char) :
    digitsValue ds = Nat.ofDigits 10 (ds.reverse.map (fun c => c.toNat - 48)) := by
  induction ds using List.reverseRecOn with
  | nil => rfl
  | append_singleton ds c ih =>
    rw [digitsValue_append, List.reverse_append, List.reverse_singleton, List.singleton_append,
      List.map_cons, Nat.ofDigits_cons, ih]
    ring

theorem isNumeral_iff (ds : List Char) :
    isNumeral ds = true ↔
      ds ≠ [] ∧ (∀ c ∈ ds, c.isDigit = true) ∧ ds.head? ≠ some '0' := by
  simp [isNumeral, and_assoc]

theorem char_eq_of_toNat (c : Char) (n : Nat) (h : c.toNat = n) : c = Char.ofNat n := by
  rw [← h, Char.ofNat_toNat]

/-- The digits of the value of a numeral are its characters. -/
theorem digits_of_numeral (ds : List Char) (h : isNumeral ds = true) :
    Nat.digits 10 (digitsValue ds) = ds.reverse.map (fun c => c.toNat - 48) := by
  obtain ⟨hne, hall, hhead⟩ := (isNumeral_iff ds).mp h
  rw [digitsValue_eq_ofDigits]
  apply Nat.digits_ofDigits 10 (by norm_num)
  · intro l hl
    obtain ⟨c, hc, rfl⟩ := List.mem_map.mp hl
    have := isDigit_toNat c (hall c (List.mem_reverse.mp hc))
    omega
  · intro hL
    cases ds with
    | nil => exact absurd rfl hne
    | cons c cs =>
      have hc := isDigit_toNat c (hall c (List.mem_cons_self _ _))
      have hc0 : c ≠ '0' := fun e => hhead (by rw [e]; rfl)
      have h48 : c.toNat ≠ 48 := fun e => hc0 (char_eq_of_toNat c 48 e)
      have hlast : (List.map (fun c => c.toNat - 48) (c :: cs).reverse).getLast hL =
          c.toNat - 48 := by
        simp [List.getLast_append]
      rw [hlast]
      omega

theorem map_digit_inj :
    ∀ a b : List Char, (∀ c ∈ a, c.isDigit = true) → (∀ c ∈ b, c.isDigit = true) →
      a.map (fun c => c.toNat - 48) = b.map (fun c => c.toNat - 48) → a = b
  | [], [], _, _, _ => rfl
  | [], _ :: _, _, _, h => by simp at h
  | _ :: _, [], _, _, h => by simp at h
  | x :: a, y :: b, ha, hb, h => by
    rw [List.map_cons, List.map_cons, List.cons.injEq] at h
    have hx := isDigit_toNat x (ha x (List.mem_cons_self _ _))
    have hy := isDigit_toNat y (hb y (List.mem_cons_self _ _))
    have hxy : x.toNat = y.toNat := by
      have := h.1
      simp only at this
      omega
    have e1 : x = y := by
      rw [char_eq_of_toNat x _ hxy, Char.ofNat_toNat]
    rw [e1, map_digit_inj a b (fun c hc => ha c (List.mem_cons_of_mem _ hc))
      (fun c hc => hb c (List.mem_cons_of_mem _ hc)) h.2]

/-- Numerals of the same number are the same text. -/
theorem numeral_inj (a b : List Char) (ha : isNumeral a = true) (hb : isNumeral b = true)
    (h : digitsValue a = digitsValue b) : a = b := by
  have h1 := digits_of_numeral a ha
  have h2 := digits_of_numeral b hb
  rw [h, h2] at h1
  have ha2 := ((isNumeral_iff a).mp ha).2.1
  have hb2 := ((isNumeral_iff b).mp hb).2.1
  have := map_digit_inj b.reverse a.reverse
    (fun c hc => hb2 c (List.mem_reverse.mp hc)) (fun c hc => ha2 c (List.mem_reverse.mp hc)) h1
  exact (List.reverse_injective this).symm

/-! ## Lemmas on date texts -/

theorem splitChar_ne_nil (sep : Char) : ∀ s : List Char, splitChar sep s ≠ []
  | [] => by simp [splitChar]
  | c :: cs => by
    unfold splitChar
    by_cases h : c = sep
    · simp [h]
    · rw [if_neg h]
      cases splitChar sep cs <;> simp

/-- Joining the parts of a split with the separator gives the string back. -/
theorem intercalate_splitChar (sep : Char) :
    ∀ s : List Char, List.intercalate [sep] (splitChar sep s) = s
  | [] => by simp [splitChar, List.intercalate]
  | c :: cs => by
    have ih := intercalate_splitChar sep cs
    cases hsp : splitChar sep cs with
    | nil => exact absurd hsp (splitChar_ne_nil sep cs)
    | cons p ps =>
      rw [hsp] at ih
      have hc : List.intercalate [sep] (p :: ps) = cs := ih
      by_cases h : c = sep
      · have e : splitChar sep (c :: cs) = [] :: p :: ps := by
          simp [splitChar, h, hsp]
        rw [e, ← hc, h]
        simp [List.intercalate, List.intersperse]
      · have e : splitChar sep (c :: cs) = (c :: p) :: ps := by
          simp [splitChar, h, hsp]
        rw [e, ← hc]
        cases ps <;> simp [List.intercalate, List.intersperse]

theorem splitChar_inj (sep : Char) (s t : List Char) (h : splitChar sep s = splitChar sep t) :
    s = t := by
  rw [← intercalate_splitChar sep s, ← intercalate_splitChar sep t, h]

theorem splitChar_of_not_mem (sep : Char) :
    ∀ s : List Char, sep ∉ s → splitChar sep s = [s]
  | [], _ => rfl
  | c :: cs, h => by
    rw [List.mem_cons, not_or] at h
    have h1 : ¬ c = sep := fun e => h.1 e.symm
    simp [splitChar, h1, splitChar_of_not_mem sep cs h.2]

/-- The parts of a well-formed date text. -/
theorem wellFormed_parts (k : String) (h : isWellFormedDate k = true) :
    ∃ d m y, splitChar '.' k.data = [d, m, y] ∧ isNumeral d = true ∧ isNumeral m = true ∧
      isNumeral y = true ∧ validDate (digitsValue d) (digitsValue m) (digitsValue y) = true := by
  unfold isWellFormedDate at h
  split at h
  · rename_i d m y hsp
    simp only [Bool.and_eq_true] at h
    exact ⟨d, m, y, hsp, h.1.1.1, h.1.1.2, h.1.2, h.2⟩
  · cases h

theorem civilOf_of_parts (k : String) (d m y : List Char)
    (h : splitChar '.' k.data = [d, m, y]) :
    civilOf k = (digitsValue y, digitsValue m, digitsValue d) := by
  simp [civilOf, h]

/-- Well-formed date texts of the same date are the same text. -/
theorem wellFormed_inj (k k1 : String) (h : isWellFormedDate k = true)
    (h1 : isWellFormedDate k1 = true) (hc : civilOf k = civilOf k1) : k = k1 := by
  obtain ⟨d, m, y, hsp, hd, hm, hy, _⟩ := wellFormed_parts k h
  obtain ⟨d1, m1, y1, hsp1, hd1, hm1, hy1, _⟩ := wellFormed_parts k1 h1
  rw [civilOf_of_parts k d m y hsp, civilOf_of_parts k1 d1 m1 y1 hsp1] at hc
  simp only [Prod.mk.injEq] at hc
  have e1 := numeral_inj d d1 hd hd1 hc.2.2
  have e2 := numeral_inj m m1 hm hm1 hc.2.1
  have e3 := numeral_inj y y1 hy hy1 hc.1
  have : k.data = k1.data := by
    apply splitChar_inj '.'
    rw [hsp, hsp1, e1, e2, e3]
  exact String.ext this

/-- The number that the comparator of `allDays` reads from a well-formed date text. -/
theorem dateKey_wellFormed (dateMs : Number → Number → Number → Number) (k : String)
    (h : isWellFormedDate k = true) :
    dateKey dateMs k =
      dateMs (.fin (civilOf k).1) (.fin (((civilOf k).2.1 : ℚ) - 1)) (.fin (civilOf k).2.2) := by
  obtain ⟨d, m, y, hsp, hd, hm, hy, hv⟩ := wellFormed_parts k h
  obtain ⟨hd1, hd2, _⟩ := (isNumeral_iff d).mp hd
  obtain ⟨hm1, hm2, _⟩ := (isNumeral_iff m).mp hm
  obtain ⟨hy1, hy2, _⟩ := (isNumeral_iff y).mp hy
  simp only [validDate, Bool.and_eq_true, decide_eq_true_eq] at hv
  obtain ⟨⟨⟨⟨⟨_, hy3⟩, _⟩, hm3⟩, _⟩, hd3⟩ := hv
  have hdm : daysInMonth (digitsValue y) (digitsValue m) ≤ 31 := by
    unfold daysInMonth
    split_ifs <;> omega
  have b0 : digitsValue d < 2 ^ 53 := by
    have : (32 : ℕ) ≤ 2 ^ 53 := by decide
    omega
  have b1 : digitsValue m < 2 ^ 53 := by
    have : (32 : ℕ) ≤ 2 ^ 53 := by decide
    omega
  have b2 : digitsValue y < 2 ^ 53 := by
    have : (275760 : ℕ) ≤ 2 ^ 53 := by decide
    omega
  rw [civilOf_of_parts k d m y hsp]
  unfold dateKey
  rw [hsp]
  have e0 : toNumberAt [d, m, y] 0 = .fin (digitsValue d) := by
    simp [toNumberAt, toNumber_digits d hd1 hd2 b0]
  have e1 : toNumberAt [d, m, y] 1 = .fin (digitsValue m) := by
    simp [toNumberAt, toNumber_digits m hm1 hm2 b1]
  have e2 : toNumberAt [d, m, y] 2 = .fin (digitsValue y) := by
    simp [toNumberAt, toNumber_digits y hy1 hy2 b2]
  rw [e0, e1, e2, fin_sub]

/-- A well-formed date text is no array index and no name of a member of
`Object.prototype`. -/
theorem wellFormed_plain (k : String) (h : isWellFormedDate k = true) :
    isArrayIndex k = false ∧ objectPrototypeKeys.contains k = false := by
  obtain ⟨d, m, y, hsp, _⟩ := wellFormed_parts k h
  constructor
  · by_contra hidx
    rw [Bool.not_eq_false] at hidx
    simp only [isArrayIndex, Bool.and_eq_true] at hidx
    have hall : ∀ c ∈ k.data, c.isDigit = true := by
      simpa using hidx.1.1.2
    have hdot : '.' ∉ k.data := fun hm => absurd (hall _ hm) (by decide)
    rw [splitChar_of_not_mem '.' _ hdot] at hsp
    simp at hsp
  · by_contra hc
    rw [Bool.not_eq_false] at hc
    have hmem : k ∈ objectPrototypeKeys := by simpa using hc
    have hno : ∀ x ∈ objectPrototypeKeys, isWellFormedDate x = false := by decide
    rw [hno k hmem] at h
    cases h

/-! ## Lemmas on the order of dates -/

theorem civilLt_trichotomy (a b : Nat × Nat × Nat) : civilLt a b ∨ a = b ∨ civilLt b a := by
  obtain ⟨a1, a2, a3⟩ := a
  obtain ⟨b1, b2, b3⟩ := b
  simp only [civilLt, Prod.mk.injEq]
  omega

theorem civilLt_asymm (a b : Nat × Nat × Nat) (h : civilLt a b) : ¬ civilLt b a := by
  obtain ⟨a1, a2, a3⟩ := a
  obtain ⟨b1, b2, b3⟩ := b
  simp only [civilLt] at h ⊢
  omega

theorem civilLt_irrefl (a : Nat × Nat × Nat) : ¬ civilLt a a := by
  obtain ⟨a1, a2, a3⟩ := a
  simp only [civilLt]
  omega

theorem not_civilLt_trans (a b c : Nat × Nat × Nat) (h1 : ¬ civilLt a b)
    (h2 : ¬ civilLt b c) : ¬ civilLt a c := by
  obtain ⟨a1, a2, a3⟩ := a
  obtain ⟨b1, b2, b3⟩ := b
  obtain ⟨c1, c2, c3⟩ := c
  simp only [civilLt] at h1 h2 ⊢
  omega

theorem sub_self_gt (x : Number) : (x - x).gt (.fin 0) = false := by
  cases x with
  | nan => rfl
  | fin q =>
    rw [fin_sub, sub_self]
    simp [Number.gt, Number.lt]
  | inf n =>
    show (Number.add (.inf n) (Number.neg (.inf n))).gt (.fin 0) = false
    cases n <;> rfl

theorem fin_sub_gt (t t1 : ℚ) :
    ((Number.fin t1 - Number.fin t).gt (.fin 0) = false) ↔ ¬ t < t1 := by
  rw [fin_sub]
  simp [Number.gt, Number.lt]

theorem wellFormed_valid (k : String) (h : isWellFormedDate k = true) :
    validDate (civilOf k).2.2 (civilOf k).2.1 (civilOf k).1 = true := by
  obtain ⟨d, m, y, hsp, _, _, _, hv⟩ := wellFormed_parts k h
  rw [civilOf_of_parts k d m y hsp]
  exact hv

/-- On well-formed date texts the comparator of `allDays` keeps `a` before `b` exactly when
the date of `a` is not before the date of `b`. -/
theorem dateKey_order (dateMs : Number → Number → Number → Number) (hhost : HostDate dateMs)
    (k k1 : String) (h : isWellFormedDate k = true) (h1 : isWellFormedDate k1 = true) :
    ((dateKey dateMs k1 - dateKey dateMs k).gt (.fin 0) = false) ↔
      ¬ civilLt (civilOf k) (civilOf k1) := by
  have hv := wellFormed_valid k h
  have hv1 := wellFormed_valid k1 h1
  rcases civilLt_trichotomy (civilOf k) (civilOf k1) with hlt | heq | hgt
  · obtain ⟨t, t1, e, e1, hlt2⟩ := hhost _ _ _ _ _ _ hv hv1 hlt
    rw [dateKey_wellFormed dateMs k h, dateKey_wellFormed dateMs k1 h1, e, e1, fin_sub_gt]
    exact ⟨fun hn => absurd hlt2 hn, fun hn => absurd hlt hn⟩
  · have hk : k = k1 := wellFormed_inj k k1 h h1 heq
    rw [hk]
    exact ⟨fun _ => civilLt_irrefl _, fun _ => sub_self_gt _⟩
  · obtain ⟨t1, t, e1, e, hlt2⟩ := hhost _ _ _ _ _ _ hv1 hv hgt
    rw [dateKey_wellFormed dateMs k h, dateKey_wellFormed dateMs k1 h1, e, e1, fin_sub_gt]
    exact ⟨fun _ => civilLt_asymm _ _ hgt, fun _ => not_lt.mpr (le_of_lt hlt2)⟩

/-! ## Lemmas on sorting -/

theorem orderedInsert_congr {α : Type} (r s : α → α → Prop) [DecidableRel r] [DecidableRel s]
    (a : α) :
    ∀ t : List α, (∀ b ∈ t, r a b ↔ s a b) → t.orderedInsert r a = t.orderedInsert s a
  | [], _ => rfl
  | b :: t, h => by
    have hb := h b (List.mem_cons_self _ _)
    have ih := orderedInsert_congr r s a t (fun c hc => h c (List.mem_cons_of_mem _ hc))
    by_cases hr : r a b
    · have hs : s a b := hb.mp hr
      simp only [List.orderedInsert, hr, hs, if_true]
    · have hs : ¬ s a b := fun x => hr (hb.mpr x)
      simp only [List.orderedInsert, hr, hs, if_false, ih]

/-- Sorting depends on the order only between elements of the list. -/
theorem insertionSort_congr {α : Type} (r s : α → α → Prop) [DecidableRel r] [DecidableRel s] :
    ∀ l : List α, (∀ a ∈ l, ∀ b ∈ l, r a b ↔ s a b) →
      l.insertionSort r = l.insertionSort s
  | [], _ => rfl
  | a :: l, h => by
    have ih := insertionSort_congr r s l
      (fun x hx y hy => h x (List.mem_cons_of_mem _ hx) y (List.mem_cons_of_mem _ hy))
    rw [List.insertionSort, List.insertionSort, ih]
    apply orderedInsert_congr
    intro b hb
    have hb2 : b ∈ l := (List.perm_insertionSort s l).subset hb
    exact h a (List.mem_cons_self _ _) b (List.mem_cons_of_mem _ hb2)

/-! ## Lemmas on the groups of days -/

/-- Without names of members of `Object.prototype`, `groupByDate` is its loop. -/
theorem groupByDate_eq (entries : List Entry)
    (hplain : ∀ e ∈ entries, objectPrototypeKeys.contains e.date = false) :
    groupByDate entries =
      some
        (entries.foldl
          (fun days e => setItem e.date ((getItem e.date days).getD [] ++ [e]) days) []) :=
  foldlM_guard (fun e : Entry => objectPrototypeKeys.contains e.date)
    (fun days e => setItem e.date ((getItem e.date days).getD [] ++ [e]) days) entries []
    hplain

theorem foldl_group (ms : List Entry) :
    ∀ g : List Entry,
      ms.foldl (fun (v : Option (List Entry)) (e : Entry) => some (v.getD [] ++ [e]))
        (some g) = some (g ++ ms) := by
  induction ms with
  | nil => intro g; simp
  | cons e ms ih =>
    intro g
    rw [List.foldl_cons]
    simp only [Option.getD_some]
    rw [ih]
    simp

/-- The group under a date in the object `days`. -/
theorem getItem_groups (entries : List Entry) (k : String) :
    getItem k
        (entries.foldl
          (fun days e => setItem e.date ((getItem e.date days).getD [] ++ [e]) days) []) =
      if entries.filter (fun e => e.date == k) = [] then none
      else some (entries.filter (fun e => e.date == k)) := by
  rw [getItem_foldl (fun e : Entry => e.date)
    (fun (e : Entry) (v : Option (List Entry)) => v.getD [] ++ [e]) k entries []]
  cases hms : entries.filter (fun e => e.date == k) with
  | nil => simp [getItem]
  | cons e ms =>
    rw [List.foldl_cons]
    have h0 : (getItem k ([] : List (String × List Entry))).getD [] ++ [e] = [e] := rfl
    rw [h0, foldl_group]
    simp

theorem objectEntries_of_no_index {α : Type} (obj : List (String × α))
    (h : ∀ p ∈ obj, isArrayIndex p.1 = false) : objectEntries obj = obj := by
  unfold objectEntries
  have h1 : obj.filter (fun p => isArrayIndex p.1) = [] := by
    rw [List.filter_eq_nil_iff]
    intro p hp
    simp [h p hp]
  have h2 : obj.filter (fun p => !isArrayIndex p.1) = obj := by
    rw [List.filter_eq_self]
    intro p hp
    simp [h p hp]
  rw [h1, h2]
  rfl

theorem daysInMonth_le (y m : Nat) : daysInMonth y m ≤ 31 := by
  unfold daysInMonth
  split_ifs <;> omega

theorem hostDate_sampleDateMs : HostDate sampleDateMs := by
  intro d m y d1 m1 y1 hv hv1 hlt
  simp only [validDate, Bool.and_eq_true, decide_eq_true_eq] at hv hv1
  have hd := daysInMonth_le y m
  have hd1 := daysInMonth_le y1 m1
  refine ⟨(y : ℚ) * 372 + ((m : ℚ) - 1) * 31 + d, (y1 : ℚ) * 372 + ((m1 : ℚ) - 1) * 31 + d1,
    ?_, ?_, ?_⟩
  · simp only [sampleDateMs, fin_mul, fin_add]
  · simp only [sampleDateMs, fin_mul, fin_add]
  · have hn : y * 372 + m * 31 + d < y1 * 372 + m1 * 31 + d1 := by
      simp only [civilLt] at hlt
      omega
    have hq : ((y * 372 + m * 31 + d : ℕ) : ℚ) < ((y1 * 372 + m1 * 31 + d1 : ℕ) : ℚ) := by
      exact_mod_cast hn
    push_cast at hq
    linarith

/-! ## All days: results -/

/-- C24: on a host whose `Date` orders the dates of the calendar, and for entries whose
dates are well-formed texts `day.month.year` (numerals without leading zeros that are a
date of the calendar), `allDays` returns groups with one group per date of an entry, each
group holding exactly the entries of its date in the order of the list, and the groups
are ordered strictly descending by (year, month, day). -/
theorem allDays_spec (dateMs : Number → Number → Number → Number) (entries : List Entry)
    (hhost : HostDate dateMs) (hwf : ∀ e ∈ entries, isWellFormedDate e.date = true) :
    ∃ groups, allDays dateMs entries = some groups ∧
      (groups.map Prod.fst).Nodup ∧
      (∀ k, k ∈ groups.map Prod.fst ↔ ∃ e ∈ entries, e.date = k) ∧
      (∀ k g, (k, g) ∈ groups → g = entries.filter (fun e => e.date == k)) ∧
      groups.Pairwise (fun a b => civilLt (civilOf b.1) (civilOf a.1)) := by
  have hplain : ∀ e ∈ entries, objectPrototypeKeys.contains e.date = false :=
    fun e he => (wellFormed_plain e.date (hwf e he)).2
  have hgroup := groupByDate_eq entries hplain
  have hnd :=
    nodup_keys_foldl (fun e : Entry => e.date)
      (fun (e : Entry) (v : Option (List Entry)) => v.getD [] ++ [e]) entries []
      List.nodup_nil
  have hmem := fun k =>
    mem_keys_foldl (fun e : Entry => e.date)
      (fun (e : Entry) (v : Option (List Entry)) => v.getD [] ++ [e]) k entries []
  have hget := getItem_groups entries
  generalize hdays :
    entries.foldl
      (fun days e => setItem e.date ((getItem e.date days).getD [] ++ [e]) days) [] = days
    at hgroup hnd hmem hget
  have hkeys : ∀ k, k ∈ days.map Prod.fst ↔ ∃ e ∈ entries, e.date = k := by
    intro k
    rw [hmem k]
    simp
  have hwfk : ∀ p ∈ days, isWellFormedDate p.1 = true := by
    intro p hp
    obtain ⟨e, he, hk⟩ := (hkeys p.1).mp (List.mem_map.mpr ⟨p, hp, rfl⟩)
    rw [← hk]
    exact hwf e he
  have hent : objectEntries days = days :=
    objectEntries_of_no_index days (fun p hp => (wellFormed_plain p.1 (hwfk p hp)).1)
  have hsort :
      days.insertionSort
          (fun a b => (dateKey dateMs b.1 - dateKey dateMs a.1).gt (.fin 0) = false) =
        days.insertionSort (fun a b => ¬ civilLt (civilOf a.1) (civilOf b.1)) :=
    insertionSort_congr _ _ days
      (fun a ha b hb => dateKey_order dateMs hhost a.1 b.1 (hwfk a ha) (hwfk b hb))
  have hall : allDays dateMs entries =
      some (days.insertionSort (fun a b => ¬ civilLt (civilOf a.1) (civilOf b.1))) := by
    unfold allDays
    rw [hgroup, Option.map_some', hent, hsort]
  have hperm := List.perm_insertionSort
    (fun a b : String × List Entry => ¬ civilLt (civilOf a.1) (civilOf b.1)) days
  haveI : IsTotal (String × List Entry)
      (fun a b => ¬ civilLt (civilOf a.1) (civilOf b.1)) :=
    ⟨fun a b => by
      by_cases h : civilLt (civilOf a.1) (civilOf b.1)
      · exact Or.inr (civilLt_asymm _ _ h)
      · exact Or.inl h⟩
  haveI : IsTrans (String × List Entry)
      (fun a b => ¬ civilLt (civilOf a.1) (civilOf b.1)) :=
    ⟨fun a b c h1 h2 => not_civilLt_trans _ _ _ h1 h2⟩
  have hsorted := List.sorted_insertionSort
    (fun a b : String × List Entry => ¬ civilLt (civilOf a.1) (civilOf b.1)) days
  generalize hgroups :
    days.insertionSort (fun a b => ¬ civilLt (civilOf a.1) (civilOf b.1)) = groups
    at hall hperm hsorted
  have hnd2 : (groups.map Prod.fst).Nodup := (hperm.map Prod.fst).nodup_iff.mpr hnd
  refine ⟨groups, hall, hnd2, ?_, ?_, ?_⟩
  · intro k
    rw [(hperm.map Prod.fst).mem_iff]
    exact hkeys k
  · intro k g hkg
    have hin : (k, g) ∈ days := hperm.subset hkg
    have h1 := getItem_of_mem k g days hnd hin
    rw [hget k] at h1
    by_cases hc : entries.filter (fun e => e.date == k) = []
    · rw [if_pos hc] at h1
      cases h1
    · rw [if_neg hc, Option.some.injEq] at h1
      exact h1.symm
  · have hne : groups.Pairwise (fun a b => a.1 ≠ b.1) := by
      have := hnd2
      rw [List.Nodup, List.pairwise_map] at this
      exact this
    have hboth := List.Pairwise.and hsorted hne
    refine hboth.imp_of_mem ?_
    intro a b ha hb hab
    rcases civilLt_trichotomy (civilOf a.1) (civilOf b.1) with hlt | heq | hgt
    · exact absurd hlt hab.1
    · exact absurd
        (wellFormed_inj a.1 b.1 (hwfk a (hperm.subset ha)) (hwfk b (hperm.subset hb)) heq)
        hab.2
    · exact hgt

/-- Witness of C24: entries on the 9th, the 10th and again the 9th of November 2026 give
the group of the 10th before the group of the 9th, which a comparison of the texts would
put the other way round. -/
theorem allDays_spec_witness :
    HostDate sampleDateMs ∧
    (∀ e ∈ [sampleEntry 1 300 "9.11.2026" none, sampleEntry 2 500 "10.11.2026" none,
        sampleEntry 3 20 "9.11.2026" none], isWellFormedDate e.date = true) ∧
    allDays sampleDateMs
      [sampleEntry 1 300 "9.11.2026" none, sampleEntry 2 500 "10.11.2026" none,
        sampleEntry 3 20 "9.11.2026" none] =
      some [("10.11.2026", [sampleEntry 2 500 "10.11.2026" none]),
        ("9.11.2026",
          [sampleEntry 1 300 "9.11.2026" none, sampleEntry 3 20 "9.11.2026" none])] ∧
    ∃ groups,
      allDays sampleDateMs
        [sampleEntry 1 300 "9.11.2026" none, sampleEntry 2 500 "10.11.2026" none,
          sampleEntry 3 20 "9.11.2026" none] = some groups ∧
      groups.Pairwise (fun a b => civilLt (civilOf b.1) (civilOf a.1)) := by
  have hwf : ∀ e ∈ [sampleEntry 1 300 "9.11.2026" none, sampleEntry 2 500 "10.11.2026" none,
      sampleEntry 3 20 "9.11.2026" none], isWellFormedDate e.date = true := by decide
  refine ⟨hostDate_sampleDateMs, hwf, ?_,
    (allDays_spec sampleDateMs _ hostDate_sampleDateMs hwf).imp
      (fun _ h => ⟨h.1, h.2.2.2.2⟩)⟩
  have hg : groupByDate
      [sampleEntry 1 300 "9.11.2026" none, sampleEntry 2 500 "10.11.2026" none,
        sampleEntry 3 20 "9.11.2026" none] =
      some [("9.11.2026",
          [sampleEntry 1 300 "9.11.2026" none, sampleEntry 3 20 "9.11.2026" none]),
        ("10.11.2026", [sampleEntry 2 500 "10.11.2026" none])] := by
    rw [groupByDate_eq _ (by decide)]
    simp [sampleEntry, setItem, getItem]
  have hent : objectEntries
      [("9.11.2026",
          [sampleEntry 1 300 "9.11.2026" none, sampleEntry 3 20 "9.11.2026" none]),
        ("10.11.2026", [sampleEntry 2 500 "10.11.2026" none])] =
      [("9.11.2026",
          [sampleEntry 1 300 "9.11.2026" none, sampleEntry 3 20 "9.11.2026" none]),
        ("10.11.2026", [sampleEntry 2 500 "10.11.2026" none])] :=
    objectEntries_of_no_index _ (by decide)
  have hr : ¬ ((dateKey sampleDateMs "10.11.2026" - dateKey sampleDateMs "9.11.2026").gt
      (.fin 0) = false) := by
    rw [dateKey_order sampleDateMs hostDate_sampleDateMs "9.11.2026" "10.11.2026"
      (by decide) (by decide)]
    decide
  unfold allDays
  rw [hg, Option.map_some', hent]
  simp only [List.insertionSort, List.orderedInsert, hr, if_false]
  rfl

end Kaloriebot
